import Mathlib

/-!
Verification of the sandboxed command-execution engine of the `turtle`
terminal-skills trainer: the in-memory filesystem, the goal DSL, and the
mission runner with its tmux session emulator.

The Go sources are translated into pure Lean functions.  Pointer-based
in-place mutation of the file tree becomes structural rebuilding along the
access path; the `Parent` back-references of the Go `File` struct are
implicit (the node reached by all but the last non-empty path segment is
the parent that Go's pointer designates, and Go's pointer-identity removal
from `parent.Children` removes the first child whose name matches, because
`findChild` returns the first name match).  Modification timestamps
(`ModTime`, set from `time.Now()`) are omitted: no claim observes them.
-/

set_option maxHeartbeats 1000000

namespace Turtle

/-! ## Byte-free string utilities mirroring Go's `strings` / `path/filepath` -/

/-- Split a character list at every occurrence of `c`; mirrors Go
`strings.Split` with a single-character separator (always returns at least
one piece, and `n` separators yield `n+1` pieces). -/
def splitCharList (c : Char) : List Char → List (List Char)
  | [] => [[]]
  | x :: xs =>
    if x = c then [] :: splitCharList c xs
    else
      match splitCharList c xs with
      | [] => [[x]]
      | h :: t => (x :: h) :: t

/-- Go `strings.Split(s, "/")`. -/
def splitSlash (s : String) : List String :=
  (splitCharList '/' s.data).map (fun l => String.mk l)

/-- Go `strings.Split(s, "\n")`. -/
def splitNl (s : String) : List String :=
  (splitCharList '\n' s.data).map (fun l => String.mk l)

/-- Join strings with `/` separators (inverse of `splitSlash` on good segments). -/
def joinSlash : List String → String
  | [] => ""
  | [x] => x
  | x :: xs => x ++ "/" ++ joinSlash xs

/-- Character-list substring search: `sub` occurs as a contiguous run of `s`. -/
def listContains : List Char → List Char → Bool
  | s, sub =>
    if sub.isPrefixOf s then true
    else
      match s with
      | [] => false
      | _ :: t => listContains t sub

/-- Go `strings.Contains(s, sub)` (byte search in Go; for valid UTF-8 a byte
infix is exactly a character-list infix). -/
def strContains (s sub : String) : Bool :=
  listContains s.data sub.data

/-- Go `strings.HasPrefix` (a byte-level prefix test in Go; for valid UTF-8
this is exactly the character-level prefix test). -/
def hasPrefixGo (s p : String) : Bool :=
  p.data.isPrefixOf s.data

/-- Go `strings.TrimPrefix(s, "/")`. -/
def stripLeadingSlash (p : String) : String :=
  if hasPrefixGo p "/" then p.drop 1 else p

/-- The segment loop of Go `filepath.Clean`: empty and `.` segments are
dropped, `..` pops the previously kept segment, is dropped at the root of a
rooted path, and is kept at the front of a relative path.  `out` holds the
kept segments in reverse order. -/
def dotdotStep (rooted : Bool) : List String → List String
  | [] => if rooted then [] else [".."]
  | o :: out' => if o = ".." then ".." :: o :: out' else out'

def cleanLoop (rooted : Bool) : List String → List String → List String
  | out, [] => out.reverse
  | out, s :: rest =>
    if s = "" ∨ s = "." then cleanLoop rooted out rest
    else if s = ".." then cleanLoop rooted (dotdotStep rooted out) rest
    else cleanLoop rooted (s :: out) rest

def cleanSegs (rooted : Bool) (l : List String) : List String :=
  cleanLoop rooted [] l

/-- Go `filepath.Clean` for slash-separated paths. -/
def clean (p : String) : String :=
  if p = "" then "."
  else
    let rooted := hasPrefixGo p "/"
    let out := joinSlash (cleanSegs rooted (splitSlash p))
    if rooted then "/" ++ out
    else if out = "" then "." else out

/-- Go `filepath.Join` restricted to two elements: empty elements are
skipped, the rest are joined with `/` and cleaned; all-empty input gives `""`. -/
def joinPath (a b : String) : String :=
  let elems := [a, b].filter (fun x => x ≠ "")
  if elems.isEmpty then "" else clean (joinSlash elems)

/-- Go `filepath.Dir`: everything up to and including the final slash,
cleaned; `.` when the path contains no slash. -/
def dirGo (p : String) : String :=
  let parts := splitSlash p
  if parts.length ≤ 1 then "."
  else clean (joinSlash parts.dropLast ++ "/")

/-- Go `filepath.Base`: strip trailing slashes, then the part after the last
slash; `.` for the empty path and `/` for an all-slash path. -/
def baseGo (p : String) : String :=
  if p = "" then "."
  else
    let q : String := String.mk ((p.data.reverse.dropWhile (fun c => c = '/')).reverse)
    if q = "" then "/"
    else (splitSlash q).getLastD ""

/-! ## The file tree (`File` in `internal/sandbox`) -/

inductive FileType where
  | regular
  | directory
  | hidden
deriving DecidableEq, Repr

/-- `FileTypeDirectory || FileTypeHidden`, the test Go code applies to decide
whether a node may be entered / listed as a directory. -/
def isDirType : FileType → Bool
  | .directory => true
  | .hidden => true
  | .regular => false

/-- One node of the sandbox tree.  Go's `Parent` pointer and `ModTime` are
not represented (see the module comment). -/
inductive File where
  | mk (name : String) (type : FileType) (content : String) (children : List File) (size : Nat)
deriving Repr

def File.name : File → String
  | .mk n _ _ _ _ => n

def File.type : File → FileType
  | .mk _ t _ _ _ => t

def File.content : File → String
  | .mk _ _ c _ _ => c

def File.children : File → List File
  | .mk _ _ _ ch _ => ch

def File.size : File → Nat
  | .mk _ _ _ _ s => s

def File.setChildren : File → List File → File
  | .mk n t c _ s, ch => .mk n t c ch s

/-- Go `findChild`: the first child with the given name. -/
def findChild : List File → String → Option File
  | [], _ => none
  | f :: fs, n => if f.name = n then some f else findChild fs n

/-- Replace the first child with the given name (Go mutates the pointer
returned by `findChild` in place). -/
def replaceFirst : List File → String → File → List File
  | [], _, _ => []
  | f :: fs, n, g => if f.name = n then g :: fs else f :: replaceFirst fs n g

/-- Remove the first child with the given name (Go splices the node found by
pointer identity out of `parent.Children`). -/
def removeFirst : List File → String → List File
  | [], _ => []
  | f :: fs, n => if f.name = n then fs else f :: removeFirst fs n

/-- The walk of Go `getNode`, on already-split segments: empty segments are
skipped, each other segment descends into the first matching child. -/
def getNodeAt : File → List String → Option File
  | t, [] => some t
  | t, p :: rest =>
    if p = "" then getNodeAt t rest
    else
      match findChild t.children p with
      | none => none
      | some c => getNodeAt c rest

/-- Rebuild the tree with `f` applied to the node reached by the given
segments (the functional counterpart of mutating through a Go pointer
obtained by the `getNodeAt` walk); the tree is returned unchanged when the
walk fails. -/
def modifyAt : File → List String → (File → File) → File
  | t, [], f => f t
  | t, p :: rest, f =>
    if p = "" then modifyAt t rest f
    else
      match findChild t.children p with
      | none => t
      | some c => t.setChildren (replaceFirst t.children p (modifyAt c rest f))

/-- The loop of Go `Filesystem.Mkdir` on already-split segments: descend
through existing directory (or hidden) nodes, create missing ones, and stop
with an error at an existing non-directory node.  Creations made before the
error are kept, as with Go's in-place mutation. -/
def mkdirAt : File → List String → File × Option String
  | t, [] => (t, none)
  | t, p :: rest =>
    if p = "" then mkdirAt t rest
    else
      match findChild t.children p with
      | none =>
        let newDir : File := .mk p (if hasPrefixGo p "." then .hidden else .directory) "" [] 0
        let (sub, e) := mkdirAt newDir rest
        (t.setChildren (t.children ++ [sub]), e)
      | some c =>
        if isDirType c.type then
          let (sub, e) := mkdirAt c rest
          (t.setChildren (replaceFirst t.children p sub), e)
        else (t, some ("not a directory: " ++ p))

/-- Go `cloneFile` (the rebuilt `Parent` links are implicit here). -/
def cloneFile : File → File
  | .mk n t c ch s => .mk n t c (ch.attach.map (fun x => cloneFile x.1)) s
decreasing_by
  have := List.sizeOf_lt_of_mem x.2
  simp only [File.mk.sizeOf_spec]
  omega

/-! ## The sandbox filesystem (`Filesystem` in `internal/sandbox`) -/

/-- The sandbox environment.  Go additionally caches `Cwd *File`; it is only
ever written (every read goes through `CwdPath`), so it is not represented. -/
structure Filesystem where
  root : File
  cwdPath : String
  home : String
  user : String
deriving Repr

def Filesystem.withRoot (fs : Filesystem) (r : File) : Filesystem :=
  { fs with root := r }

/-- Go `NewFilesystem`. -/
def NewFilesystem : Filesystem :=
  { root := .mk "/" .directory "" [] 0
    cwdPath := "/"
    home := "/home/learner"
    user := "learner" }

/-- Go `resolvePath`: converts relative paths to absolute. -/
def Filesystem.resolvePath (fs : Filesystem) (path : String) : String :=
  if path = "" then fs.cwdPath
  else if path = "~" then fs.home
  else
    let path := if hasPrefixGo path "~/" then fs.home ++ path.drop 1 else path
    if hasPrefixGo path "/" then clean path
    else clean (fs.cwdPath ++ "/" ++ path)

/-- Go `splitPath`. -/
def splitPath (path : String) : List String :=
  let path := clean path
  if path = "/" then []
  else splitSlash (stripLeadingSlash path)

/-- Go `getNode`: find a node by (already resolved) path. -/
def Filesystem.getNode (fs : Filesystem) (path : String) : Except String File :=
  if path = "/" then .ok fs.root
  else
    match getNodeAt fs.root (splitPath path) with
    | some n => .ok n
    | none => .error ("no such file or directory: " ++ path)

/-- Go `Mkdir`: creates a directory (and parents if needed). -/
def Filesystem.Mkdir (fs : Filesystem) (path : String) : Filesystem × Option String :=
  let p := fs.resolvePath path
  let (root', e) := mkdirAt fs.root (splitPath p)
  (fs.withRoot root', e)

/-- Go `Touch`: creates an empty file, or (in Go) only refreshes `ModTime`
when the file exists — a no-op in this timestamp-free model. -/
def Filesystem.Touch (fs : Filesystem) (path : String) : Filesystem × Option String :=
  let p := fs.resolvePath path
  let dir := dirGo p
  let name := baseGo p
  match fs.Mkdir dir with
  | (fs1, some e) => (fs1, some e)
  | (fs1, none) =>
    match fs1.getNode dir with
    | .error e => (fs1, some e)
    | .ok parent =>
      match findChild parent.children name with
      | some _ => (fs1, none)
      | none =>
        let ftype : FileType := if hasPrefixGo name "." then .hidden else .regular
        let newFile : File := .mk name ftype "" [] 0
        (fs1.withRoot (modifyAt fs1.root (splitPath dir)
          (fun d => d.setChildren (d.children ++ [newFile]))), none)

/-- Go `WriteFile`: writes content to a file (creates if it doesn't exist).
Go stores `len(content)` — a byte count — into `Size`. -/
def Filesystem.WriteFile (fs : Filesystem) (path content : String) : Filesystem × Option String :=
  match fs.Touch path with
  | (fs1, some e) => (fs1, some e)
  | (fs1, none) =>
    let p := fs1.resolvePath path
    match fs1.getNode p with
    | .error e => (fs1, some e)
    | .ok _ =>
      (fs1.withRoot (modifyAt fs1.root (splitPath p)
        (fun n => .mk n.name n.type content n.children content.utf8ByteSize)), none)

/-- Go `ReadFile`. -/
def Filesystem.ReadFile (fs : Filesystem) (path : String) : Except String String :=
  match fs.getNode (fs.resolvePath path) with
  | .error e => .error e
  | .ok node =>
    if node.type = .directory then .error ("is a directory: " ++ path)
    else .ok node.content

/-- Go `Cd`: changes the current working directory. -/
def Filesystem.Cd (fs : Filesystem) (path : String) : Filesystem × Option String :=
  let path :=
    if path = "" ∨ path = "~" then fs.home
    else if hasPrefixGo path "~/" then fs.home ++ path.drop 1
    else path
  let resolved := fs.resolvePath path
  match fs.getNode resolved with
  | .error e => (fs, some e)
  | .ok node =>
    if node.type ≠ .directory ∧ node.type ≠ .hidden then
      (fs, some ("not a directory: " ++ path))
    else ({ fs with cwdPath := resolved }, none)

/-- Go `Pwd`. -/
def Filesystem.Pwd (fs : Filesystem) : String :=
  fs.cwdPath

/-- Go `sort.Strings` (ascending byte order; for valid UTF-8 this is the
character-wise lexicographic order). -/
def sortStrings (l : List String) : List String :=
  l.mergeSort (fun a b => a ≤ b)

/-- Go `Ls`: lists directory contents. -/
def Filesystem.Ls (fs : Filesystem) (path : String) (showHidden : Bool) :
    Except String (List String) :=
  let path := if path = "" then fs.cwdPath else path
  match fs.getNode (fs.resolvePath path) with
  | .error e => .error e
  | .ok node =>
    if node.type ≠ .directory ∧ node.type ≠ .hidden then .ok [node.name]
    else
      let names := node.children.filterMap (fun child =>
        if ¬ hasPrefixGo child.name "." ∨ showHidden then
          some (child.name ++ if child.type = .directory then "/" else "")
        else none)
      .ok (sortStrings names)

/-- Go `Rm`: removes a file; `node.Parent == nil` is exactly "the walk
consumed no non-empty segment", i.e. the node is the root. -/
def Filesystem.Rm (fs : Filesystem) (path : String) : Filesystem × Option String :=
  let resolved := fs.resolvePath path
  match fs.getNode resolved with
  | .error e => (fs, some e)
  | .ok node =>
    if node.type = .directory then
      (fs, some ("is a directory (use rm -r): " ++ path))
    else
      let parts := (splitPath resolved).filter (fun s => s ≠ "")
      match parts.getLast? with
      | none => (fs, some "cannot remove root")
      | some last =>
        (fs.withRoot (modifyAt fs.root parts.dropLast
          (fun parent => parent.setChildren (removeFirst parent.children last))), none)

/-- Go `Cp`: copies a file (no directory handling on the destination:
the content is written to `dst` exactly as given). -/
def Filesystem.Cp (fs : Filesystem) (src dst : String) : Filesystem × Option String :=
  match fs.getNode (fs.resolvePath src) with
  | .error e => (fs, some e)
  | .ok srcNode =>
    if srcNode.type = .directory then (fs, some ("is a directory (use cp -r): " ++ src))
    else fs.WriteFile dst srcNode.content

/-- Go `Mv`: moves/renames a file or directory.  The source node is detached
from its old parent before the destination directory is created, so a later
failure leaves the source detached (observable below in the claim about
partial mutation).  Go would build a cyclic graph when the source is the
root (whose `Parent` is nil, skipping the detach) — this value model copies
instead; no claim involves moving the root. -/
def Filesystem.Mv (fs : Filesystem) (src dst : String) : Filesystem × Option String :=
  let srcResolved := fs.resolvePath src
  match fs.getNode srcResolved with
  | .error e => (fs, some e)
  | .ok srcNode =>
    let dstResolved := fs.resolvePath dst
    let dstResolved :=
      match fs.getNode dstResolved with
      | .ok dstNode =>
        if dstNode.type = .directory then joinPath dstResolved srcNode.name else dstResolved
      | .error _ => dstResolved
    let srcParts := (splitPath srcResolved).filter (fun s => s ≠ "")
    let root1 :=
      match srcParts.getLast? with
      | none => fs.root
      | some last =>
        modifyAt fs.root srcParts.dropLast
          (fun parent => parent.setChildren (removeFirst parent.children last))
    let fs1 := fs.withRoot root1
    let dstDir := dirGo dstResolved
    let dstName := baseGo dstResolved
    match fs1.Mkdir dstDir with
    | (fs2, some e) => (fs2, some e)
    | (fs2, none) =>
      match fs2.getNode dstDir with
      | .error e => (fs2, some e)
      | .ok _ =>
        let moved : File := .mk dstName srcNode.type srcNode.content srcNode.children srcNode.size
        (fs2.withRoot (modifyAt fs2.root (splitPath dstDir)
          (fun p => p.setChildren (p.children ++ [moved]))), none)

/-- Go `Exists`. -/
def Filesystem.Exists (fs : Filesystem) (path : String) : Bool :=
  match fs.getNode (fs.resolvePath path) with
  | .ok _ => true
  | .error _ => false

/-- Go `IsDir` (`FileTypeDirectory || FileTypeHidden`). -/
def Filesystem.IsDir (fs : Filesystem) (path : String) : Bool :=
  match fs.getNode (fs.resolvePath path) with
  | .error _ => false
  | .ok node => isDirType node.type

/-- Go `Cat`. -/
def Filesystem.Cat (fs : Filesystem) (path : String) : Except String String :=
  fs.ReadFile path

/-- Go `Grep`: lines of the file containing the literal pattern. -/
def Filesystem.Grep (fs : Filesystem) (pattern path : String) : Except String (List String) :=
  match fs.ReadFile path with
  | .error e => .error e
  | .ok content => .ok ((splitNl content).filter (fun line => strContains line pattern))

/-- Go `filepath.Match` restricted to `*`, `?` and literal characters;
character classes and escapes are not modelled (no claim depends on `Find`'s
pattern semantics, only on `Find` being a pure query). -/
def globMatch : List Char → List Char → Bool
  | [], [] => true
  | [], _ :: _ => false
  | '*' :: ps, s =>
    globMatch ps s ||
      (match s with
       | [] => false
       | _ :: s' => globMatch ('*' :: ps) s')
  | '?' :: ps, _ :: ss => globMatch ps ss
  | '?' :: _, [] => false
  | c :: ps, d :: ss => c = d && globMatch ps ss
  | _ :: _, [] => false
termination_by p s => (p.length, s.length)

/-- Go `findRecursive` (pre-order: a node, then its children left to right). -/
def findRecursive (node : File) (currentPath pattern : String) : List String :=
  (if globMatch pattern.data node.name.data then [currentPath] else []) ++
    (if isDirType node.type then
      (node.children.attach.map
        (fun c => findRecursive c.1 (joinPath currentPath c.1.name) pattern)).flatten
    else [])
termination_by sizeOf node
decreasing_by
  have := List.sizeOf_lt_of_mem c.2
  cases node
  simp only [File.children] at this
  simp only [File.mk.sizeOf_spec]
  omega

/-- Go `Find`. -/
def Filesystem.Find (fs : Filesystem) (startPath pattern : String) :
    Except String (List String) :=
  match fs.getNode (fs.resolvePath startPath) with
  | .error e => .error e
  | .ok start => .ok (findRecursive start (fs.resolvePath startPath) pattern)

/-- Go `Clone`: deep copy, then `Cd` back to the original's current path
with the error ignored. -/
def Filesystem.Clone (fs : Filesystem) : Filesystem :=
  let newFs : Filesystem :=
    { root := cloneFile fs.root, cwdPath := "/", home := fs.home, user := fs.user }
  (newFs.Cd fs.cwdPath).1

/-- Go `NewDefaultFilesystem` (setup errors ignored, as in the source). -/
def NewDefaultFilesystem : Filesystem :=
  let fs := NewFilesystem
  let fs := (fs.Mkdir "/home").1
  let fs := (fs.Mkdir "/home/learner").1
  let fs := (fs.Mkdir "/home/learner/projects").1
  let fs := (fs.Mkdir "/home/learner/documents").1
  let fs := (fs.Mkdir "/home/learner/downloads").1
  let fs := (fs.Mkdir "/tmp").1
  let fs := (fs.Mkdir "/var").1
  let fs := (fs.Mkdir "/var/log").1
  let fs := (fs.Mkdir "/etc").1
  let fs := (fs.Touch "/home/learner/.bashrc").1
  let fs := (fs.WriteFile "/home/learner/.bashrc" "# Bash configuration\nexport PATH=$PATH:~/bin\n").1
  let fs := (fs.Touch "/home/learner/readme.txt").1
  let fs := (fs.WriteFile "/home/learner/readme.txt" "Welcome to the terminal!\nThis is your home directory.\n").1
  let fs := (fs.Touch "/etc/passwd").1
  let fs := (fs.WriteFile "/etc/passwd" "root:x:0:0:root:/root:/bin/bash\nlearner:x:1000:1000::/home/learner:/bin/bash\n").1
  (fs.Cd "/home/learner").1

/-! ## The goal DSL (`internal/content`)

The Go parser receives a `map[string]any` decoded from YAML.  `Yaml` models
the possible dynamic values: strings, arrays, string-keyed maps, and
`other` for every remaining Go value (bool, number, nil), none of which
satisfies any of the parser's type assertions.  Go map iteration order is
unspecified; the parser returns on the first entry it sees, and the claims
below only involve maps with at most one key, for which the association
list model is exact. -/

inductive Yaml where
  | str (s : String)
  | list (items : List Yaml)
  | map (entries : List (String × Yaml))
  | other

/-- Go `m["k"]` on the association-list model of a map. -/
def lookupKey : List (String × Yaml) → String → Option Yaml
  | [], _ => none
  | (k, v) :: rest, key => if k = key then some v else lookupKey rest key

/-- The parsed goal tree (`GoalNode` and its variants in `internal/content`). -/
inductive GoalNode where
  | always
  | pwdEquals (path : String)
  | pathExists (path : String)
  | pathNotExists (path : String)
  | isDir (path : String)
  | isFile (path : String)
  | fileContains (path content : String)
  | and (conditions : List GoalNode)
  | or (conditions : List GoalNode)
  | not (condition : GoalNode)
deriving Repr

/- The `Evaluate` methods of the goal variants.  The `GoalEvaluator`
interface (`Pwd`, `Exists`, `IsDir`, `ReadFile`) is implemented by
`Filesystem`, so evaluation takes the filesystem directly.  `evalAll` and
`evalAny` are the `AndGoal`/`OrGoal` loops (left-to-right, short-circuit). -/
mutual

def GoalNode.Evaluate : GoalNode → Filesystem → Bool
  | .always, _ => true
  | .pwdEquals p, fs => fs.Pwd == p
  | .pathExists p, fs => fs.Exists p
  | .pathNotExists p, fs => !fs.Exists p
  | .isDir p, fs => fs.IsDir p
  | .isFile p, fs => fs.Exists p && !fs.IsDir p
  | .fileContains p c, fs =>
    match fs.ReadFile p with
    | .error _ => false
    | .ok content => strContains content c
  | .and cs, fs => evalAll cs fs
  | .or cs, fs => evalAny cs fs
  | .not g, fs => !g.Evaluate fs

def evalAll : List GoalNode → Filesystem → Bool
  | [], _ => true
  | g :: rest, fs => g.Evaluate fs && evalAll rest fs

def evalAny : List GoalNode → Filesystem → Bool
  | [], _ => false
  | g :: rest, fs => g.Evaluate fs || evalAny rest fs

end

/-- Go `parseStringGoal`. -/
def parseStringGoal (key : String) (value : Yaml) (create : String → GoalNode) :
    Except String GoalNode :=
  match value with
  | .str s => .ok (create s)
  | _ => .error (key ++ " expects string")

/-- Go `parseFileContains`. -/
def parseFileContains (value : Yaml) : Except String GoalNode :=
  match value with
  | .map m =>
    match lookupKey m "path" with
    | some (.str p) =>
      match lookupKey m "content" with
      | some (.str c) => .ok (.fileContains p c)
      | _ => .error "file_contains.content expects string"
    | _ => .error "file_contains.path expects string"
  | _ => .error "file_contains expects map with path and content"

/- Go `ParseGoal` / `parseGoalKey` / the element loops of `parseAnd` and
`parseOr` / `parseNot`.  `parseAnd`, `parseOr` and `parseNot` are inlined
into `parseGoalKey` (their bodies dispatch on the same `value`), and the
identical element loops of `parseAnd`/`parseOr` are shared as
`parseGoalList`; error texts are abbreviated (no claim inspects them).
`ParseGoal`'s `"empty goal"` fallthrough is unreachable: `parseGoalKey`
always returns a node or an error. -/
mutual

def ParseGoal : List (String × Yaml) → Except String GoalNode
  | [] => .ok .always
  | (key, value) :: _ => parseGoalKey key value

def parseGoalKey (key : String) (value : Yaml) : Except String GoalNode :=
  if key = "always" then .ok .always
  else if key = "pwd_equals" then parseStringGoal key value .pwdEquals
  else if key = "path_exists" then parseStringGoal key value .pathExists
  else if key = "path_not_exists" then parseStringGoal key value .pathNotExists
  else if key = "is_dir" then parseStringGoal key value .isDir
  else if key = "is_file" then parseStringGoal key value .isFile
  else if key = "file_contains" then parseFileContains value
  else if key = "and" then
    match value with
    | .list items =>
      match parseGoalList items with
      | .ok conditions => .ok (.and conditions)
      | .error e => .error e
    | _ => .error "and expects array"
  else if key = "or" then
    match value with
    | .list items =>
      match parseGoalList items with
      | .ok conditions => .ok (.or conditions)
      | .error e => .error e
    | _ => .error "or expects array"
  else if key = "not" then
    match value with
    | .map m =>
      match ParseGoal m with
      | .ok node => .ok (.not node)
      | .error e => .error e
    | _ => .error "not expects map"
  else .error ("unknown goal operation: " ++ key)

def parseGoalList : List Yaml → Except String (List GoalNode)
  | [] => .ok []
  | item :: rest =>
    match item with
    | .map m =>
      match ParseGoal m with
      | .ok node =>
        match parseGoalList rest with
        | .ok ns => .ok (node :: ns)
        | .error e => .error e
      | .error e => .error e
    | _ => .error "combinator element expects map"

end

/-! ## The mission runner (`internal/sandbox`, version with tmux emulation) -/

/-- Go `TmuxState`.  The numeric fields are Go `int`s; `Int` here. -/
structure TmuxState where
  inSession : Bool := false
  sessionName : String := ""
  panes : Int := 0
  windows : Int := 0
  currentPane : Int := 0
  currentWindow : Int := 0
  detached : Bool := false
deriving DecidableEq, Repr

/-- Go `Mission`.  `Setup` mutates the filesystem; `Goal` receives the
`goalContext` adapter, whose capabilities are the filesystem plus the raw
last command, so it is modelled as a function of both. -/
structure Mission where
  id : String := ""
  skillId : String := ""
  level : Int := 0
  title : String := ""
  briefing : String := ""
  hint : String := ""
  setup : Option (Filesystem → Filesystem) := none
  goal : Option (Filesystem → String → Bool) := none
  explanation : String := ""
  commands : List String := []

/-- Go `MissionResult`. -/
structure MissionResult where
  output : String := ""
  success : Bool := false
  error : String := ""
  completed : Bool := false
deriving DecidableEq, Repr

/-- Go `MissionRunner`. -/
structure MissionRunner where
  FS : Filesystem
  Mission : Mission
  InitialFS : Filesystem
  Attempts : Nat
  Completed : Bool
  History : List String
  Tmux : TmuxState

/-- Go `NewMissionRunner`. -/
def NewMissionRunner (m : Mission) : MissionRunner :=
  let fs := NewDefaultFilesystem
  let fs := match m.setup with
            | some s => s fs
            | none => fs
  { FS := fs
    Mission := m
    InitialFS := fs.Clone
    Attempts := 0
    Completed := false
    History := []
    Tmux := {} }

/-- Go `Reset`. -/
def MissionRunner.Reset (r : MissionRunner) : MissionRunner :=
  { r with FS := r.InitialFS.Clone, Attempts := 0, History := [] }

/-- Go `strings.TrimSpace` (drop leading and trailing whitespace), done on
the character list so that it evaluates inside the kernel. -/
def trimGo (s : String) : String :=
  String.mk (((s.data.dropWhile Char.isWhitespace).reverse.dropWhile
    Char.isWhitespace).reverse)

/-- The splitter behind `strings.Fields`. -/
def splitWsRev : List Char → List Char → List String
  | acc, [] => [String.mk acc.reverse]
  | acc, c :: rest =>
    if c.isWhitespace then String.mk acc.reverse :: splitWsRev [] rest
    else splitWsRev (c :: acc) rest

/-- Go `strings.Fields`: whitespace-separated words. -/
def fields (s : String) : List String :=
  (splitWsRev [] s.data).filter (fun x => x ≠ "")

/-- The `-s name` scan of the `new`/`new-session` branch. -/
def tmuxSessionName : List String → String → String
  | [], acc => acc
  | a :: rest, acc =>
    match rest with
    | b :: _ => if a = "-s" then tmuxSessionName rest b else tmuxSessionName rest acc
    | [] => tmuxSessionName rest acc

/-- Go `executeTmux`. -/
def MissionRunner.executeTmux (r : MissionRunner) (args : List String) :
    MissionResult × MissionRunner :=
  match args with
  | [] =>
    if r.Tmux.inSession then
      ({ error := "sessions should be nested with care, unset $TMUX to force" }, r)
    else
      ({ output := "[new session 0 created]", success := true },
       { r with Tmux := { inSession := true, sessionName := "0", panes := 1, windows := 1,
                          currentPane := 0, currentWindow := 0, detached := false } })
  | subCmd :: subArgs =>
    if subCmd = "new" ∨ subCmd = "new-session" then
      if r.Tmux.inSession ∧ ¬ r.Tmux.detached then
        ({ error := "sessions should be nested with care, unset $TMUX to force" }, r)
      else
        let sessionName := tmuxSessionName subArgs "0"
        ({ output := "[new session " ++ sessionName ++ " created]", success := true },
         { r with Tmux := { inSession := true, sessionName := sessionName, panes := 1,
                            windows := 1, currentPane := 0, currentWindow := 0,
                            detached := false } })
    else if subCmd = "attach" ∨ subCmd = "attach-session" ∨ subCmd = "a" then
      if r.Tmux.inSession ∧ ¬ r.Tmux.detached then
        ({ error := "sessions should be nested with care" }, r)
      else if ¬ r.Tmux.detached ∧ r.Tmux.sessionName = "" then
        ({ error := "no sessions" }, r)
      else
        ({ output := "[attached to session " ++ r.Tmux.sessionName ++ "]", success := true },
         { r with Tmux := { r.Tmux with detached := false, inSession := true } })
    else if subCmd = "detach" ∨ subCmd = "detach-client" ∨ subCmd = "d" then
      if ¬ r.Tmux.inSession ∨ r.Tmux.detached then
        ({ error := "no current client" }, r)
      else
        ({ output := "[detached (from session " ++ r.Tmux.sessionName ++ ")]", success := true },
         { r with Tmux := { r.Tmux with detached := true } })
    else if subCmd = "ls" ∨ subCmd = "list-sessions" then
      if r.Tmux.sessionName = "" then
        ({ output := "no server running", success := true }, r)
      else
        let attached := if r.Tmux.inSession ∧ ¬ r.Tmux.detached then " (attached)" else ""
        ({ output := r.Tmux.sessionName ++ ": " ++ toString r.Tmux.windows ++ " windows" ++ attached,
           success := true }, r)
    else if subCmd = "split-window" ∨ subCmd = "split" then
      if ¬ r.Tmux.inSession ∨ r.Tmux.detached then
        ({ error := "no current session" }, r)
      else
        let panes := r.Tmux.panes + 1
        let direction := if subArgs.contains "-v" then "vertically" else "horizontally"
        ({ output := "[split " ++ direction ++ ", now " ++ toString panes ++ " panes]",
           success := true },
         { r with Tmux := { r.Tmux with panes := panes } })
    else if subCmd = "select-pane" then
      if ¬ r.Tmux.inSession ∨ r.Tmux.detached then
        ({ error := "no current session" }, r)
      else
        let direction :=
          if subArgs.contains "-D" then "down"
          else if subArgs.contains "-U" then "up"
          else if subArgs.contains "-R" then "right"
          else if subArgs.contains "-L" then "left"
          else "next"
        let pane := (r.Tmux.currentPane + 1) % r.Tmux.panes
        ({ output := "[moved " ++ direction ++ " to pane " ++ toString pane ++ "]",
           success := true },
         { r with Tmux := { r.Tmux with currentPane := pane } })
    else if subCmd = "new-window" then
      if ¬ r.Tmux.inSession ∨ r.Tmux.detached then
        ({ error := "no current session" }, r)
      else
        let windows := r.Tmux.windows + 1
        ({ output := "[new window " ++ toString (windows - 1) ++ " created]", success := true },
         { r with Tmux := { r.Tmux with windows := windows, currentWindow := windows - 1 } })
    else if subCmd = "select-window" then
      if ¬ r.Tmux.inSession ∨ r.Tmux.detached then
        ({ error := "no current session" }, r)
      else
        let w := subArgs.foldl
          (fun w a =>
            if a = "-n" then (w + 1) % r.Tmux.windows
            else if a = "-p" then (w - 1 + r.Tmux.windows) % r.Tmux.windows
            else w)
          r.Tmux.currentWindow
        ({ output := "[switched to window " ++ toString w ++ "]", success := true },
         { r with Tmux := { r.Tmux with currentWindow := w } })
    else if subCmd = "kill-session" then
      if r.Tmux.sessionName = "" then ({ error := "no sessions" }, r)
      else
        ({ output := "[killed session " ++ r.Tmux.sessionName ++ "]", success := true },
         { r with Tmux := {} })
    else ({ error := "tmux: unknown command: " ++ subCmd }, r)

/-- The argument scan of the `ls` handler (`-a`/`-la`/`-al` toggle hidden,
the last non-flag argument is the path). -/
def lsScan : List String → String × Bool → String × Bool
  | [], acc => acc
  | a :: rest, (path, showHidden) =>
    if a = "-a" ∨ a = "-la" ∨ a = "-al" then lsScan rest (path, true)
    else if ¬ hasPrefixGo a "-" then lsScan rest (a, showHidden)
    else lsScan rest (path, showHidden)

/-- The `mkdir`/`rm` argument loops: apply `op` to each non-flag argument,
stopping at the first error (earlier effects are kept, as in Go). -/
def opLoopSkipFlags (op : Filesystem → String → Filesystem × Option String) :
    Filesystem → List String → Filesystem × Option String
  | fs, [] => (fs, none)
  | fs, p :: rest =>
    if hasPrefixGo p "-" then opLoopSkipFlags op fs rest
    else
      match op fs p with
      | (fs', some e) => (fs', some e)
      | (fs', none) => opLoopSkipFlags op fs' rest

/-- The `touch` argument loop (no flag filtering in the source). -/
def touchLoop : Filesystem → List String → Filesystem × Option String
  | fs, [] => (fs, none)
  | fs, p :: rest =>
    match fs.Touch p with
    | (fs', some e) => (fs', some e)
    | (fs', none) => touchLoop fs' rest

/-- The `cat` argument loop. -/
def catLoop (fs : Filesystem) : List String → Except String (List String)
  | [] => .ok []
  | p :: rest =>
    match fs.Cat p with
    | .error e => .error e
    | .ok content =>
      match catLoop fs rest with
      | .ok cs => .ok (content :: cs)
      | .error e => .error e

/-- The redirect scan of the `echo` handler.  Go's index loop is faithfully
reproduced: a `>`/`>>` followed by a word consumes it as the target (later
redirects overwrite the target, and append mode is never reset once set); a
word starting with `>` sets the target to the word with one `>` stripped. -/
def echoScan : List String → List String → String → Bool →
    List String × String × Bool
  | [], acc, f, m => (acc.reverse, f, m)
  | ">" :: b :: rest, acc, _, m => echoScan rest acc b m
  | ">>" :: b :: rest, acc, _, _ => echoScan rest acc b true
  | a :: rest, acc, f, m =>
    if hasPrefixGo a ">" then echoScan rest acc (a.drop 1) m
    else echoScan rest (a :: acc) f m

/-- The `find` handler's `-name` scan (last `-name` wins), with the Go
`strings.Trim(arg, "\"'")` quote stripping. -/
def trimQuotes (s : String) : String :=
  let l := s.data.dropWhile (fun c => c = '"' ∨ c = '\'')
  String.mk ((l.reverse.dropWhile (fun c => c = '"' ∨ c = '\'')).reverse)

def findNameScan : List String → String → String
  | [], acc => acc
  | a :: rest, acc =>
    match rest with
    | b :: _ => if a = "-name" then findNameScan rest (trimQuotes b) else findNameScan rest acc
    | [] => findNameScan rest acc

/-- Go `executeCommand`: the command dispatcher. -/
def MissionRunner.executeCommand (r : MissionRunner) (cmd : String) (args : List String) :
    MissionResult × MissionRunner :=
  if cmd = "pwd" then ({ output := r.FS.Pwd, success := true }, r)
  else if cmd = "ls" then
    let (path, showHidden) := lsScan args ("", false)
    match r.FS.Ls path showHidden with
    | .error e => ({ error := e }, r)
    | .ok files => ({ output := String.intercalate "  " files, success := true }, r)
  else if cmd = "cd" then
    let path := match args with
                | [] => ""
                | a :: _ => a
    match r.FS.Cd path with
    | (_, some e) => ({ error := e }, r)
    | (fs', none) => ({ success := true }, { r with FS := fs' })
  else if cmd = "mkdir" then
    if args.isEmpty then ({ error := "mkdir: missing operand" }, r)
    else
      match opLoopSkipFlags Filesystem.Mkdir r.FS args with
      | (fs', some e) => ({ error := e }, { r with FS := fs' })
      | (fs', none) => ({ success := true }, { r with FS := fs' })
  else if cmd = "touch" then
    if args.isEmpty then ({ error := "touch: missing file operand" }, r)
    else
      match touchLoop r.FS args with
      | (fs', some e) => ({ error := e }, { r with FS := fs' })
      | (fs', none) => ({ success := true }, { r with FS := fs' })
  else if cmd = "cat" then
    if args.isEmpty then ({ error := "cat: missing file operand" }, r)
    else
      match catLoop r.FS args with
      | .error e => ({ error := e }, r)
      | .ok contents => ({ output := String.intercalate "\n" contents, success := true }, r)
  else if cmd = "cp" then
    if args.length < 2 then ({ error := "cp: missing destination file operand" }, r)
    else
      let src := args.getD (args.length - 2) ""
      let dst := args.getD (args.length - 1) ""
      match r.FS.Cp src dst with
      | (_, some e) => ({ error := e }, r)
      | (fs', none) => ({ success := true }, { r with FS := fs' })
  else if cmd = "mv" then
    if args.length < 2 then ({ error := "mv: missing destination file operand" }, r)
    else
      let src := args.getD (args.length - 2) ""
      let dst := args.getD (args.length - 1) ""
      match r.FS.Mv src dst with
      | (fs', some e) => ({ error := e }, { r with FS := fs' })
      | (fs', none) => ({ success := true }, { r with FS := fs' })
  else if cmd = "rm" then
    if args.isEmpty then ({ error := "rm: missing operand" }, r)
    else
      match opLoopSkipFlags Filesystem.Rm r.FS args with
      | (fs', some e) => ({ error := e }, { r with FS := fs' })
      | (fs', none) => ({ success := true }, { r with FS := fs' })
  else if cmd = "grep" then
    if args.length < 2 then ({ error := "grep: missing pattern or file" }, r)
    else
      let pattern := args.getD 0 ""
      let file := args.getD 1 ""
      match r.FS.Grep pattern file with
      | .error e => ({ error := e }, r)
      | .ok found => ({ output := String.intercalate "\n" found, success := true }, r)
  else if cmd = "find" then
    if args.length < 3 then ({ error := "find: missing arguments" }, r)
    else
      let path := args.getD 0 ""
      let pattern := findNameScan args ""
      if pattern = "" then ({ error := "find: missing -name pattern" }, r)
      else
        match r.FS.Find path pattern with
        | .error e => ({ error := e }, r)
        | .ok results => ({ output := String.intercalate "\n" results, success := true }, r)
  else if cmd = "echo" then
    let (echoArgs, outputFile, appendMode) := echoScan args [] "" false
    let output := String.intercalate " " echoArgs
    if outputFile ≠ "" then
      let output :=
        if appendMode then
          (match r.FS.ReadFile outputFile with
           | .ok existing => existing
           | .error _ => "") ++ output ++ "\n"
        else output ++ "\n"
      match r.FS.WriteFile outputFile output with
      | (_, some e) => ({ error := e }, r)
      | (fs', none) => ({ success := true }, { r with FS := fs' })
    else ({ output := output, success := true }, r)
  else if cmd = "clear" then
    ({ output := "\x1b[2J\x1b[H", success := true }, r)
  else if cmd = "help" then
    ({ output := "Available: pwd, ls, cd, mkdir, touch, cat, cp, mv, rm, echo, grep, find, clear, tmux",
       success := true }, r)
  else if cmd = "tmux" then r.executeTmux args
  else ({ error := cmd ++ ": command not found" }, r)

/-- Go `Execute`: runs a command and returns the result. -/
def MissionRunner.Execute (r : MissionRunner) (input : String) :
    MissionResult × MissionRunner :=
  let r := { r with Attempts := r.Attempts + 1, History := r.History ++ [input] }
  let input := trimGo input
  if input = "" then ({ output := "", success := true }, r)
  else
    match fields input with
    | [] => ({ output := "", success := true }, r)
    | cmd :: args =>
      let (result, r') := r.executeCommand cmd args
      match r'.Mission.goal with
      | some g =>
        if g r'.FS input then
          ({ result with completed := true }, { r' with Completed := true })
        else (result, r')
      | none => (result, r')

/-! ## Verification-support definitions -/

/-- A normal path segment: non-empty, not a dot segment, slash-free.  The
segments of every path produced by `clean` on a rooted input are of this
form. -/
def GoodSeg (s : String) : Prop :=
  s ≠ "" ∧ s ≠ "." ∧ s ≠ ".." ∧ '/' ∉ s.data

instance : DecidablePred GoodSeg := fun s => by unfold GoodSeg; infer_instance

def GoodSegs (l : List String) : Prop :=
  ∀ s ∈ l, GoodSeg s

instance : DecidablePred GoodSegs := fun l => by unfold GoodSegs; infer_instance

/-- Render an absolute path from segments. -/
def renderAbs (segs : List String) : String :=
  "/" ++ joinSlash segs

/-- `p` is a cleaned absolute path.  `NewFilesystem` starts with `cwdPath`
and `home` of this shape and `Cd` preserves it, so every Go-reachable
filesystem satisfies it. -/
def CleanAbs (p : String) : Prop :=
  ∃ segs, GoodSegs segs ∧ p = renderAbs segs

/-- The failure condition of the `Mkdir` walk: some segment resolves to an
existing node that is not a directory (in the code's own `IsDir` sense:
neither `FileTypeDirectory` nor `FileTypeHidden`). -/
def mkdirConflict : File → List String → Bool
  | _, [] => false
  | t, p :: rest =>
    if p = "" then mkdirConflict t rest
    else
      match findChild t.children p with
      | none => false
      | some c => if isDirType c.type then mkdirConflict c rest else true

/-- Every non-empty segment of the walk resolves to a directory-typed node. -/
def dirsAlong : File → List String → Bool
  | _, [] => true
  | t, p :: rest =>
    if p = "" then dirsAlong t rest
    else
      match findChild t.children p with
      | none => false
      | some c => isDirType c.type && dirsAlong c rest

/- Structural sanity of a file tree: sibling names are distinct and regular
files have no children.  Both hold in every Go-reachable state except after
`Mv` onto an occupied name (which duplicates a sibling name); the claims
that need this state it as a hypothesis.  `WFForest` is the recursion over
the children, kept structural so the predicate evaluates in the kernel. -/
mutual

def WFTree : File → Bool
  | .mk _ t _ ch _ =>
    decide ((ch.map File.name).Nodup) &&
    (!(t == FileType.regular) || ch.isEmpty) &&
    WFForest ch

def WFForest : List File → Bool
  | [] => true
  | f :: fs => WFTree f && WFForest fs

end

/-- Shallow sameness: equal except possibly for the children. -/
def SameShallow (a b : File) : Prop :=
  a.name = b.name ∧ a.type = b.type ∧ a.content = b.content ∧ a.size = b.size

/-- Count of the non-flag arguments of a command (the operands of the
`mkdir`/`rm` loops, which skip words starting with `-`). -/
def nonFlagCount : List String → Nat
  | [] => 0
  | a :: rest => if hasPrefixGo a "-" then nonFlagCount rest else nonFlagCount rest + 1

/-- A command line whose handler keeps no partial mutation on error:
anything but `mv`, with at most one operand for the multi-operand loops
(`mkdir`/`rm` count non-flag words; `touch` takes every word). -/
def safeLine : List String → Bool
  | [] => true
  | cmd :: args =>
    (cmd ≠ "mv" : Bool) &&
    (!(cmd = "mkdir" ∨ cmd = "rm" : Bool) || nonFlagCount args ≤ 1) &&
    (!(cmd = "touch" : Bool) || args.length ≤ 1)

/-- A whole session: `Execute` folded over a list of command lines. -/
def execSeq (r : MissionRunner) (inputs : List String) : MissionRunner :=
  inputs.foldl (fun r i => (r.Execute i).2) r

/-- A minimal runner (no goal, fresh filesystem) used as a concrete state in
counterexamples and witnesses. -/
def freshRunner : MissionRunner :=
  { FS := NewFilesystem, Mission := {}, InitialFS := NewFilesystem, Attempts := 0,
    Completed := false, History := [], Tmux := {} }

/-! ## Lemmas: string splitting and joining -/

theorem strMk_data (s : String) : String.mk s.data = s := by
  cases s; rfl

theorem splitCharList_ne_nil (c : Char) (l : List Char) : splitCharList c l ≠ [] := by
  cases l with
  | nil => simp [splitCharList]
  | cons x xs =>
    simp only [splitCharList]
    split
    · simp
    · split <;> simp

theorem splitCharList_append (c : Char) (a b : List Char) :
    splitCharList c (a ++ c :: b) = splitCharList c a ++ splitCharList c b := by
  induction a with
  | nil => simp [splitCharList]
  | cons x xs ih =>
    simp only [List.cons_append, splitCharList]
    by_cases hx : x = c
    · simp [hx, ih]
    · rw [if_neg hx, if_neg hx]
      have hih : splitCharList c (xs ++ c :: b) = splitCharList c xs ++ splitCharList c b := ih
      cases h : splitCharList c xs with
      | nil => exact absurd h (splitCharList_ne_nil c xs)
      | cons hh tt =>
        simp only [List.append_eq] at hih ⊢
        rw [hih, h]
        simp

theorem splitCharList_no_sep (c : Char) (l : List Char) (h : c ∉ l) :
    splitCharList c l = [l] := by
  induction l with
  | nil => rfl
  | cons x xs ih =>
    simp only [List.mem_cons, not_or] at h
    simp only [splitCharList, if_neg (Ne.symm h.1), ih h.2]

theorem mem_splitCharList_no_sep (c : Char) (l : List Char) :
    ∀ piece ∈ splitCharList c l, c ∉ piece := by
  induction l with
  | nil =>
    intro piece hp
    simp only [splitCharList, List.mem_singleton] at hp
    simp [hp]
  | cons x xs ih =>
    intro piece hp
    simp only [splitCharList] at hp
    by_cases hx : x = c
    · rw [if_pos hx] at hp
      rcases List.mem_cons.1 hp with h | h
      · simp [h]
      · exact ih piece h
    · rw [if_neg hx] at hp
      cases h : splitCharList c xs with
      | nil => exact absurd h (splitCharList_ne_nil c xs)
      | cons hh tt =>
        rw [h] at hp
        rcases List.mem_cons.1 hp with h2 | h2
        · subst h2
          intro hmem
          rcases List.mem_cons.1 hmem with h3 | h3
          · exact hx h3.symm
          · exact ih hh (by rw [h]; exact List.mem_cons_self hh tt) h3
        · exact ih piece (by rw [h]; exact List.mem_cons_of_mem hh h2)

theorem splitSlash_append_sep (s1 s2 : String) :
    splitSlash (s1 ++ "/" ++ s2) = splitSlash s1 ++ splitSlash s2 := by
  unfold splitSlash
  have hd : (s1 ++ "/" ++ s2).data = s1.data ++ '/' :: s2.data := by
    simp [String.data_append]
  rw [hd, splitCharList_append, List.map_append]

theorem splitSlash_no_slash (s : String) (h : '/' ∉ s.data) : splitSlash s = [s] := by
  unfold splitSlash
  rw [splitCharList_no_sep _ _ h]
  simp [strMk_data]

theorem mem_splitSlash_no_slash (s : String) :
    ∀ piece ∈ splitSlash s, '/' ∉ piece.data := by
  intro piece hp
  unfold splitSlash at hp
  rcases List.mem_map.1 hp with ⟨l, hl, rfl⟩
  exact mem_splitCharList_no_sep '/' s.data l hl

theorem joinSlash_cons_cons (x y : String) (ys : List String) :
    joinSlash (x :: y :: ys) = x ++ "/" ++ joinSlash (y :: ys) := rfl

theorem splitSlash_joinSlash (l : List String) (hne : l ≠ [])
    (h : ∀ s ∈ l, '/' ∉ s.data) : splitSlash (joinSlash l) = l := by
  induction l with
  | nil => exact absurd rfl hne
  | cons x xs ih =>
    cases xs with
    | nil => exact splitSlash_no_slash x (h x (by simp))
    | cons y ys =>
      rw [joinSlash_cons_cons, splitSlash_append_sep,
        splitSlash_no_slash x (h x (by simp)),
        ih (by simp) (fun s hs => h s (List.mem_cons_of_mem x hs))]
      simp

theorem joinSlash_ne_empty (l : List String) (hne : l ≠ []) (h : ∀ s ∈ l, s ≠ "") :
    joinSlash l ≠ "" := by
  cases l with
  | nil => exact absurd rfl hne
  | cons x xs =>
    cases xs with
    | nil => exact h x (by simp)
    | cons y ys =>
      rw [joinSlash_cons_cons]
      intro hcontra
      have hdata : x.data ++ '/' :: (joinSlash (y :: ys)).data = [] := by
        have h2 := congrArg String.data hcontra
        simp only [String.data_append] at h2
        simp at h2
      simp at hdata

/-! ## Lemmas: `clean` and friends -/

theorem cleanLoop_append (rooted : Bool) (out l1 l2 : List String) :
    cleanLoop rooted out (l1 ++ l2) =
      cleanLoop rooted (cleanLoop rooted out l1).reverse l2 := by
  induction l1 generalizing out with
  | nil => simp [cleanLoop]
  | cons s rest ih =>
    simp only [List.cons_append, cleanLoop]
    split
    · exact ih out
    · split
      · exact ih _
      · exact ih _

theorem cleanLoop_fixpoint (rooted : Bool) (out l : List String)
    (hl : ∀ s ∈ l, s ≠ "" ∧ s ≠ "." ∧ s ≠ "..") :
    cleanLoop rooted out l = out.reverse ++ l := by
  induction l generalizing out with
  | nil => simp [cleanLoop]
  | cons s rest ih =>
    obtain ⟨h1, h2, h3⟩ := hl s (by simp)
    simp only [cleanLoop, if_neg (by simp [h1, h2] : ¬ (s = "" ∨ s = ".")), if_neg h3]
    rw [ih (s :: out) (fun x hx => hl x (List.mem_cons_of_mem s hx))]
    simp

theorem cleanSegs_fixpoint (rooted : Bool) (l : List String)
    (hl : ∀ s ∈ l, s ≠ "" ∧ s ≠ "." ∧ s ≠ "..") :
    cleanSegs rooted l = l := by
  unfold cleanSegs
  rw [cleanLoop_fixpoint rooted [] l hl]
  simp

theorem cleanSegs_append_good (rooted : Bool) (l : List String) (n : String)
    (hn : n ≠ "" ∧ n ≠ "." ∧ n ≠ "..") :
    cleanSegs rooted (l ++ [n]) = cleanSegs rooted l ++ [n] := by
  unfold cleanSegs
  rw [cleanLoop_append]
  simp only [cleanLoop, if_neg (by simp [hn.1, hn.2.1] : ¬ (n = "" ∨ n = ".")),
    if_neg hn.2.2]
  simp

theorem mem_dotdotStep (rooted : Bool) (out : List String) :
    ∀ s ∈ dotdotStep rooted out, s ∈ out ∨ s = ".." := by
  intro s hs
  cases out with
  | nil =>
    simp only [dotdotStep] at hs
    split at hs <;> simp_all
  | cons o out' =>
    simp only [dotdotStep] at hs
    split at hs
    · rcases List.mem_cons.1 hs with h | h
      · exact Or.inr h
      · exact Or.inl h
    · exact Or.inl (List.mem_cons_of_mem o hs)

theorem dotdotStep_good_rooted (out : List String)
    (hout : ∀ s ∈ out, s ≠ "" ∧ s ≠ "." ∧ s ≠ "..") :
    ∀ s ∈ dotdotStep true out, s ≠ "" ∧ s ≠ "." ∧ s ≠ ".." := by
  intro s hs
  cases out with
  | nil => simp [dotdotStep] at hs
  | cons o out' =>
    simp only [dotdotStep] at hs
    rw [if_neg (hout o (by simp)).2.2] at hs
    exact hout s (List.mem_cons_of_mem o hs)

theorem cleanLoop_good_rooted (l : List String) :
    ∀ out, (∀ s ∈ out, s ≠ "" ∧ s ≠ "." ∧ s ≠ "..") →
    ∀ s ∈ cleanLoop true out l, s ≠ "" ∧ s ≠ "." ∧ s ≠ ".." := by
  induction l with
  | nil =>
    intro out hout s hs
    simp only [cleanLoop, List.mem_reverse] at hs
    exact hout s hs
  | cons x rest ih =>
    intro out hout s hs
    simp only [cleanLoop] at hs
    by_cases hx : x = "" ∨ x = "."
    · rw [if_pos hx] at hs
      exact ih out hout s hs
    · rw [if_neg hx] at hs
      by_cases hx2 : x = ".."
      · rw [if_pos hx2] at hs
        exact ih (dotdotStep true out) (dotdotStep_good_rooted out hout) s hs
      · rw [if_neg hx2] at hs
        refine ih (x :: out) ?_ s hs
        intro y hy
        rcases List.mem_cons.1 hy with h | h
        · subst h
          exact ⟨fun h => hx (Or.inl h), fun h => hx (Or.inr h), hx2⟩
        · exact hout y h

theorem cleanLoop_subset (rooted : Bool) (l : List String) :
    ∀ out, ∀ s ∈ cleanLoop rooted out l, s ∈ out ∨ s ∈ l ∨ s = ".." := by
  induction l with
  | nil =>
    intro out s hs
    simp only [cleanLoop, List.mem_reverse] at hs
    exact Or.inl hs
  | cons x rest ih =>
    intro out s hs
    simp only [cleanLoop] at hs
    by_cases hx : x = "" ∨ x = "."
    · rw [if_pos hx] at hs
      rcases ih out s hs with h | h | h
      · exact Or.inl h
      · exact Or.inr (Or.inl (List.mem_cons_of_mem x h))
      · exact Or.inr (Or.inr h)
    · rw [if_neg hx] at hs
      by_cases hx2 : x = ".."
      · rw [if_pos hx2] at hs
        rcases ih (dotdotStep rooted out) s hs with h | h | h
        · rcases mem_dotdotStep rooted out s h with h2 | h2
          · exact Or.inl h2
          · exact Or.inr (Or.inr h2)
        · exact Or.inr (Or.inl (List.mem_cons_of_mem x h))
        · exact Or.inr (Or.inr h)
      · rw [if_neg hx2] at hs
        rcases ih (x :: out) s hs with h | h | h
        · rcases List.mem_cons.1 h with h2 | h2
          · exact Or.inr (Or.inl (h2 ▸ List.mem_cons_self x rest))
          · exact Or.inl h2
        · exact Or.inr (Or.inl (List.mem_cons_of_mem x h))
        · exact Or.inr (Or.inr h)

/-! ## Lemmas: absolute clean paths -/

theorem goodSegs_no_slash {segs : List String} (h : GoodSegs segs) :
    ∀ s ∈ segs, '/' ∉ s.data := fun s hs => (h s hs).2.2.2

theorem goodSegs_plain {segs : List String} (h : GoodSegs segs) :
    ∀ s ∈ segs, s ≠ "" ∧ s ≠ "." ∧ s ≠ ".." :=
  fun s hs => ⟨(h s hs).1, (h s hs).2.1, (h s hs).2.2.1⟩

theorem renderAbs_data (segs : List String) :
    (renderAbs segs).data = '/' :: (joinSlash segs).data := by
  simp [renderAbs, String.data_append]

theorem renderAbs_ne_empty (segs : List String) : renderAbs segs ≠ "" := by
  intro h
  have := congrArg String.data h
  rw [renderAbs_data] at this
  simp at this

theorem hasPrefixGo_slash_of_data {s : String} {t : List Char} (h : s.data = '/' :: t) :
    hasPrefixGo s "/" = true := by
  unfold hasPrefixGo
  rw [h]
  simp [List.isPrefixOf]

theorem data_of_hasPrefixGo_slash {s : String} (h : hasPrefixGo s "/" = true) :
    ∃ t, s.data = '/' :: t := by
  unfold hasPrefixGo at h
  rw [List.isPrefixOf_iff_prefix] at h
  obtain ⟨u, hu⟩ := h
  exact ⟨u, by rw [← hu]; rfl⟩

theorem renderAbs_hasPrefix (segs : List String) :
    hasPrefixGo (renderAbs segs) "/" = true :=
  hasPrefixGo_slash_of_data (renderAbs_data segs)

theorem ne_empty_of_hasPrefixGo_slash {s : String} (h : hasPrefixGo s "/" = true) :
    s ≠ "" := by
  obtain ⟨t, ht⟩ := data_of_hasPrefixGo_slash h
  intro hc
  rw [hc] at ht
  simp at ht

theorem drop_one_of_data {s : String} {t : List Char} (h : s.data = '/' :: t) :
    s.drop 1 = String.mk t := by
  rw [String.drop_eq, h]
  rfl

theorem renderAbs_drop_one (segs : List String) :
    (renderAbs segs).drop 1 = joinSlash segs := by
  rw [drop_one_of_data (renderAbs_data segs), strMk_data]

theorem splitSlash_slash_append (x : String) :
    splitSlash ("/" ++ x) = "" :: splitSlash x := by
  unfold splitSlash
  have hd : ("/" ++ x).data = '/' :: x.data := by simp [String.data_append]
  rw [hd]
  simp [splitCharList]

theorem splitSlash_renderAbs (segs : List String) (hne : segs ≠ [])
    (h : ∀ s ∈ segs, '/' ∉ s.data) :
    splitSlash (renderAbs segs) = "" :: segs := by
  rw [renderAbs, splitSlash_slash_append, splitSlash_joinSlash segs hne h]

theorem renderAbs_eq_root_iff {segs : List String} (h : GoodSegs segs) :
    renderAbs segs = "/" ↔ segs = [] := by
  constructor
  · intro he
    by_contra hne
    have hj : joinSlash segs ≠ "" :=
      joinSlash_ne_empty segs hne (fun s hs => (h s hs).1)
    have hdata := congrArg String.data he
    rw [renderAbs_data] at hdata
    have h2 : ("/" : String).data = ['/'] := rfl
    rw [h2] at hdata
    have h3 : (joinSlash segs).data = [] := by
      injection hdata
    exact hj (by rw [← strMk_data (joinSlash segs), h3])
  · intro he
    subst he
    rfl

theorem clean_renderAbs {segs : List String} (h : GoodSegs segs) :
    clean (renderAbs segs) = renderAbs segs := by
  cases segs with
  | nil => rfl
  | cons s rest =>
    unfold clean
    rw [if_neg (renderAbs_ne_empty (s :: rest))]
    simp only [renderAbs_hasPrefix, if_pos]
    rw [splitSlash_renderAbs (s :: rest) (by simp) (goodSegs_no_slash h)]
    have h1 : cleanSegs true ("" :: s :: rest) = cleanSegs true (s :: rest) := by
      simp [cleanSegs, cleanLoop]
    rw [h1, cleanSegs_fixpoint true (s :: rest) (goodSegs_plain h)]
    rfl

theorem splitPath_renderAbs {segs : List String} (h : GoodSegs segs) :
    splitPath (renderAbs segs) = segs := by
  unfold splitPath
  rw [clean_renderAbs h]
  by_cases hr : renderAbs segs = "/"
  · rw [if_pos hr]
    exact ((renderAbs_eq_root_iff h).1 hr).symm
  · rw [if_neg hr]
    have hne : segs ≠ [] := fun hc => hr ((renderAbs_eq_root_iff h).2 hc)
    unfold stripLeadingSlash
    rw [if_pos (renderAbs_hasPrefix segs), renderAbs_drop_one,
      splitSlash_joinSlash segs hne (goodSegs_no_slash h)]

theorem CleanAbs.segs {p : String} (h : CleanAbs p) :
    GoodSegs (splitPath p) ∧ p = renderAbs (splitPath p) := by
  obtain ⟨segs, hg, rfl⟩ := h
  rw [splitPath_renderAbs hg]
  exact ⟨hg, rfl⟩

theorem cleanAbs_renderAbs {segs : List String} (h : GoodSegs segs) :
    CleanAbs (renderAbs segs) := ⟨segs, h, rfl⟩

theorem cleanAbs_root : CleanAbs "/" := ⟨[], by simp [GoodSegs], rfl⟩

theorem goodSegs_cleanSegs_rooted (q : String) :
    GoodSegs (cleanSegs true (splitSlash q)) := by
  intro s hs
  have h1 := cleanLoop_good_rooted (splitSlash q) [] (by simp) s hs
  have h2 := cleanLoop_subset true (splitSlash q) [] s hs
  refine ⟨h1.1, h1.2.1, h1.2.2, ?_⟩
  rcases h2 with h | h | h
  · simp at h
  · exact mem_splitSlash_no_slash q s h
  · exact absurd h h1.2.2

theorem clean_rooted_eq (q : String) (hq : hasPrefixGo q "/" = true) :
    clean q = renderAbs (cleanSegs true (splitSlash q)) := by
  unfold clean
  rw [if_neg (ne_empty_of_hasPrefixGo_slash hq)]
  simp only [hq, if_pos]
  rfl

theorem clean_rooted_cleanAbs (q : String) (hq : hasPrefixGo q "/" = true) :
    CleanAbs (clean q) := by
  rw [clean_rooted_eq q hq]
  exact cleanAbs_renderAbs (goodSegs_cleanSegs_rooted q)

theorem hasPrefixGo_slash_append {a : String} (b : String)
    (h : hasPrefixGo a "/" = true) : hasPrefixGo (a ++ b) "/" = true := by
  obtain ⟨t, ht⟩ := data_of_hasPrefixGo_slash h
  exact hasPrefixGo_slash_of_data (by rw [String.data_append, ht]; rfl)

/-- Under clean absolute `cwdPath` and `home`, every resolved path is a
clean absolute path. -/
theorem resolvePath_cleanAbs (fs : Filesystem) (p : String)
    (hc : CleanAbs fs.cwdPath) (hh : CleanAbs fs.home) :
    CleanAbs (fs.resolvePath p) := by
  unfold Filesystem.resolvePath
  by_cases h1 : p = ""
  · simpa [h1] using hc
  · rw [if_neg h1]
    by_cases h2 : p = "~"
    · simpa [h2] using hh
    · rw [if_neg h2]
      obtain ⟨hsegs, hgood, hrender⟩ : ∃ segs, GoodSegs segs ∧ fs.home = renderAbs segs := hh
      by_cases h3 : hasPrefixGo p "~/" = true
      · simp only [h3, if_pos]
        have hpre : hasPrefixGo (fs.home ++ p.drop 1) "/" = true := by
          apply hasPrefixGo_slash_append
          rw [hrender]
          exact renderAbs_hasPrefix hsegs
        simp only [hpre, if_pos]
        exact clean_rooted_cleanAbs _ hpre
      · simp only [h3]
        simp only [Bool.false_eq_true, if_false]
        by_cases h4 : hasPrefixGo p "/" = true
        · simp only [h4, if_pos]
          exact clean_rooted_cleanAbs _ h4
        · simp only [h4]
          simp only [Bool.false_eq_true, if_false]
          obtain ⟨csegs, cgood, crender⟩ : ∃ segs, GoodSegs segs ∧ fs.cwdPath = renderAbs segs := hc
          have hpre : hasPrefixGo (fs.cwdPath ++ "/" ++ p) "/" = true := by
            apply hasPrefixGo_slash_append
            apply hasPrefixGo_slash_append
            rw [crender]
            exact renderAbs_hasPrefix csegs
          exact clean_rooted_cleanAbs _ hpre

/-! ## Lemmas: the file tree -/

@[simp] theorem File.name_setChildren (t : File) (ch : List File) :
    (t.setChildren ch).name = t.name := by cases t; rfl

@[simp] theorem File.type_setChildren (t : File) (ch : List File) :
    (t.setChildren ch).type = t.type := by cases t; rfl

@[simp] theorem File.content_setChildren (t : File) (ch : List File) :
    (t.setChildren ch).content = t.content := by cases t; rfl

@[simp] theorem File.size_setChildren (t : File) (ch : List File) :
    (t.setChildren ch).size = t.size := by cases t; rfl

@[simp] theorem File.children_setChildren (t : File) (ch : List File) :
    (t.setChildren ch).children = ch := by cases t; rfl

@[simp] theorem File.setChildren_self (t : File) : t.setChildren t.children = t := by
  cases t; rfl

theorem SameShallow.refl (a : File) : SameShallow a a := ⟨rfl, rfl, rfl, rfl⟩

theorem sameShallow_setChildren (t : File) (ch : List File) :
    SameShallow (t.setChildren ch) t := by
  cases t; exact ⟨rfl, rfl, rfl, rfl⟩

theorem findChild_name {l : List File} {n : String} {c : File}
    (h : findChild l n = some c) : c.name = n := by
  induction l with
  | nil => simp [findChild] at h
  | cons f fs ih =>
    simp only [findChild] at h
    split at h
    · cases h; assumption
    · exact ih h

theorem findChild_mem {l : List File} {n : String} {c : File}
    (h : findChild l n = some c) : c ∈ l := by
  induction l with
  | nil => simp [findChild] at h
  | cons f fs ih =>
    simp only [findChild] at h
    split at h
    · cases h; simp
    · exact List.mem_cons_of_mem f (ih h)

theorem findChild_append_of_some {l1 : List File} {n : String} {c : File} (l2 : List File)
    (h : findChild l1 n = some c) : findChild (l1 ++ l2) n = some c := by
  induction l1 with
  | nil => simp [findChild] at h
  | cons f fs ih =>
    simp only [findChild] at h ⊢
    split at h
    · rw [if_pos (by assumption)]
      exact h
    · rw [if_neg (by assumption)]
      exact ih h

theorem findChild_append_of_none {l1 : List File} {n : String} (l2 : List File)
    (h : findChild l1 n = none) : findChild (l1 ++ l2) n = findChild l2 n := by
  induction l1 with
  | nil => simp
  | cons f fs ih =>
    simp only [findChild] at h ⊢
    split at h
    · simp at h
    · rw [if_neg (by assumption)]
      exact ih h

theorem findChild_replaceFirst_same {l : List File} {n : String} {c : File} (g : File)
    (h : findChild l n = some c) (hg : g.name = n) :
    findChild (replaceFirst l n g) n = some g := by
  induction l with
  | nil => simp [findChild] at h
  | cons f fs ih =>
    simp only [findChild, replaceFirst] at h ⊢
    split at h
    · rw [if_pos (by assumption)]
      simp [findChild, hg]
    · rw [if_neg (by assumption)]
      simp only [findChild, if_neg (by assumption)]
      exact ih h

theorem findChild_replaceFirst_diff {l : List File} {n m : String} (g : File)
    (hg : g.name = n) (hnm : m ≠ n) :
    findChild (replaceFirst l n g) m = findChild l m := by
  induction l with
  | nil => rfl
  | cons f fs ih =>
    by_cases hf : f.name = n
    · simp only [replaceFirst, if_pos hf, findChild]
      rw [if_neg (show ¬ g.name = m by rw [hg]; exact fun h2 => hnm h2.symm),
        if_neg (show ¬ f.name = m by rw [hf]; exact fun h2 => hnm h2.symm)]
    · simp only [replaceFirst, if_neg hf, findChild]
      split
      · rfl
      · exact ih

theorem findChild_removeFirst_diff {l : List File} {n m : String} (hnm : m ≠ n) :
    findChild (removeFirst l n) m = findChild l m := by
  induction l with
  | nil => rfl
  | cons f fs ih =>
    simp only [findChild, removeFirst]
    by_cases hf : f.name = n
    · rw [if_pos hf]
      rw [if_neg (by rw [hf]; exact fun h => hnm h.symm)]
    · rw [if_neg hf]
      simp only [findChild]
      split
      · rfl
      · exact ih

theorem findChild_eq_none_of_filter_nil {l : List File} {n : String}
    (h : l.filter (fun f => f.name = n) = []) : findChild l n = none := by
  induction l with
  | nil => rfl
  | cons f fs ih =>
    simp only [List.filter_cons] at h
    by_cases hf : f.name = n
    · simp [hf] at h
    · simp only [decide_eq_true_eq, if_neg hf] at h
      simp only [findChild, if_neg hf]
      exact ih h

theorem findChild_removeFirst_unique {l : List File} {n : String}
    (h : (l.filter (fun f => f.name = n)).length ≤ 1) :
    findChild (removeFirst l n) n = none := by
  induction l with
  | nil => rfl
  | cons f fs ih =>
    simp only [removeFirst]
    by_cases hf : f.name = n
    · rw [if_pos hf]
      simp only [List.filter_cons, decide_eq_true_eq, if_pos hf] at h
      have h2 : fs.filter (fun f => f.name = n) = [] := by
        rw [← List.length_eq_zero]
        simp only [List.length_cons] at h
        omega
      exact findChild_eq_none_of_filter_nil h2
    · rw [if_neg hf]
      simp only [findChild, if_neg hf]
      apply ih
      simp only [List.filter_cons, decide_eq_true_eq, if_neg hf] at h
      exact h

theorem replaceFirst_self {l : List File} {n : String} {c : File}
    (h : findChild l n = some c) : replaceFirst l n c = l := by
  induction l with
  | nil => rfl
  | cons f fs ih =>
    simp only [findChild, replaceFirst] at h ⊢
    split at h
    · rw [if_pos (by assumption)]
      cases h
      rfl
    · rw [if_neg (by assumption)]
      rw [ih h]

theorem replaceFirst_replaceFirst {l : List File} {n : String} (g g' : File)
    (hg : g.name = n) :
    replaceFirst (replaceFirst l n g) n g' = replaceFirst l n g' := by
  induction l with
  | nil => rfl
  | cons f fs ih =>
    by_cases hf : f.name = n
    · have h1 : replaceFirst (f :: fs) n g = g :: fs := by simp [replaceFirst, hf]
      have h2 : replaceFirst (f :: fs) n g' = g' :: fs := by simp [replaceFirst, hf]
      rw [h1, h2]
      simp [replaceFirst, hg]
    · simp only [replaceFirst, if_neg hf]
      rw [ih]

/-- Splitting a walk at a list append. -/
theorem getNodeAt_append (t : File) (A B : List String) :
    getNodeAt t (A ++ B) = (getNodeAt t A).bind (fun n => getNodeAt n B) := by
  induction A generalizing t with
  | nil => simp [getNodeAt]
  | cons p rest ih =>
    simp only [List.cons_append, getNodeAt]
    by_cases hp : p = ""
    · rw [if_pos hp, if_pos hp]
      exact ih t
    · rw [if_neg hp, if_neg hp]
      cases findChild t.children p with
      | none => simp
      | some c => exact ih c

theorem getNodeAt_singleton (t : File) (n : String) (hn : n ≠ "") :
    getNodeAt t [n] = findChild t.children n := by
  simp only [getNodeAt, if_neg hn]
  cases findChild t.children n <;> simp [getNodeAt]

theorem modifyAt_name (t : File) (P : List String) (f : File → File)
    (hf : ∀ x, (f x).name = x.name) : (modifyAt t P f).name = t.name := by
  cases P with
  | nil => exact hf t
  | cons p rest =>
    simp only [modifyAt]
    by_cases hp : p = ""
    · rw [if_pos hp]
      exact modifyAt_name t rest f hf
    · rw [if_neg hp]
      cases findChild t.children p with
      | none => rfl
      | some c => simp

/-- Walking the modified path reaches the modified node. -/
theorem getNodeAt_modifyAt_same (t : File) (P : List String) (f : File → File)
    (hf : ∀ x, (f x).name = x.name) :
    getNodeAt (modifyAt t P f) P = (getNodeAt t P).map f := by
  induction P generalizing t with
  | nil => simp [getNodeAt, modifyAt]
  | cons p rest ih =>
    simp only [modifyAt, getNodeAt]
    by_cases hp : p = ""
    · simp only [if_pos hp]
      exact ih t
    · rw [if_neg hp]
      cases hc : findChild t.children p with
      | none => simp [getNodeAt, if_neg hp, hc]
      | some c =>
        simp only [getNodeAt, File.children_setChildren, if_neg hp]
        rw [findChild_replaceFirst_same (modifyAt c rest f) hc
          (by rw [modifyAt_name c rest f hf]; exact findChild_name hc)]
        exact ih c

/-- Walking a path that does not extend the modified path sees, at worst, a
node whose children changed: the result is `none` on both sides or `some` on
both sides with the same name, type, content and size. -/
theorem getNodeAt_modifyAt_not_prefix (t : File) (P Q : List String) (f : File → File)
    (hf : ∀ x, (f x).name = x.name)
    (hP : "" ∉ P) (hQ : "" ∉ Q) (h : ¬ P <+: Q) :
    (getNodeAt (modifyAt t P f) Q = none ∧ getNodeAt t Q = none) ∨
    (∃ a b, getNodeAt (modifyAt t P f) Q = some a ∧ getNodeAt t Q = some b ∧
      SameShallow a b) := by
  induction P generalizing t Q with
  | nil => exact absurd List.nil_prefix h
  | cons p P' ih =>
    have hp : p ≠ "" := fun hc => hP (hc ▸ List.mem_cons_self p P')
    cases Q with
    | nil =>
      refine Or.inr ⟨modifyAt t (p :: P') f, t, rfl, rfl, ?_⟩
      simp only [modifyAt, if_neg hp]
      cases findChild t.children p with
      | none => exact SameShallow.refl t
      | some c => exact sameShallow_setChildren t _
    | cons q Q' =>
      have hq : q ≠ "" := fun hc => hQ (hc ▸ List.mem_cons_self q Q')
      cases hc : findChild t.children p with
      | none =>
        have hM : modifyAt t (p :: P') f = t := by
          simp only [modifyAt, if_neg hp, hc]
        rw [hM]
        cases hr : getNodeAt t (q :: Q') with
        | none => exact Or.inl ⟨rfl, rfl⟩
        | some a => exact Or.inr ⟨a, a, rfl, rfl, SameShallow.refl a⟩
      | some c =>
        have hcname : c.name = p := findChild_name hc
        have hmname : (modifyAt c P' f).name = p := by
          rw [modifyAt_name c P' f hf]; exact hcname
        have hM : modifyAt t (p :: P') f =
            t.setChildren (replaceFirst t.children p (modifyAt c P' f)) := by
          simp only [modifyAt, if_neg hp, hc]
        by_cases hpq : p = q
        · subst hpq
          have hPQ : ¬ P' <+: Q' := fun hpre => h (List.cons_prefix_cons.mpr ⟨rfl, hpre⟩)
          have hL : getNodeAt (modifyAt t (p :: P') f) (p :: Q') =
              getNodeAt (modifyAt c P' f) Q' := by
            rw [hM]
            simp only [getNodeAt, if_neg hp, File.children_setChildren]
            rw [findChild_replaceFirst_same (modifyAt c P' f) hc hmname]
          have hR : getNodeAt t (p :: Q') = getNodeAt c Q' := by
            simp only [getNodeAt, if_neg hp, hc]
          rw [hL, hR]
          exact ih c Q' (fun hm => hP (List.mem_cons_of_mem p hm))
            (fun hm => hQ (List.mem_cons_of_mem p hm)) hPQ
        · have hL : getNodeAt (modifyAt t (p :: P') f) (q :: Q') =
              getNodeAt t (q :: Q') := by
            rw [hM]
            simp only [getNodeAt, if_neg hq, File.children_setChildren]
            rw [findChild_replaceFirst_diff (modifyAt c P' f) hmname
              (fun h2 => hpq h2.symm)]
          rw [hL]
          cases hr : getNodeAt t (q :: Q') with
          | none => exact Or.inl ⟨rfl, rfl⟩
          | some a => exact Or.inr ⟨a, a, rfl, rfl, SameShallow.refl a⟩

/-! ## Lemmas: the `Mkdir` walk -/

/-- A walk starting below a node with no children can only create, never
collide, so it never errors. -/
theorem mkdirAt_fresh (parts : List String) : ∀ t : File, t.children = [] →
    (mkdirAt t parts).2 = none := by
  induction parts with
  | nil => intro t ht; rfl
  | cons p rest ih =>
    intro t ht
    simp only [mkdirAt]
    by_cases hp : p = ""
    · simp only [if_pos hp]
      exact ih t ht
    · simp only [if_neg hp, ht, findChild]
      have := ih (File.mk p (if hasPrefixGo p "." then .hidden else .directory) "" [] 0) rfl
      cases h : mkdirAt (File.mk p (if hasPrefixGo p "." then .hidden else .directory) "" [] 0) rest with
      | mk sub e => rw [h] at this; exact this

theorem mkdirAt_shallow (parts : List String) : ∀ t : File,
    SameShallow (mkdirAt t parts).1 t := by
  induction parts with
  | nil => intro t; exact SameShallow.refl t
  | cons p rest ih =>
    intro t
    simp only [mkdirAt]
    by_cases hp : p = ""
    · simp only [if_pos hp]; exact ih t
    · simp only [if_neg hp]
      cases hc : findChild t.children p with
      | none =>
        cases h : mkdirAt (File.mk p (if hasPrefixGo p "." then .hidden else .directory) "" [] 0) rest with
        | mk sub e => exact sameShallow_setChildren t _
      | some c =>
        by_cases hd : isDirType c.type
        · simp only [hd, if_pos]
          cases h : mkdirAt c rest with
          | mk sub e => exact sameShallow_setChildren t _
        · simp only [hd]
          simp only [Bool.false_eq_true, if_false]
          exact SameShallow.refl t

theorem mkdirAt_name (parts : List String) (t : File) :
    (mkdirAt t parts).1.name = t.name := (mkdirAt_shallow parts t).1

theorem mkdirAt_type (parts : List String) (t : File) :
    (mkdirAt t parts).1.type = t.type := (mkdirAt_shallow parts t).2.1

/-- An erroring `Mkdir` walk leaves the tree unchanged: the collision is
found before anything is created. -/
theorem mkdirAt_error_eq (parts : List String) : ∀ t : File,
    (mkdirAt t parts).2.isSome = true → (mkdirAt t parts).1 = t := by
  induction parts with
  | nil => intro t h; simp [mkdirAt] at h
  | cons p rest ih =>
    intro t h
    simp only [mkdirAt] at h ⊢
    by_cases hp : p = ""
    · simp only [if_pos hp] at h ⊢
      exact ih t h
    · simp only [if_neg hp] at h ⊢
      cases hc : findChild t.children p with
      | none =>
        rw [hc] at h
        exfalso
        have hnone := mkdirAt_fresh rest
          (File.mk p (if hasPrefixGo p "." then .hidden else .directory) "" [] 0) rfl
        cases hm : mkdirAt (File.mk p (if hasPrefixGo p "." then .hidden else .directory) "" [] 0) rest with
        | mk sub e =>
          rw [hm] at h hnone
          simp at h hnone
          rw [hnone] at h
          simp at h
      | some c =>
        rw [hc] at h
        dsimp only at h ⊢
        by_cases hd : isDirType c.type
        · simp only [hd, if_pos] at h ⊢
          cases hm : mkdirAt c rest with
          | mk sub e =>
            rw [hm] at h
            simp only at h
            have hsub : sub = c := by
              have h2 := ih c
              rw [hm] at h2
              exact h2 h
            rw [hsub, replaceFirst_self hc, File.setChildren_self]
        · simp only [hd] at h ⊢
          simp [Bool.false_eq_true, if_false]

/-- The `Mkdir` walk errors exactly when some segment resolves to an
existing non-directory node. -/
theorem mkdirAt_error_iff (parts : List String) : ∀ t : File,
    (mkdirAt t parts).2.isSome = mkdirConflict t parts := by
  induction parts with
  | nil => intro t; rfl
  | cons p rest ih =>
    intro t
    simp only [mkdirAt, mkdirConflict]
    by_cases hp : p = ""
    · simp only [if_pos hp]
      exact ih t
    · simp only [if_neg hp]
      cases hc : findChild t.children p with
      | none =>
        have hnone := mkdirAt_fresh rest
          (File.mk p (if hasPrefixGo p "." then .hidden else .directory) "" [] 0) rfl
        cases hm : mkdirAt (File.mk p (if hasPrefixGo p "." then .hidden else .directory) "" [] 0) rest with
        | mk sub e =>
          rw [hm] at hnone
          simp only at hnone ⊢
          rw [hnone]
          rfl
      | some c =>
        by_cases hd : isDirType c.type
        · simp only [hd, if_pos]
          cases hm : mkdirAt c rest with
          | mk sub e =>
            have := ih c
            rw [hm] at this
            exact this
        · simp only [hd]
          simp [Bool.false_eq_true, if_false]

/-- After a successful `Mkdir` walk the full path resolves to a
directory-typed node (or the walk was empty and resolves to the root). -/
theorem mkdirAt_ok_getNode (parts : List String) : ∀ t : File, "" ∉ parts →
    (mkdirAt t parts).2 = none →
    ∃ n, getNodeAt (mkdirAt t parts).1 parts = some n ∧
      (isDirType n.type = true ∨ parts = []) := by
  induction parts with
  | nil => intro t _ _; exact ⟨t, rfl, Or.inr rfl⟩
  | cons p rest ih =>
    intro t hP hok
    have hp : p ≠ "" := fun hc => hP (hc ▸ List.mem_cons_self p rest)
    have hrest : "" ∉ rest := fun hc => hP (List.mem_cons_of_mem p hc)
    simp only [mkdirAt] at hok ⊢
    rw [if_neg hp] at hok ⊢
    cases hc : findChild t.children p with
    | none =>
      rw [hc] at hok
      set newDir : File :=
        File.mk p (if hasPrefixGo p "." then .hidden else .directory) "" [] 0 with hnew
      have hfresh := mkdirAt_fresh rest newDir rfl
      cases hm : mkdirAt newDir rest with
      | mk sub e =>
        rw [hm] at hok hfresh
        simp only at hok hfresh ⊢
        obtain ⟨n, hn, hdir⟩ := ih newDir hrest (by rw [hm]; exact hfresh)
        rw [hm] at hn
        simp only at hn
        refine ⟨if rest = [] then sub else n, ?_, ?_⟩
        · simp only [getNodeAt, if_neg hp, File.children_setChildren]
          rw [findChild_append_of_none [sub] hc]
          have hsubname : sub.name = p := by
            have := mkdirAt_name rest newDir
            rw [hm] at this
            exact this
          simp only [findChild, hsubname, if_pos rfl]
          by_cases hr : rest = []
          · subst hr
            simp [getNodeAt]
          · rw [if_neg hr]
            exact hn
        · by_cases hr : rest = []
          · subst hr
            rw [if_pos rfl]
            left
            have hst : sub.type = newDir.type := by
              have := mkdirAt_type [] newDir
              rw [hm] at this
              exact this
            rw [hst, hnew]
            by_cases hh : hasPrefixGo p "." = true <;> simp [hh, isDirType, File.type]
          · rw [if_neg hr]
            rcases hdir with h | h
            · exact Or.inl h
            · exact absurd h hr
    | some c =>
      rw [hc] at hok
      dsimp only at hok ⊢
      by_cases hd : isDirType c.type
      · rw [if_pos hd] at hok ⊢
        cases hm : mkdirAt c rest with
        | mk sub e =>
          rw [hm] at hok
          simp only at hok ⊢
          obtain ⟨n, hn, hdir⟩ := ih c hrest (by rw [hm]; exact hok)
          rw [hm] at hn
          simp only at hn
          have hsubname : sub.name = p := by
            have := mkdirAt_name rest c
            rw [hm] at this
            rw [this]
            exact findChild_name hc
          refine ⟨if rest = [] then sub else n, ?_, ?_⟩
          · simp only [getNodeAt, if_neg hp, File.children_setChildren]
            rw [findChild_replaceFirst_same sub hc hsubname]
            by_cases hr : rest = []
            · subst hr
              simp [getNodeAt]
            · rw [if_neg hr]
              exact hn
          · by_cases hr : rest = []
            · subst hr
              rw [if_pos rfl]
              left
              have hst : sub.type = c.type := by
                have := mkdirAt_type [] c
                rw [hm] at this
                exact this
              rw [hst]
              exact hd
            · rw [if_neg hr]
              rcases hdir with h | h
              · exact Or.inl h
              · exact absurd h hr
      · rw [if_neg hd] at hok
        simp at hok

@[simp] theorem File.setChildren_setChildren (t : File) (a b : List File) :
    (t.setChildren a).setChildren b = t.setChildren b := by cases t; rfl

/-- Repeating a successful `Mkdir` walk changes nothing and succeeds. -/
theorem mkdirAt_idem (parts : List String) : ∀ t : File, "" ∉ parts →
    (mkdirAt t parts).2 = none →
    mkdirAt (mkdirAt t parts).1 parts = ((mkdirAt t parts).1, none) := by
  induction parts with
  | nil => intro t _ _; rfl
  | cons p rest ih =>
    intro t hP hok
    have hp : p ≠ "" := fun hc => hP (hc ▸ List.mem_cons_self p rest)
    have hrest : "" ∉ rest := fun hc => hP (List.mem_cons_of_mem p hc)
    cases hc : findChild t.children p with
    | none =>
      set newDir : File :=
        File.mk p (if hasPrefixGo p "." then .hidden else .directory) "" [] 0 with hnew
      cases hm : mkdirAt newDir rest with
      | mk sub e =>
        have h1 : mkdirAt t (p :: rest) = (t.setChildren (t.children ++ [sub]), e) := by
          simp only [mkdirAt, if_neg hp, hc, hm]
        rw [h1] at hok ⊢
        simp only at hok
        subst hok
        have hsubname : sub.name = p := by
          have h2 := mkdirAt_name rest newDir
          rw [hm] at h2
          exact h2
        have hsubtype : isDirType sub.type = true := by
          have h2 := mkdirAt_type rest newDir
          rw [hm] at h2
          rw [h2, hnew]
          by_cases hh : hasPrefixGo p "." = true <;> simp [hh, isDirType, File.type]
        have hfind : findChild (t.children ++ [sub]) p = some sub := by
          rw [findChild_append_of_none [sub] hc]
          simp [findChild, hsubname]
        have hidem : mkdirAt sub rest = (sub, none) := by
          have h2 := ih newDir hrest (by rw [hm])
          rw [hm] at h2
          exact h2
        simp only [mkdirAt, if_neg hp, File.children_setChildren, hfind, hsubtype,
          if_pos, hidem]
        rw [replaceFirst_self hfind]
        simp
    | some c =>
      by_cases hd : isDirType c.type
      · cases hm : mkdirAt c rest with
        | mk sub e =>
          have h1 : mkdirAt t (p :: rest) =
              (t.setChildren (replaceFirst t.children p sub), e) := by
            simp only [mkdirAt, if_neg hp, hc, if_pos hd, hm]
          rw [h1] at hok ⊢
          simp only at hok
          subst hok
          have hsubname : sub.name = p := by
            have h2 := mkdirAt_name rest c
            rw [hm] at h2
            rw [h2]
            exact findChild_name hc
          have hsubtype : isDirType sub.type = true := by
            have h2 := mkdirAt_type rest c
            rw [hm] at h2
            rw [h2]
            exact hd
          have hfind : findChild (replaceFirst t.children p sub) p = some sub :=
            findChild_replaceFirst_same sub hc hsubname
          have hidem : mkdirAt sub rest = (sub, none) := by
            have h2 := ih c hrest (by rw [hm])
            rw [hm] at h2
            exact h2
          simp only [mkdirAt, if_neg hp, File.children_setChildren, hfind, hsubtype,
            if_pos, hidem]
          rw [replaceFirst_replaceFirst sub sub hsubname]
          simp
      · exfalso
        have h1 : (mkdirAt t (p :: rest)).2 = some ("not a directory: " ++ p) := by
          simp only [mkdirAt, if_neg hp, hc, if_neg hd]
        rw [h1] at hok
        simp at hok

/-- `Mkdir` along a path of existing directories is a successful no-op. -/
theorem mkdirAt_dirsAlong (parts : List String) : ∀ t : File,
    dirsAlong t parts = true → mkdirAt t parts = (t, none) := by
  induction parts with
  | nil => intro t _; rfl
  | cons p rest ih =>
    intro t hdir
    simp only [dirsAlong] at hdir
    simp only [mkdirAt]
    by_cases hp : p = ""
    · rw [if_pos hp] at hdir ⊢
      exact ih t hdir
    · rw [if_neg hp] at hdir ⊢
      cases hc : findChild t.children p with
      | none => rw [hc] at hdir; simp at hdir
      | some c =>
        rw [hc] at hdir
        dsimp only
        simp only [Bool.and_eq_true] at hdir
        rw [if_pos hdir.1]
        rw [ih c hdir.2]
        simp only
        rw [replaceFirst_self hc, File.setChildren_self]

/-- After a successful `Mkdir` walk every non-empty prefix of the path
resolves to a directory-typed node (missing ancestors were created). -/
theorem mkdirAt_ok_prefix (parts : List String) : ∀ t : File, "" ∉ parts →
    (mkdirAt t parts).2 = none →
    ∀ A B, parts = A ++ B → A ≠ [] →
    ∃ n, getNodeAt (mkdirAt t parts).1 A = some n ∧ isDirType n.type = true := by
  induction parts with
  | nil =>
    intro t _ _ A B hAB hA
    cases A with
    | nil => exact absurd rfl hA
    | cons a A' => simp at hAB
  | cons p rest ih =>
    intro t hP hok A B hAB hA
    have hp : p ≠ "" := fun hc => hP (hc ▸ List.mem_cons_self p rest)
    have hrest : "" ∉ rest := fun hc => hP (List.mem_cons_of_mem p hc)
    cases A with
    | nil => exact absurd rfl hA
    | cons a A' =>
      have ha : a = p := by
        have h2 := congrArg (fun l => List.head? l) hAB
        simpa using h2.symm
      subst ha
      have hrestAB : rest = A' ++ B := by
        have h2 := congrArg (fun l => List.tail l) hAB
        simpa using h2
      cases hc : findChild t.children a with
      | none =>
        set newDir : File :=
          File.mk a (if hasPrefixGo a "." then .hidden else .directory) "" [] 0 with hnew
        cases hm : mkdirAt newDir rest with
        | mk sub e =>
          have h1 : mkdirAt t (a :: rest) = (t.setChildren (t.children ++ [sub]), e) := by
            simp only [mkdirAt, if_neg hp, hc, hm]
          rw [h1] at hok ⊢
          simp only at hok
          subst hok
          have hsubname : sub.name = a := by
            have h2 := mkdirAt_name rest newDir
            rw [hm] at h2
            exact h2
          have hfind : findChild (t.children ++ [sub]) a = some sub := by
            rw [findChild_append_of_none [sub] hc]
            simp [findChild, hsubname]
          have hwalk : getNodeAt (t.setChildren (t.children ++ [sub])) (a :: A') =
              getNodeAt sub A' := by
            simp only [getNodeAt, if_neg hp, File.children_setChildren, hfind]
          rw [hwalk]
          cases A' with
          | nil =>
            refine ⟨sub, rfl, ?_⟩
            have h2 := mkdirAt_type rest newDir
            rw [hm] at h2
            rw [h2, hnew]
            by_cases hh : hasPrefixGo a "." = true <;> simp [hh, isDirType, File.type]
          | cons a' A'' =>
            obtain ⟨n, hn, hdir⟩ := ih newDir hrest (by rw [hm])
              (a' :: A'') B hrestAB (by simp)
            rw [hm] at hn
            exact ⟨n, hn, hdir⟩
      | some c =>
        by_cases hd : isDirType c.type
        · cases hm : mkdirAt c rest with
          | mk sub e =>
            have h1 : mkdirAt t (a :: rest) =
                (t.setChildren (replaceFirst t.children a sub), e) := by
              simp only [mkdirAt, if_neg hp, hc, if_pos hd, hm]
            rw [h1] at hok ⊢
            simp only at hok
            subst hok
            have hsubname : sub.name = a := by
              have h2 := mkdirAt_name rest c
              rw [hm] at h2
              rw [h2]
              exact findChild_name hc
            have hwalk : getNodeAt (t.setChildren (replaceFirst t.children a sub)) (a :: A') =
                getNodeAt sub A' := by
              simp only [getNodeAt, if_neg hp, File.children_setChildren]
              rw [findChild_replaceFirst_same sub hc hsubname]
            rw [hwalk]
            cases A' with
            | nil =>
              refine ⟨sub, rfl, ?_⟩
              have h2 := mkdirAt_type rest c
              rw [hm] at h2
              rw [h2]
              exact hd
            | cons a' A'' =>
              obtain ⟨n, hn, hdir⟩ := ih c hrest (by rw [hm])
                (a' :: A'') B hrestAB (by simp)
              rw [hm] at hn
              exact ⟨n, hn, hdir⟩
        · exfalso
          have h1 : (mkdirAt t (a :: rest)).2 = some ("not a directory: " ++ a) := by
            simp only [mkdirAt, if_neg hp, hc, if_neg hd]
          rw [h1] at hok
          simp at hok

/-! ## Lemmas: clone and well-formedness -/

/-- In the value model a deep copy is the identity (Go's `cloneFile` exists
to sever pointer aliasing, which values do not have). -/
theorem cloneFile_id (f : File) : cloneFile f = f := by
  cases f with
  | mk n t c ch s =>
    rw [cloneFile]
    have hch : (ch.attach.map (fun x => cloneFile x.1)) = ch := by
      have h2 : ∀ x ∈ ch, cloneFile x = x := fun x hx => cloneFile_id x
      calc ch.attach.map (fun x => cloneFile x.1)
          = ch.attach.map (fun x => x.1) := by
            apply List.map_congr_left
            intro x _
            exact h2 x.1 x.2
        _ = ch := List.attach_map_subtype_val ch
    rw [hch]
termination_by sizeOf f
decreasing_by
  have := List.sizeOf_lt_of_mem hx
  simp only [File.mk.sizeOf_spec]
  omega

theorem WFForest_iff (l : List File) :
    WFForest l = true ↔ ∀ c ∈ l, WFTree c = true := by
  induction l with
  | nil => simp [WFForest]
  | cons f fs ih =>
    rw [WFForest]
    simp only [Bool.and_eq_true, ih, List.mem_cons]
    constructor
    · rintro ⟨h1, h2⟩ c (rfl | hc)
      · exact h1
      · exact h2 c hc
    · intro h
      exact ⟨h f (Or.inl rfl), fun c hc => h c (Or.inr hc)⟩

theorem WFTree_unfold (t : File) :
    WFTree t = (decide ((t.children.map File.name).Nodup) &&
      (!(t.type == FileType.regular) || t.children.isEmpty) &&
      WFForest t.children) := by
  cases t with
  | mk n ty c ch s =>
    rw [WFTree]
    simp only [File.children, File.type]

theorem WFTree.nodup {t : File} (h : WFTree t = true) :
    (t.children.map File.name).Nodup := by
  rw [WFTree_unfold] at h
  simp only [Bool.and_eq_true, decide_eq_true_eq] at h
  exact h.1.1

theorem WFTree.regular_no_children {t : File} (h : WFTree t = true)
    (ht : t.type = FileType.regular) : t.children = [] := by
  rw [WFTree_unfold] at h
  simp only [Bool.and_eq_true, Bool.or_eq_true, Bool.not_eq_true', beq_eq_false_iff_ne,
    ne_eq] at h
  rcases h.1.2 with h2 | h2
  · exact absurd ht h2
  · exact List.isEmpty_iff.1 h2

theorem WFTree.child {t : File} (h : WFTree t = true) :
    ∀ c ∈ t.children, WFTree c = true := by
  rw [WFTree_unfold] at h
  simp only [Bool.and_eq_true] at h
  exact (WFForest_iff t.children).1 h.2

theorem getNodeAt_WF (P : List String) : ∀ t v : File, WFTree t = true →
    getNodeAt t P = some v → WFTree v = true := by
  induction P with
  | nil =>
    intro t v ht h
    simp only [getNodeAt] at h
    cases h
    exact ht
  | cons p rest ih =>
    intro t v ht h
    simp only [getNodeAt] at h
    by_cases hp : p = ""
    · rw [if_pos hp] at h
      exact ih t v ht h
    · rw [if_neg hp] at h
      cases hc : findChild t.children p with
      | none => rw [hc] at h; simp at h
      | some c =>
        rw [hc] at h
        exact ih c v (WFTree.child ht c (findChild_mem hc)) h

theorem countName_le_one_of_nodup {l : List File} (h : (l.map File.name).Nodup)
    (n : String) : (l.filter (fun f => f.name = n)).length ≤ 1 := by
  induction l with
  | nil => simp
  | cons f fs ih =>
    simp only [List.map_cons, List.nodup_cons] at h
    simp only [List.filter_cons]
    by_cases hf : f.name = n
    · simp only [decide_eq_true_eq, if_pos hf, List.length_cons]
      have hnil : fs.filter (fun f => f.name = n) = [] := by
        apply List.filter_eq_nil_iff.2
        intro g hg
        simp only [decide_eq_true_eq]
        intro hgn
        apply h.1
        have hmem : g.name ∈ List.map File.name fs := List.mem_map_of_mem File.name hg
        rw [hgn] at hmem
        rw [hf]
        exact hmem
      rw [hnil]
      simp
    · simp only [decide_eq_true_eq, if_neg hf]
      exact ih h.2

/-! ## Lemmas: `dirGo`, `baseGo`, `joinPath` on rendered absolute paths -/

theorem cleanSegs_cons_empty (rooted : Bool) (l : List String) :
    cleanSegs rooted ("" :: l) = cleanSegs rooted l := by
  simp [cleanSegs, cleanLoop]

theorem cleanSegs_append_empty (rooted : Bool) (l : List String) :
    cleanSegs rooted (l ++ [""]) = cleanSegs rooted l := by
  unfold cleanSegs
  rw [cleanLoop_append]
  simp [cleanLoop]

theorem renderAbs_nil : renderAbs [] = "/" := by
  simp [renderAbs, joinSlash]

/-- Cleaning `renderAbs X ++ "/" ++ n` appends the segment. -/
theorem clean_renderAbs_seg {X : List String} (hX : GoodSegs X) {n : String}
    (hn : GoodSeg n) : clean (renderAbs X ++ "/" ++ n) = renderAbs (X ++ [n]) := by
  have hpre : hasPrefixGo (renderAbs X ++ "/" ++ n) "/" = true := by
    apply hasPrefixGo_slash_append
    apply hasPrefixGo_slash_append
    exact renderAbs_hasPrefix X
  rw [clean_rooted_eq _ hpre]
  have hsplit : splitSlash (renderAbs X ++ "/" ++ n) =
      splitSlash (renderAbs X) ++ [n] := by
    rw [splitSlash_append_sep, splitSlash_no_slash n hn.2.2.2]
  rw [hsplit]
  by_cases hne : X = []
  · subst hne
    have h1 : splitSlash (renderAbs []) = ["", ""] := by decide
    rw [h1]
    have h3 : ((["", ""] : List String) ++ [n]) = "" :: "" :: [n] := rfl
    rw [h3, cleanSegs_cons_empty, cleanSegs_cons_empty]
    rw [cleanSegs_fixpoint true [n] (by
      intro s hs
      simp only [List.mem_singleton] at hs
      subst hs
      exact ⟨hn.1, hn.2.1, hn.2.2.1⟩)]
    rfl
  · rw [splitSlash_renderAbs X hne (goodSegs_no_slash hX)]
    have h3 : ("" :: X) ++ [n] = "" :: (X ++ [n]) := rfl
    rw [h3, cleanSegs_cons_empty]
    rw [cleanSegs_fixpoint true (X ++ [n]) ?_]
    intro s hs
    rcases List.mem_append.1 hs with h | h
    · exact goodSegs_plain hX s h
    · simp only [List.mem_singleton] at h
      subst h
      exact ⟨hn.1, hn.2.1, hn.2.2.1⟩

theorem joinPath_renderAbs {X : List String} (hX : GoodSegs X) {n : String}
    (hn : GoodSeg n) : joinPath (renderAbs X) n = renderAbs (X ++ [n]) := by
  unfold joinPath
  have h1 : ([renderAbs X, n].filter (fun x => x ≠ "")) = [renderAbs X, n] := by
    simp [renderAbs_ne_empty, hn.1]
  rw [h1]
  have h2 : ([renderAbs X, n] : List String).isEmpty = false := rfl
  simp only [h2, Bool.false_eq_true, if_false]
  have h3 : joinSlash [renderAbs X, n] = renderAbs X ++ "/" ++ n := rfl
  rw [h3]
  exact clean_renderAbs_seg hX hn

/-- `filepath.Dir` of a rendered absolute path drops the last segment. -/
theorem dirGo_renderAbs {segs : List String} (h : GoodSegs segs) :
    dirGo (renderAbs segs) = renderAbs segs.dropLast := by
  cases segs with
  | nil => decide
  | cons s rest =>
    unfold dirGo
    rw [splitSlash_renderAbs (s :: rest) (by simp) (goodSegs_no_slash h)]
    have hlen : ¬ ("" :: s :: rest).length ≤ 1 := by simp
    rw [if_neg hlen]
    have hdrop : ("" :: s :: rest).dropLast = "" :: (s :: rest).dropLast := rfl
    rw [hdrop]
    cases hrest : (s :: rest).dropLast with
    | nil =>
      have h1 : joinSlash [""] = "" := rfl
      rw [h1]
      have h2 : ("" ++ "/" : String) = "/" := by
        rw [String.empty_append]
      rw [h2]
      decide
    | cons d ds =>
      have hdl : GoodSegs (d :: ds) := by
        rw [← hrest]
        intro x hx
        exact h x (List.dropLast_subset _ hx)
      have h1 : joinSlash ("" :: d :: ds) = "" ++ "/" ++ joinSlash (d :: ds) :=
        joinSlash_cons_cons "" d ds
      rw [h1]
      have h2 : ("" ++ "/" ++ joinSlash (d :: ds) ++ "/" : String) =
          renderAbs (d :: ds) ++ "/" := by
        rw [String.empty_append]
        rfl
      rw [h2]
      have hpre : hasPrefixGo (renderAbs (d :: ds) ++ "/") "/" = true :=
        hasPrefixGo_slash_append "/" (renderAbs_hasPrefix (d :: ds))
      rw [clean_rooted_eq _ hpre]
      have hsplit : splitSlash (renderAbs (d :: ds) ++ "/") =
          ("" :: d :: ds) ++ [""] := by
        have h4 : (renderAbs (d :: ds) ++ "/" : String) =
            renderAbs (d :: ds) ++ "/" ++ "" := by
          rw [String.append_empty]
        rw [h4, splitSlash_append_sep,
          splitSlash_renderAbs (d :: ds) (by simp) (goodSegs_no_slash hdl)]
        rfl
      rw [hsplit]
      have h5 : ("" :: d :: ds) ++ [""] = "" :: ((d :: ds) ++ [""]) := rfl
      rw [h5, cleanSegs_cons_empty, cleanSegs_append_empty,
        cleanSegs_fixpoint true (d :: ds) (goodSegs_plain hdl)]

theorem string_data_ne_nil {s : String} (h : s ≠ "") : s.data ≠ [] := by
  intro hc
  exact h (by rw [← strMk_data s, hc])

/-- The rendered join of good segments does not end in a slash. -/
theorem joinSlash_reverse_head (segs : List String) (hne : segs ≠ [])
    (h : GoodSegs segs) :
    ∃ c t, (joinSlash segs).data.reverse = c :: t ∧ c ≠ '/' := by
  induction segs with
  | nil => exact absurd rfl hne
  | cons x xs ih =>
    cases xs with
    | nil =>
      have hx := h x (by simp)
      have hdne : x.data ≠ [] := string_data_ne_nil hx.1
      cases hr : x.data.reverse with
      | nil =>
        exfalso
        exact hdne (by rw [← List.reverse_reverse x.data, hr]; rfl)
      | cons c t =>
        refine ⟨c, t, hr, ?_⟩
        intro hc
        subst hc
        have hcmem : '/' ∈ x.data := by
          rw [← List.reverse_reverse x.data, hr]
          simp
        exact hx.2.2.2 hcmem
    | cons y ys =>
      obtain ⟨c, t, hrev, hc⟩ := ih (by simp)
        (fun s hs => h s (List.mem_cons_of_mem x hs))
      rw [joinSlash_cons_cons]
      have h1 : (x ++ "/" ++ joinSlash (y :: ys)).data =
          x.data ++ '/' :: (joinSlash (y :: ys)).data := by
        simp [String.data_append]
      rw [h1]
      refine ⟨c, t ++ '/' :: x.data.reverse, ?_, hc⟩
      rw [List.reverse_append, List.reverse_cons, hrev]
      simp

/-- `filepath.Base` of a rendered absolute path is the last segment. -/
theorem baseGo_renderAbs {segs : List String} (h : GoodSegs segs)
    (hne : segs ≠ []) : baseGo (renderAbs segs) = segs.getLastD "" := by
  obtain ⟨c, t, hrev, hc⟩ := joinSlash_reverse_head segs hne h
  unfold baseGo
  rw [if_neg (renderAbs_ne_empty segs)]
  have h1 : (renderAbs segs).data.reverse = c :: (t ++ ['/']) := by
    rw [renderAbs_data]
    rw [List.reverse_cons, hrev]
    simp
  have h2 : (renderAbs segs).data.reverse.dropWhile (fun x => x = '/') =
      (renderAbs segs).data.reverse := by
    rw [h1, List.dropWhile_cons]
    simp [hc]
  rw [h2, List.reverse_reverse, strMk_data]
  rw [if_neg (renderAbs_ne_empty segs)]
  rw [splitSlash_renderAbs segs hne (goodSegs_no_slash h)]
  rw [List.getLastD_cons]

/-- `resolvePath` leaves a clean absolute path unchanged. -/
theorem resolvePath_renderAbs (fs : Filesystem) {segs : List String}
    (h : GoodSegs segs) : fs.resolvePath (renderAbs segs) = renderAbs segs := by
  unfold Filesystem.resolvePath
  rw [if_neg (renderAbs_ne_empty segs)]
  have hne_tilde : renderAbs segs ≠ "~" := by
    intro hc
    have hd := congrArg String.data hc
    rw [renderAbs_data] at hd
    have h2 : ("~" : String).data = ['~'] := rfl
    rw [h2] at hd
    injection hd with hd1 _
    exact absurd hd1 (by decide)
  rw [if_neg hne_tilde]
  have hno_tp : hasPrefixGo (renderAbs segs) "~/" = false := by
    unfold hasPrefixGo
    rw [renderAbs_data]
    have h2 : ("~/" : String).data = ['~', '/'] := rfl
    rw [h2]
    simp [List.isPrefixOf]
  simp only [hno_tp, Bool.false_eq_true, if_false]
  simp only [renderAbs_hasPrefix segs, if_pos]
  exact clean_renderAbs h

/-! ## Lemmas: filesystem operations -/

theorem goodSegs_dropLast {S : List String} (h : GoodSegs S) : GoodSegs S.dropLast :=
  fun s hs => h s (List.dropLast_subset S hs)

theorem goodSegs_append {S T : List String} (h1 : GoodSegs S) (h2 : GoodSegs T) :
    GoodSegs (S ++ T) := by
  intro s hs
  rcases List.mem_append.1 hs with h | h
  · exact h1 s h
  · exact h2 s h

theorem dropLast_append_getLastD {α : Type} [Inhabited α] {l : List α} (h : l ≠ [])
    (d : α) : l.dropLast ++ [l.getLastD d] = l := by
  have h1 : l.getLastD d = l.getLast h := by
    rw [List.getLastD_eq_getLast?, List.getLast?_eq_getLast l h]
    rfl
  rw [h1]
  exact List.dropLast_append_getLast h

theorem goodSeg_getLastD {S : List String} (h : GoodSegs S) (hne : S ≠ []) :
    GoodSeg (S.getLastD "") := by
  apply h
  have heq := dropLast_append_getLastD hne ("" : String)
  have hmem : S.getLastD "" ∈ S.dropLast ++ [S.getLastD ""] :=
    List.mem_append_right _ (List.mem_singleton.2 rfl)
  rw [heq] at hmem
  exact hmem

theorem mem_of_goodSegs_notEmpty {S : List String} (h : GoodSegs S) : "" ∉ S :=
  fun hc => (h "" hc).1 rfl

@[simp] theorem Filesystem.withRoot_root (fs : Filesystem) (r : File) :
    (fs.withRoot r).root = r := rfl

@[simp] theorem Filesystem.withRoot_cwdPath (fs : Filesystem) (r : File) :
    (fs.withRoot r).cwdPath = fs.cwdPath := rfl

@[simp] theorem Filesystem.withRoot_home (fs : Filesystem) (r : File) :
    (fs.withRoot r).home = fs.home := rfl

@[simp] theorem Filesystem.withRoot_user (fs : Filesystem) (r : File) :
    (fs.withRoot r).user = fs.user := rfl

theorem Filesystem.withRoot_self (fs : Filesystem) : fs.withRoot fs.root = fs := rfl

theorem resolvePath_congr {fs1 fs2 : Filesystem} (hc : fs1.cwdPath = fs2.cwdPath)
    (hh : fs1.home = fs2.home) (p : String) :
    fs1.resolvePath p = fs2.resolvePath p := by
  unfold Filesystem.resolvePath
  rw [hc, hh]

theorem Mkdir_def (fs : Filesystem) (path : String) :
    fs.Mkdir path =
      (fs.withRoot (mkdirAt fs.root (splitPath (fs.resolvePath path))).1,
       (mkdirAt fs.root (splitPath (fs.resolvePath path))).2) := by
  unfold Filesystem.Mkdir
  dsimp only

@[simp] theorem Mkdir_cwdPath (fs : Filesystem) (path : String) :
    (fs.Mkdir path).1.cwdPath = fs.cwdPath := by rw [Mkdir_def]; rfl

@[simp] theorem Mkdir_home (fs : Filesystem) (path : String) :
    (fs.Mkdir path).1.home = fs.home := by rw [Mkdir_def]; rfl

@[simp] theorem Mkdir_user (fs : Filesystem) (path : String) :
    (fs.Mkdir path).1.user = fs.user := by rw [Mkdir_def]; rfl

/-- A failing `Mkdir` leaves the filesystem unchanged. -/
theorem Mkdir_error_eq {fs : Filesystem} {path : String}
    (h : (fs.Mkdir path).2.isSome = true) : (fs.Mkdir path).1 = fs := by
  rw [Mkdir_def] at h ⊢
  simp only at h ⊢
  rw [mkdirAt_error_eq _ _ h]
  exact Filesystem.withRoot_self fs

/-- A failing `Cd` leaves the filesystem unchanged. -/
theorem Cd_error_eq {fs : Filesystem} {path : String}
    (h : (fs.Cd path).2.isSome = true) : (fs.Cd path).1 = fs := by
  unfold Filesystem.Cd at h ⊢
  dsimp only at h ⊢
  cases hg : fs.getNode (fs.resolvePath
      (if path = "" ∨ path = "~" then fs.home
       else if hasPrefixGo path "~/" = true then fs.home ++ String.drop path 1
       else path)) with
  | error e => rfl
  | ok node =>
    rw [hg] at h
    dsimp only at h ⊢
    by_cases ht : node.type ≠ FileType.directory ∧ node.type ≠ FileType.hidden
    · rw [if_pos ht]
    · rw [if_neg ht] at h
      simp at h

/-- A failing `Rm` leaves the filesystem unchanged. -/
theorem Rm_error_eq {fs : Filesystem} {path : String}
    (h : (fs.Rm path).2.isSome = true) : (fs.Rm path).1 = fs := by
  unfold Filesystem.Rm at h ⊢
  dsimp only at h ⊢
  cases hg : fs.getNode (fs.resolvePath path) with
  | error e => rfl
  | ok node =>
    rw [hg] at h
    dsimp only at h ⊢
    by_cases ht : node.type = FileType.directory
    · rw [if_pos ht]
    · rw [if_neg ht] at h ⊢
      cases hl : ((splitPath (fs.resolvePath path)).filter (fun s => s ≠ "")).getLast? with
      | none => rfl
      | some last =>
        rw [hl] at h
        simp at h

@[simp] theorem Rm_cwdPath (fs : Filesystem) (path : String) :
    (fs.Rm path).1.cwdPath = fs.cwdPath := by
  unfold Filesystem.Rm
  dsimp only
  cases fs.getNode (fs.resolvePath path) with
  | error e => rfl
  | ok node =>
    dsimp only
    by_cases ht : node.type = FileType.directory
    · rw [if_pos ht]
    · rw [if_neg ht]
      cases ((splitPath (fs.resolvePath path)).filter (fun s => s ≠ "")).getLast? <;> rfl

@[simp] theorem Rm_home (fs : Filesystem) (path : String) :
    (fs.Rm path).1.home = fs.home := by
  unfold Filesystem.Rm
  dsimp only
  cases fs.getNode (fs.resolvePath path) with
  | error e => rfl
  | ok node =>
    dsimp only
    by_cases ht : node.type = FileType.directory
    · rw [if_pos ht]
    · rw [if_neg ht]
      cases ((splitPath (fs.resolvePath path)).filter (fun s => s ≠ "")).getLast? <;> rfl

/-- `getNode` on a rendered absolute path is exactly the segment walk. -/
theorem getNode_renderAbs (fs : Filesystem) {X : List String} (h : GoodSegs X) :
    fs.getNode (renderAbs X) =
      match getNodeAt fs.root X with
      | some n => Except.ok n
      | none => Except.error ("no such file or directory: " ++ renderAbs X) := by
  unfold Filesystem.getNode
  by_cases hr : renderAbs X = "/"
  · rw [if_pos hr]
    have hX : X = [] := (renderAbs_eq_root_iff h).1 hr
    subst hX
    rfl
  · rw [if_neg hr, splitPath_renderAbs h]

theorem Touch_cwdPath (fs : Filesystem) (path : String) :
    (fs.Touch path).1.cwdPath = fs.cwdPath := by
  unfold Filesystem.Touch
  dsimp only
  cases hm : fs.Mkdir (dirGo (fs.resolvePath path)) with
  | mk fs1 e =>
    have hf : fs1.cwdPath = fs.cwdPath := by
      have h2 := Mkdir_cwdPath fs (dirGo (fs.resolvePath path))
      rw [hm] at h2
      exact h2
    cases e with
    | some err => dsimp only; exact hf
    | none =>
      dsimp only
      cases fs1.getNode (dirGo (fs.resolvePath path)) with
      | error e2 => dsimp only; exact hf
      | ok parent =>
        dsimp only
        cases findChild parent.children (baseGo (fs.resolvePath path)) with
        | some c => dsimp only; exact hf
        | none => dsimp only; exact hf

theorem Touch_home (fs : Filesystem) (path : String) :
    (fs.Touch path).1.home = fs.home := by
  unfold Filesystem.Touch
  dsimp only
  cases hm : fs.Mkdir (dirGo (fs.resolvePath path)) with
  | mk fs1 e =>
    have hf : fs1.home = fs.home := by
      have h2 := Mkdir_home fs (dirGo (fs.resolvePath path))
      rw [hm] at h2
      exact h2
    cases e with
    | some err => dsimp only; exact hf
    | none =>
      dsimp only
      cases fs1.getNode (dirGo (fs.resolvePath path)) with
      | error e2 => dsimp only; exact hf
      | ok parent =>
        dsimp only
        cases findChild parent.children (baseGo (fs.resolvePath path)) with
        | some c => dsimp only; exact hf
        | none => dsimp only; exact hf

/-- Full description of `Touch` under a clean absolute working directory:
it never fails except through `Mkdir`, a failure leaves the filesystem
unchanged, and a success leaves the touched path resolvable. -/
theorem Touch_master (fs : Filesystem) (path : String)
    (hc : CleanAbs fs.cwdPath) (hh : CleanAbs fs.home) :
    ((fs.Touch path).2.isSome = true → (fs.Touch path).1 = fs) ∧
    ((fs.Touch path).2 = none →
      ∃ v, getNodeAt (fs.Touch path).1.root (splitPath (fs.resolvePath path)) = some v) := by
  obtain ⟨hgood, hrender⟩ := (resolvePath_cleanAbs fs path hc hh).segs
  set S := splitPath (fs.resolvePath path) with hS
  have hdir : dirGo (fs.resolvePath path) = renderAbs S.dropLast := by
    rw [hrender]
    exact dirGo_renderAbs hgood
  have hgoodDL : GoodSegs S.dropLast := goodSegs_dropLast hgood
  have hmk : fs.Mkdir (dirGo (fs.resolvePath path)) =
      (fs.withRoot (mkdirAt fs.root S.dropLast).1, (mkdirAt fs.root S.dropLast).2) := by
    rw [hdir, Mkdir_def, resolvePath_renderAbs fs hgoodDL, splitPath_renderAbs hgoodDL]
  have hTouch : fs.Touch path =
      (match (fs.withRoot (mkdirAt fs.root S.dropLast).1, (mkdirAt fs.root S.dropLast).2) with
       | (fs1, some e) => (fs1, some e)
       | (fs1, none) =>
         match fs1.getNode (dirGo (fs.resolvePath path)) with
         | .error e => (fs1, some e)
         | .ok parent =>
           match findChild parent.children (baseGo (fs.resolvePath path)) with
           | some _ => (fs1, none)
           | none =>
             (fs1.withRoot (modifyAt fs1.root (splitPath (dirGo (fs.resolvePath path)))
               (fun d => d.setChildren (d.children ++
                 [File.mk (baseGo (fs.resolvePath path))
                   (if hasPrefixGo (baseGo (fs.resolvePath path)) "." then .hidden else .regular)
                   "" [] 0]))), none)) := by
    unfold Filesystem.Touch
    dsimp only
    rw [hmk]
  cases he : (mkdirAt fs.root S.dropLast).2 with
  | some err =>
    have heq : (mkdirAt fs.root S.dropLast).1 = fs.root :=
      mkdirAt_error_eq _ _ (by rw [he]; rfl)
    rw [hTouch, he, heq, Filesystem.withRoot_self]
    exact ⟨fun _ => rfl, fun hcontra => by simp at hcontra⟩
  | none =>
    set fs1 := fs.withRoot (mkdirAt fs.root S.dropLast).1 with hfs1
    obtain ⟨parent, hpar, _⟩ :=
      mkdirAt_ok_getNode S.dropLast fs.root (mem_of_goodSegs_notEmpty hgoodDL) he
    have hget : fs1.getNode (dirGo (fs.resolvePath path)) = .ok parent := by
      rw [hdir, getNode_renderAbs fs1 hgoodDL]
      rw [hfs1, Filesystem.withRoot_root, hpar]
    rw [hTouch, he]
    dsimp only
    rw [hget]
    dsimp only
    rw [hdir, splitPath_renderAbs hgoodDL]
    by_cases hSnil : S = []
    · -- The path resolves to the root; the walk over `[]` always succeeds.
      rcases Option.eq_none_or_eq_some
          (findChild parent.children (baseGo (fs.resolvePath path))) with hfc | ⟨c, hfc⟩
      · rw [hfc]
        dsimp only
        refine ⟨fun hcontra => by simp at hcontra, fun _ => ?_⟩
        rw [hSnil]
        exact ⟨_, rfl⟩
      · rw [hfc]
        dsimp only
        refine ⟨fun hcontra => by simp at hcontra, fun _ => ?_⟩
        rw [hSnil]
        exact ⟨fs1.root, rfl⟩
    · have hbase : baseGo (fs.resolvePath path) = S.getLastD "" := by
        rw [hrender]
        exact baseGo_renderAbs hgood hSnil
      have hgoodLast : GoodSeg (S.getLastD "") := goodSeg_getLastD hgood hSnil
      have hsplitS : S.dropLast ++ [S.getLastD ""] = S := dropLast_append_getLastD hSnil ""
      rcases Option.eq_none_or_eq_some
          (findChild parent.children (baseGo (fs.resolvePath path))) with hfc | ⟨c, hfc⟩
      case _ =>
        rw [hfc]
        dsimp only
        refine ⟨fun hcontra => by simp at hcontra, fun _ => ?_⟩
        simp only [Filesystem.withRoot_root]
        set f : File → File := fun d => d.setChildren (d.children ++
          [File.mk (baseGo (fs.resolvePath path))
            (if hasPrefixGo (baseGo (fs.resolvePath path)) "." then FileType.hidden
             else FileType.regular)
            "" [] 0]) with hfdef
        have hstep : getNodeAt (modifyAt fs1.root S.dropLast f) S =
            getNodeAt (modifyAt fs1.root S.dropLast f) (S.dropLast ++ [S.getLastD ""]) := by
          rw [hsplitS]
        rw [hstep, getNodeAt_append]
        have hmod := getNodeAt_modifyAt_same fs1.root S.dropLast f (fun x => by
          rw [hfdef]
          simp)
        rw [hmod]
        rw [hfs1, Filesystem.withRoot_root, hpar]
        simp only [Option.map_some', Option.some_bind]
        rw [getNodeAt_singleton _ (S.getLastD "") hgoodLast.1]
        rw [hfdef]
        simp only [File.children_setChildren]
        rw [← hbase, findChild_append_of_none _ hfc]
        simp only [findChild, File.name, if_pos rfl]
        exact ⟨_, rfl⟩
      case _ =>
        rw [hfc]
        dsimp only
        refine ⟨fun hcontra => by simp at hcontra, fun _ => ?_⟩
        have hstep : getNodeAt fs1.root S =
            getNodeAt fs1.root (S.dropLast ++ [S.getLastD ""]) := by
          rw [hsplitS]
        rw [hstep, getNodeAt_append]
        rw [hfs1, Filesystem.withRoot_root, hpar]
        simp only [Option.some_bind]
        rw [getNodeAt_singleton parent (S.getLastD "") hgoodLast.1]
        rw [hbase] at hfc
        exact ⟨c, hfc⟩

/-! ## Lemmas: more tree frame properties -/

theorem modifyAt_type (t : File) (P : List String) (f : File → File)
    (hf : ∀ x, (f x).type = x.type) : (modifyAt t P f).type = t.type := by
  cases P with
  | nil => exact hf t
  | cons p rest =>
    simp only [modifyAt]
    by_cases hp : p = ""
    · rw [if_pos hp]
      exact modifyAt_type t rest f hf
    · rw [if_neg hp]
      cases findChild t.children p with
      | none => rfl
      | some c => simp

theorem modifyAt_append (t : File) (P R : List String) (f : File → File) :
    modifyAt t (P ++ R) f = modifyAt t P (fun n => modifyAt n R f) := by
  induction P generalizing t with
  | nil => rfl
  | cons p P' ih =>
    simp only [List.cons_append, modifyAt]
    by_cases hp : p = ""
    · rw [if_pos hp, if_pos hp]
      exact ih t
    · rw [if_neg hp, if_neg hp]
      cases findChild t.children p with
      | none => rfl
      | some c =>
        dsimp only
        rw [List.append_eq, ih c]

/-- Walks that diverge from the modified path are untouched, subtree
included. -/
theorem getNodeAt_modifyAt_diverge (t : File) (P Q : List String) (f : File → File)
    (hf : ∀ x, (f x).name = x.name)
    (hP : "" ∉ P) (hQ : "" ∉ Q) (h1 : ¬ P <+: Q) (h2 : ¬ Q <+: P) :
    getNodeAt (modifyAt t P f) Q = getNodeAt t Q := by
  induction P generalizing t Q with
  | nil => exact absurd List.nil_prefix h1
  | cons p P' ih =>
    cases Q with
    | nil => exact absurd List.nil_prefix h2
    | cons q Q' =>
      have hp : p ≠ "" := fun hc => hP (hc ▸ List.mem_cons_self p P')
      have hq : q ≠ "" := fun hc => hQ (hc ▸ List.mem_cons_self q Q')
      have hP' : "" ∉ P' := fun hc => hP (List.mem_cons_of_mem p hc)
      have hQ' : "" ∉ Q' := fun hc => hQ (List.mem_cons_of_mem q hc)
      simp only [modifyAt, if_neg hp]
      cases hc : findChild t.children p with
      | none => rfl
      | some c =>
        have hM : (modifyAt c P' f).name = p := by
          rw [modifyAt_name c P' f hf]
          exact findChild_name hc
        by_cases hpq : p = q
        · subst hpq
          have h1' : ¬ P' <+: Q' := fun hpre => h1 (List.cons_prefix_cons.2 ⟨rfl, hpre⟩)
          have h2' : ¬ Q' <+: P' := fun hpre => h2 (List.cons_prefix_cons.2 ⟨rfl, hpre⟩)
          simp only [getNodeAt, if_neg hp, File.children_setChildren]
          rw [findChild_replaceFirst_same (modifyAt c P' f) hc hM, hc]
          exact ih c Q' hP' hQ' h1' h2'
        · have hqp : q ≠ p := fun h => hpq h.symm
          simp only [getNodeAt, if_neg hq, File.children_setChildren]
          rw [findChild_replaceFirst_diff (modifyAt c P' f) hM hqp]

theorem getNodeAt_last_name {t v : File} {P : List String} {n : String} (hn : n ≠ "")
    (h : getNodeAt t (P ++ [n]) = some v) : v.name = n := by
  rw [getNodeAt_append] at h
  cases hw : getNodeAt t P with
  | none => rw [hw] at h; simp at h
  | some m =>
    rw [hw] at h
    simp only [Option.some_bind] at h
    rw [getNodeAt_singleton m n hn] at h
    exact findChild_name h

theorem replaceFirst_map_name {l : List File} {n : String} {g : File}
    (hg : g.name = n) : (replaceFirst l n g).map File.name = l.map File.name := by
  induction l with
  | nil => rfl
  | cons f fs ih =>
    simp only [replaceFirst]
    by_cases hf : f.name = n
    · rw [if_pos hf]
      simp only [List.map_cons, hg, hf]
    · rw [if_neg hf]
      simp only [List.map_cons, ih]

theorem mem_replaceFirst {l : List File} {n : String} {g x : File}
    (hx : x ∈ replaceFirst l n g) : x ∈ l ∨ x = g := by
  induction l with
  | nil => simp [replaceFirst] at hx
  | cons f fs ih =>
    simp only [replaceFirst] at hx
    by_cases hf : f.name = n
    · rw [if_pos hf] at hx
      rcases List.mem_cons.1 hx with h | h
      · exact Or.inr h
      · exact Or.inl (List.mem_cons_of_mem f h)
    · rw [if_neg hf] at hx
      rcases List.mem_cons.1 hx with h | h
      · exact Or.inl (h ▸ List.mem_cons_self f fs)
      · rcases ih h with h2 | h2
        · exact Or.inl (List.mem_cons_of_mem f h2)
        · exact Or.inr h2

theorem replaceFirst_isEmpty (l : List File) (n : String) (g : File) :
    (replaceFirst l n g).isEmpty = l.isEmpty := by
  cases l with
  | nil => rfl
  | cons f fs =>
    simp only [replaceFirst]
    by_cases hf : f.name = n
    · rw [if_pos hf]; rfl
    · rw [if_neg hf]; rfl

theorem WFTree_setChildren {t : File} (ch : List File)
    (hn : (ch.map File.name).Nodup)
    (he : t.type = FileType.regular → ch.isEmpty = true)
    (hw : ∀ c ∈ ch, WFTree c = true) :
    WFTree (t.setChildren ch) = true := by
  cases t with
  | mk nm ty co ch0 sz =>
    simp only [File.type] at he
    simp only [File.setChildren]
    rw [WFTree]
    simp only [Bool.and_eq_true]
    refine ⟨⟨decide_eq_true hn, ?_⟩, ?_⟩
    · by_cases ht : ty = FileType.regular
      · rw [he ht]
        simp
      · have : (ty == FileType.regular) = false := beq_eq_false_iff_ne.2 ht
        rw [this]
        simp
    · exact (WFForest_iff ch).2 hw

theorem WFTree_modifyAt (P : List String) (f : File → File)
    (hfn : ∀ x, (f x).name = x.name)
    (hfw : ∀ x, WFTree x = true → WFTree (f x) = true) :
    ∀ t, WFTree t = true → WFTree (modifyAt t P f) = true := by
  induction P with
  | nil => intro t ht; exact hfw t ht
  | cons p rest ih =>
    intro t ht
    simp only [modifyAt]
    by_cases hp : p = ""
    · rw [if_pos hp]
      exact ih t ht
    · rw [if_neg hp]
      cases hc : findChild t.children p with
      | none => exact ht
      | some c =>
        have hM : (modifyAt c rest f).name = p := by
          rw [modifyAt_name c rest f hfn]
          exact findChild_name hc
        apply WFTree_setChildren
        · rw [replaceFirst_map_name hM]
          exact WFTree.nodup ht
        · intro hreg
          have := WFTree.regular_no_children ht hreg
          rw [this]
          rfl
        · intro x hx
          rcases mem_replaceFirst hx with h | h
          · exact WFTree.child ht x h
          · subst h
            exact ih c (WFTree.child ht c (findChild_mem hc))

theorem not_regular_isDirType {ty : FileType} (h : ty ≠ FileType.regular) :
    isDirType ty = true := by
  cases ty with
  | regular => exact absurd rfl h
  | directory => rfl
  | hidden => rfl

/-- In a well-formed tree, a successful walk ending at a directory-typed
node passes only through directory-typed nodes: interior nodes have
children, so they cannot be regular files. -/
theorem dirsAlong_of_walk (D : List String) : ∀ t v : File, WFTree t = true →
    "" ∉ D → getNodeAt t D = some v → isDirType v.type = true →
    dirsAlong t D = true := by
  induction D with
  | nil => intro t v _ _ _ _; rfl
  | cons q Q ih =>
    intro t v ht hD h hv
    have hq : q ≠ "" := fun hc => hD (hc ▸ List.mem_cons_self q Q)
    have hQ : "" ∉ Q := fun hc => hD (List.mem_cons_of_mem q hc)
    simp only [getNodeAt, if_neg hq] at h
    simp only [dirsAlong, if_neg hq]
    cases hc : findChild t.children q with
    | none => rw [hc] at h; simp at h
    | some c =>
      rw [hc] at h
      have hcw : WFTree c = true := WFTree.child ht c (findChild_mem hc)
      simp only [Bool.and_eq_true]
      refine ⟨?_, ih c v hcw hQ h hv⟩
      cases Q with
      | nil =>
        simp only [getNodeAt] at h
        cases h
        exact hv
      | cons q' Q' =>
        have hq' : q' ≠ "" := fun hc2 => hQ (hc2 ▸ List.mem_cons_self q' Q')
        simp only [getNodeAt, if_neg hq'] at h
        cases hc2 : findChild c.children q' with
        | none => rw [hc2] at h; simp at h
        | some c2 =>
          have hne : c.children ≠ [] := by
            intro hnil
            rw [hnil] at hc2
            simp [findChild] at hc2
          apply not_regular_isDirType
          intro hreg
          exact hne (WFTree.regular_no_children hcw hreg)

theorem getNodeAt_of_dirsAlong (D : List String) : ∀ t : File,
    dirsAlong t D = true → ∃ n, getNodeAt t D = some n := by
  induction D with
  | nil => intro t _; exact ⟨t, rfl⟩
  | cons q Q ih =>
    intro t h
    simp only [dirsAlong] at h
    simp only [getNodeAt]
    by_cases hq : q = ""
    · rw [if_pos hq] at h ⊢
      exact ih t h
    · rw [if_neg hq] at h ⊢
      cases hc : findChild t.children q with
      | none => rw [hc] at h; simp at h
      | some c =>
        rw [hc] at h
        simp only [Bool.and_eq_true] at h
        exact ih c h.2

/-! ## Lemmas: more filesystem operations -/

theorem getNode_congr {fs1 fs2 : Filesystem} (h : fs1.root = fs2.root) (p : String) :
    fs1.getNode p = fs2.getNode p := by
  unfold Filesystem.getNode
  rw [h]

theorem Touch_resolvePath (fs : Filesystem) (path q : String) :
    (fs.Touch path).1.resolvePath q = fs.resolvePath q :=
  resolvePath_congr (Touch_cwdPath fs path) (Touch_home fs path) q

/-- `WriteFile` can only fail through `Touch`, and a failure leaves the
filesystem unchanged. -/
theorem WriteFile_error_eq {fs : Filesystem} {path content : String}
    (hc : CleanAbs fs.cwdPath) (hh : CleanAbs fs.home) :
    (fs.WriteFile path content).2.isSome = true → (fs.WriteFile path content).1 = fs := by
  intro herr
  have hmaster := Touch_master fs path hc hh
  unfold Filesystem.WriteFile at herr ⊢
  cases hT : fs.Touch path with
  | mk fs1 e =>
    rw [hT] at herr
    cases e with
    | some e0 =>
      dsimp only at herr ⊢
      have : (fs.Touch path).2.isSome = true := by rw [hT]; rfl
      have h1 := hmaster.1 this
      rw [hT] at h1
      exact h1
    | none =>
      dsimp only at herr ⊢
      have hok : (fs.Touch path).2 = none := by rw [hT]
      obtain ⟨v, hv⟩ := hmaster.2 hok
      rw [hT] at hv
      dsimp only at hv
      have hres : fs1.resolvePath path = fs.resolvePath path := by
        have := Touch_resolvePath fs path path
        rw [hT] at this
        exact this
      rw [hres] at herr
      have hgn : ∃ w, fs1.getNode (fs.resolvePath path) = .ok w := by
        unfold Filesystem.getNode
        by_cases hr : fs.resolvePath path = "/"
        · rw [if_pos hr]
          exact ⟨fs1.root, rfl⟩
        · rw [if_neg hr, hv]
          exact ⟨v, rfl⟩
      obtain ⟨w, hw⟩ := hgn
      rw [hw] at herr
      simp at herr

/-- A `mkdir`/`rm` loop over flag-only arguments does nothing. -/
theorem opLoopSkipFlags_no_operand
    (op : Filesystem → String → Filesystem × Option String) :
    ∀ (args : List String) (fs : Filesystem), nonFlagCount args = 0 →
    opLoopSkipFlags op fs args = (fs, none) := by
  intro args
  induction args with
  | nil => intro fs _; rfl
  | cons p rest ih =>
    intro fs h
    simp only [nonFlagCount] at h
    simp only [opLoopSkipFlags]
    by_cases hp : hasPrefixGo p "-" = true
    · rw [if_pos hp] at h ⊢
      exact ih fs h
    · rw [if_neg hp] at h
      omega

/-- With at most one operand, a failing `mkdir`/`rm` loop leaves the
filesystem as the failing operation left it; if the operation itself is
atomic on error, so is the loop. -/
theorem opLoopSkipFlags_single_error
    (op : Filesystem → String → Filesystem × Option String)
    (hop : ∀ fs p, (op fs p).2.isSome = true → (op fs p).1 = fs) :
    ∀ (args : List String) (fs : Filesystem), nonFlagCount args ≤ 1 →
    (opLoopSkipFlags op fs args).2.isSome = true →
    (opLoopSkipFlags op fs args).1 = fs := by
  intro args
  induction args with
  | nil => intro fs _ herr; simp [opLoopSkipFlags] at herr
  | cons p rest ih =>
    intro fs hcount herr
    simp only [nonFlagCount] at hcount
    simp only [opLoopSkipFlags] at herr ⊢
    by_cases hp : hasPrefixGo p "-" = true
    · rw [if_pos hp] at hcount herr ⊢
      exact ih fs hcount herr
    · rw [if_neg hp] at hcount herr ⊢
      have hrest : nonFlagCount rest = 0 := by omega
      cases hopr : op fs p with
      | mk fs1 e =>
        rw [hopr] at herr
        cases e with
        | some e0 =>
          dsimp only at herr ⊢
          have : (op fs p).2.isSome = true := by rw [hopr]; rfl
          have h1 := hop fs p this
          rw [hopr] at h1
          exact h1
        | none =>
          dsimp only at herr ⊢
          rw [opLoopSkipFlags_no_operand op rest fs1 hrest] at herr
          simp at herr

/-- A failing single-argument `touch` leaves the filesystem unchanged. -/
theorem touchLoop_single_error {fs : Filesystem} {args : List String}
    (hc : CleanAbs fs.cwdPath) (hh : CleanAbs fs.home) (hlen : args.length ≤ 1) :
    (touchLoop fs args).2.isSome = true → (touchLoop fs args).1 = fs := by
  intro herr
  cases args with
  | nil => simp [touchLoop] at herr
  | cons p rest =>
    cases rest with
    | cons q rest2 => simp at hlen
    | nil =>
      simp only [touchLoop] at herr ⊢
      cases hT : fs.Touch p with
      | mk fs1 e =>
        rw [hT] at herr
        cases e with
        | some e0 =>
          dsimp only at herr ⊢
          have : (fs.Touch p).2.isSome = true := by rw [hT]; rfl
          have h1 := (Touch_master fs p hc hh).1 this
          rw [hT] at h1
          exact h1
        | none =>
          dsimp only at herr
          simp at herr

/-! ## Lemmas: the mission runner -/

theorem executeTmux_Completed (r : MissionRunner) (args : List String) :
    (r.executeTmux args).2.Completed = r.Completed := by
  unfold MissionRunner.executeTmux
  cases args with
  | nil =>
    dsimp only
    by_cases h : r.Tmux.inSession = true
    · rw [if_pos h]
    · rw [if_neg h]
  | cons subCmd subArgs =>
    dsimp only
    by_cases h1 : subCmd = "new" ∨ subCmd = "new-session"
    · rw [if_pos h1]
      by_cases g : r.Tmux.inSession = true ∧ ¬ r.Tmux.detached = true
      · rw [if_pos g]
      · rw [if_neg g]
    · rw [if_neg h1]
      by_cases h2 : subCmd = "attach" ∨ subCmd = "attach-session" ∨ subCmd = "a"
      · rw [if_pos h2]
        by_cases g : r.Tmux.inSession = true ∧ ¬ r.Tmux.detached = true
        · rw [if_pos g]
        · rw [if_neg g]
          by_cases g2 : ¬ r.Tmux.detached = true ∧ r.Tmux.sessionName = ""
          · rw [if_pos g2]
          · rw [if_neg g2]
      · rw [if_neg h2]
        by_cases h3 : subCmd = "detach" ∨ subCmd = "detach-client" ∨ subCmd = "d"
        · rw [if_pos h3]
          by_cases g : ¬ r.Tmux.inSession = true ∨ r.Tmux.detached = true
          · rw [if_pos g]
          · rw [if_neg g]
        · rw [if_neg h3]
          by_cases h4 : subCmd = "ls" ∨ subCmd = "list-sessions"
          · rw [if_pos h4]
            by_cases g : r.Tmux.sessionName = ""
            · rw [if_pos g]
            · rw [if_neg g]
          · rw [if_neg h4]
            by_cases h5 : subCmd = "split-window" ∨ subCmd = "split"
            · rw [if_pos h5]
              by_cases g : ¬ r.Tmux.inSession = true ∨ r.Tmux.detached = true
              · rw [if_pos g]
              · rw [if_neg g]
            · rw [if_neg h5]
              by_cases h6 : subCmd = "select-pane"
              · rw [if_pos h6]
                by_cases g : ¬ r.Tmux.inSession = true ∨ r.Tmux.detached = true
                · rw [if_pos g]
                · rw [if_neg g]
              · rw [if_neg h6]
                by_cases h7 : subCmd = "new-window"
                · rw [if_pos h7]
                  by_cases g : ¬ r.Tmux.inSession = true ∨ r.Tmux.detached = true
                  · rw [if_pos g]
                  · rw [if_neg g]
                · rw [if_neg h7]
                  by_cases h8 : subCmd = "select-window"
                  · rw [if_pos h8]
                    by_cases g : ¬ r.Tmux.inSession = true ∨ r.Tmux.detached = true
                    · rw [if_pos g]
                    · rw [if_neg g]
                  · rw [if_neg h8]
                    by_cases h9 : subCmd = "kill-session"
                    · rw [if_pos h9]
                      by_cases g : r.Tmux.sessionName = ""
                      · rw [if_pos g]
                      · rw [if_neg g]
                    · rw [if_neg h9]

theorem executeCommand_Completed (r : MissionRunner) (cmd : String) (args : List String) :
    (r.executeCommand cmd args).2.Completed = r.Completed := by
  unfold MissionRunner.executeCommand
  by_cases h1 : cmd = "pwd"
  · rw [if_pos h1]
  · rw [if_neg h1]
    by_cases h2 : cmd = "ls"
    · rw [if_pos h2]
      try dsimp only
      cases lsScan args ("", false) with
      | mk path showHidden =>
        try dsimp only
        cases r.FS.Ls path showHidden <;> rfl
    · rw [if_neg h2]
      by_cases h3 : cmd = "cd"
      · rw [if_pos h3]
        try try dsimp only
        cases hc : r.FS.Cd (match args with | [] => "" | a :: _ => a) with
        | mk fs1 e => cases e <;> rfl
      · rw [if_neg h3]
        by_cases h4 : cmd = "mkdir"
        · rw [if_pos h4]
          by_cases he : args.isEmpty = true
          · rw [if_pos he]
          · rw [if_neg he]
            try dsimp only
            cases opLoopSkipFlags Filesystem.Mkdir r.FS args with
            | mk fs1 e => cases e <;> rfl
        · rw [if_neg h4]
          by_cases h5 : cmd = "touch"
          · rw [if_pos h5]
            by_cases he : args.isEmpty = true
            · rw [if_pos he]
            · rw [if_neg he]
              try dsimp only
              cases touchLoop r.FS args with
              | mk fs1 e => cases e <;> rfl
          · rw [if_neg h5]
            by_cases h6 : cmd = "cat"
            · rw [if_pos h6]
              by_cases he : args.isEmpty = true
              · rw [if_pos he]
              · rw [if_neg he]
                try dsimp only
                cases catLoop r.FS args <;> rfl
            · rw [if_neg h6]
              by_cases h7 : cmd = "cp"
              · rw [if_pos h7]
                by_cases he : args.length < 2
                · rw [if_pos he]
                · rw [if_neg he]
                  try dsimp only
                  cases r.FS.Cp (args.getD (args.length - 2) "") (args.getD (args.length - 1) "") with
                  | mk fs1 e => cases e <;> rfl
              · rw [if_neg h7]
                by_cases h8 : cmd = "mv"
                · rw [if_pos h8]
                  by_cases he : args.length < 2
                  · rw [if_pos he]
                  · rw [if_neg he]
                    try dsimp only
                    cases r.FS.Mv (args.getD (args.length - 2) "") (args.getD (args.length - 1) "") with
                    | mk fs1 e => cases e <;> rfl
                · rw [if_neg h8]
                  by_cases h9 : cmd = "rm"
                  · rw [if_pos h9]
                    by_cases he : args.isEmpty = true
                    · rw [if_pos he]
                    · rw [if_neg he]
                      try dsimp only
                      cases opLoopSkipFlags Filesystem.Rm r.FS args with
                      | mk fs1 e => cases e <;> rfl
                  · rw [if_neg h9]
                    by_cases h10 : cmd = "grep"
                    · rw [if_pos h10]
                      by_cases he : args.length < 2
                      · rw [if_pos he]
                      · rw [if_neg he]
                        try dsimp only
                        cases r.FS.Grep (args.getD 0 "") (args.getD 1 "") <;> rfl
                    · rw [if_neg h10]
                      by_cases h11 : cmd = "find"
                      · rw [if_pos h11]
                        by_cases he : args.length < 3
                        · rw [if_pos he]
                        · rw [if_neg he]
                          try dsimp only
                          by_cases hp : findNameScan args "" = ""
                          · rw [if_pos hp]
                          · rw [if_neg hp]
                            cases r.FS.Find (args.getD 0 "") (findNameScan args "") <;> rfl
                      · rw [if_neg h11]
                        by_cases h12 : cmd = "echo"
                        · rw [if_pos h12]
                          try dsimp only
                          cases hscan : echoScan args [] "" false with
                          | mk echoArgs rest =>
                            cases rest with
                            | mk outputFile appendMode =>
                              try dsimp only
                              by_cases hf : outputFile ≠ ""
                              · rw [if_pos hf]
                                try dsimp only
                                cases r.FS.WriteFile outputFile
                                    (if appendMode = true then
                                      (match r.FS.ReadFile outputFile with
                                       | .ok existing => existing
                                       | .error _ => "") ++
                                        String.intercalate " " echoArgs ++ "\n"
                                     else String.intercalate " " echoArgs ++ "\n") with
                                | mk fs1 e => cases e <;> rfl
                              · rw [if_neg hf]
                        · rw [if_neg h12]
                          by_cases h13 : cmd = "clear"
                          · rw [if_pos h13]
                          · rw [if_neg h13]
                            by_cases h14 : cmd = "help"
                            · rw [if_pos h14]
                            · rw [if_neg h14]
                              by_cases h15 : cmd = "tmux"
                              · rw [if_pos h15]
                                exact executeTmux_Completed r args
                              · rw [if_neg h15]

/-- The completed flag never goes back from `true` across one `Execute`. -/
theorem Execute_sticky (r : MissionRunner) (input : String)
    (h : r.Completed = true) : (r.Execute input).2.Completed = true := by
  unfold MissionRunner.Execute
  dsimp only
  split
  · exact h
  · split
    · exact h
    · rename_i cmd args _
      set r1 : MissionRunner :=
        { r with Attempts := r.Attempts + 1, History := r.History ++ [input] } with hr1
      cases hec : r1.executeCommand cmd args with
      | mk result r2 =>
        have h2 : r2.Completed = true := by
          have := executeCommand_Completed r1 cmd args
          rw [hec] at this
          dsimp only at this
          rw [this]
          exact h
        dsimp only
        split
        · split
          · rfl
          · exact h2
        · exact h2

/-! ## Lemmas: `Clone` -/

theorem cleanAbs_ne_empty {p : String} (h : CleanAbs p) : p ≠ "" := by
  obtain ⟨segs, _, rfl⟩ := h
  exact renderAbs_ne_empty segs

theorem cleanAbs_hasPrefix {p : String} (h : CleanAbs p) : hasPrefixGo p "/" = true := by
  obtain ⟨segs, _, rfl⟩ := h
  exact renderAbs_hasPrefix segs

theorem cleanAbs_ne_tilde {p : String} (h : CleanAbs p) : p ≠ "~" := by
  obtain ⟨t, ht⟩ := data_of_hasPrefixGo_slash (cleanAbs_hasPrefix h)
  intro hcon
  rw [hcon] at ht
  simp at ht

theorem cleanAbs_no_tilde_prefix {p : String} (h : CleanAbs p) :
    hasPrefixGo p "~/" = false := by
  obtain ⟨t, ht⟩ := data_of_hasPrefixGo_slash (cleanAbs_hasPrefix h)
  unfold hasPrefixGo
  rw [ht]
  have h2 : ("~/").data = ['~', '/'] := rfl
  rw [h2]
  simp [List.isPrefixOf]

/-- When the current directory still resolves to a directory-typed node,
`Clone` is the identity: the deep copy equals the original tree and the
`Cd` back to the recorded position restores the same state. -/
theorem Clone_eq (fs : Filesystem) (hc : CleanAbs fs.cwdPath)
    {node : File} (hn : fs.getNode fs.cwdPath = .ok node)
    (hd : ¬ (node.type ≠ FileType.directory ∧ node.type ≠ FileType.hidden)) :
    fs.Clone = fs := by
  have hne : ¬ (fs.cwdPath = "" ∨ fs.cwdPath = "~") := by
    rintro (h1 | h1)
    · exact cleanAbs_ne_empty hc h1
    · exact cleanAbs_ne_tilde hc h1
  have hnp : hasPrefixGo fs.cwdPath "~/" = false := cleanAbs_no_tilde_prefix hc
  have hslash : hasPrefixGo fs.cwdPath "/" = true := cleanAbs_hasPrefix hc
  have hclean : clean fs.cwdPath = fs.cwdPath := by
    obtain ⟨segs, hg, hp⟩ := hc
    rw [hp]
    exact clean_renderAbs hg
  unfold Filesystem.Clone
  dsimp only
  rw [cloneFile_id]
  unfold Filesystem.Cd
  dsimp only
  rw [if_neg hne, hnp]
  simp only [Bool.false_eq_true, if_false]
  have hres : Filesystem.resolvePath
      { root := fs.root, cwdPath := "/", home := fs.home, user := fs.user }
      fs.cwdPath = fs.cwdPath := by
    unfold Filesystem.resolvePath
    rw [if_neg (cleanAbs_ne_empty hc), if_neg (cleanAbs_ne_tilde hc)]
    dsimp only
    rw [hnp]
    simp only [Bool.false_eq_true, if_false, hslash, if_pos]
    exact hclean
  rw [hres]
  have hg2 : Filesystem.getNode
      { root := fs.root, cwdPath := "/", home := fs.home, user := fs.user }
      fs.cwdPath = Except.ok node := by
    rw [getNode_congr rfl fs.cwdPath]
    exact hn
  rw [hg2]
  dsimp only
  rw [if_neg hd]

/-! ## Lemmas: `Rm` -/

theorem Rm_dir_error {fs : Filesystem} {p : String} {node : File}
    (hn : fs.getNode (fs.resolvePath p) = .ok node)
    (hd : node.type = FileType.directory) :
    (fs.Rm p).2.isSome = true ∧ (fs.Rm p).1 = fs := by
  unfold Filesystem.Rm
  dsimp only
  rw [hn]
  dsimp only
  rw [if_pos hd]
  exact ⟨rfl, rfl⟩

theorem Rm_root_error {fs : Filesystem} {p : String}
    (hroot : fs.resolvePath p = "/") :
    (fs.Rm p).2.isSome = true ∧ (fs.Rm p).1 = fs := by
  unfold Filesystem.Rm
  dsimp only
  rw [hroot]
  have hg : fs.getNode "/" = .ok fs.root := by
    unfold Filesystem.getNode
    rw [if_pos rfl]
  rw [hg]
  dsimp only
  by_cases hd : fs.root.type = FileType.directory
  · rw [if_pos hd]
    exact ⟨rfl, rfl⟩
  · rw [if_neg hd]
    have hsp : splitPath "/" = ([] : List String) := by
      rw [← renderAbs_nil, splitPath_renderAbs (by intro s hs; simp at hs)]
    rw [hsp]
    exact ⟨rfl, rfl⟩

/-- A successful `Rm` of a non-directory node: no error, and (in a
well-formed tree) the path no longer resolves. -/
theorem Rm_file_removes {fs : Filesystem} {p : String} {node : File}
    (hc : CleanAbs fs.cwdPath) (hh : CleanAbs fs.home)
    (hwf : WFTree fs.root = true)
    (hn : fs.getNode (fs.resolvePath p) = .ok node)
    (hnd : ¬ node.type = FileType.directory)
    (hroot : fs.resolvePath p ≠ "/") :
    (fs.Rm p).2 = none ∧ (fs.Rm p).1.Exists p = false := by
  obtain ⟨hgood, hrender⟩ := (resolvePath_cleanAbs fs p hc hh).segs
  set S := splitPath (fs.resolvePath p) with hS
  have hSne : S ≠ [] := by
    intro h0
    apply hroot
    rw [hrender, h0, renderAbs_nil]
  have hlastGood : GoodSeg (S.getLastD "") := goodSeg_getLastD hgood hSne
  have hsplitS : S.dropLast ++ [S.getLastD ""] = S := dropLast_append_getLastD hSne ""
  have hfilter : S.filter (fun s => decide ¬ (s = "")) = S := by
    apply List.filter_eq_self.2
    intro a ha
    simp only [decide_eq_true_eq]
    exact (hgood a ha).1
  have hga : getNodeAt fs.root S = some node := by
    unfold Filesystem.getNode at hn
    rw [if_neg hroot] at hn
    cases hw : getNodeAt fs.root (splitPath (fs.resolvePath p)) with
    | none => rw [hw] at hn; simp at hn
    | some w =>
      rw [hw] at hn
      simp only [Except.ok.injEq] at hn
      rw [hn]
  obtain ⟨parent, hpar, hpc⟩ :
      ∃ parent, getNodeAt fs.root S.dropLast = some parent ∧
        findChild parent.children (S.getLastD "") = some node := by
    have h2 := hga
    rw [← hsplitS, getNodeAt_append] at h2
    cases hw : getNodeAt fs.root S.dropLast with
    | none => rw [hw] at h2; simp at h2
    | some w =>
      rw [hw] at h2
      simp only [Option.some_bind] at h2
      rw [getNodeAt_singleton w (S.getLastD "") hlastGood.1] at h2
      exact ⟨w, rfl, h2⟩
  have hlast : S.getLast? = some (S.getLastD "") := by
    cases hq : S.getLast? with
    | none => exact absurd (List.getLast?_eq_none_iff.1 hq) hSne
    | some x =>
      rw [List.getLastD_eq_getLast?, hq]
      rfl
  have hRm : fs.Rm p =
      (fs.withRoot (modifyAt fs.root S.dropLast
        (fun parent => parent.setChildren
          (removeFirst parent.children (S.getLastD "")))), none) := by
    unfold Filesystem.Rm
    dsimp only
    rw [hn]
    dsimp only
    rw [if_neg hnd, ← hS, hfilter, hlast]
  rw [hRm]
  refine ⟨rfl, ?_⟩
  unfold Filesystem.Exists
  have hres2 : (fs.withRoot (modifyAt fs.root S.dropLast
      (fun parent => parent.setChildren
        (removeFirst parent.children (S.getLastD ""))))).resolvePath p =
      fs.resolvePath p :=
    resolvePath_congr (Filesystem.withRoot_cwdPath fs _) (Filesystem.withRoot_home fs _) p
  rw [hres2]
  unfold Filesystem.getNode
  rw [if_neg hroot]
  simp only [Filesystem.withRoot_root]
  have hwalk : getNodeAt (modifyAt fs.root S.dropLast
      (fun parent => parent.setChildren
        (removeFirst parent.children (S.getLastD "")))) (splitPath (fs.resolvePath p)) =
      none := by
    have hstep : getNodeAt (modifyAt fs.root S.dropLast
        (fun parent => parent.setChildren
          (removeFirst parent.children (S.getLastD "")))) (splitPath (fs.resolvePath p)) =
        getNodeAt (modifyAt fs.root S.dropLast
          (fun parent => parent.setChildren
            (removeFirst parent.children (S.getLastD ""))))
          (S.dropLast ++ [S.getLastD ""]) := by
      rw [← hS, hsplitS]
    rw [hstep, getNodeAt_append]
    have hmod := getNodeAt_modifyAt_same fs.root S.dropLast
      (fun parent => parent.setChildren (removeFirst parent.children (S.getLastD "")))
      (fun x => by simp)
    rw [hmod, hpar]
    simp only [Option.map_some', Option.some_bind]
    rw [getNodeAt_singleton _ (S.getLastD "") hlastGood.1]
    simp only [File.children_setChildren]
    have hparWF : WFTree parent = true := getNodeAt_WF S.dropLast fs.root parent hwf hpar
    exact findChild_removeFirst_unique
      (countName_le_one_of_nodup (WFTree.nodup hparWF) (S.getLastD ""))
  rw [hwalk]

/-! ## Lemmas: `Ls` -/

theorem sortStrings_sorted (l : List String) :
    List.Pairwise (fun a b => a ≤ b) (sortStrings l) := by
  have h := @List.sorted_mergeSort String (fun a b => a ≤ b)
    (fun a b c hab hbc => by
      simp only [decide_eq_true_eq] at hab hbc ⊢
      exact le_trans hab hbc)
    (fun a b => by
      rcases le_total a b with h2 | h2
      · simp [h2]
      · simp [h2]) l
  unfold sortStrings
  exact h.imp (fun hab => by simpa using hab)

theorem sortStrings_mem (l : List String) (x : String) :
    x ∈ sortStrings l ↔ x ∈ l :=
  (List.mergeSort_perm l (fun a b => a ≤ b)).mem_iff

/-- Successful `Ls` on a directory-typed (or hidden) node: sorted output,
one entry per visible child, each directory-typed child suffixed with a
slash (hidden subdirectories get no suffix). -/
theorem Ls_ok {fs : Filesystem} {p : String} {showHidden : Bool} {node : File}
    (hn : fs.getNode (fs.resolvePath (if p = "" then fs.cwdPath else p)) = .ok node)
    (hd : ¬ (node.type ≠ FileType.directory ∧ node.type ≠ FileType.hidden)) :
    ∃ L, fs.Ls p showHidden = .ok L ∧
      List.Pairwise (fun a b => a ≤ b) L ∧
      ∀ x, x ∈ L ↔ x ∈ node.children.filterMap (fun child =>
        if ¬ hasPrefixGo child.name "." = true ∨ showHidden = true then
          some (child.name ++ if child.type = FileType.directory then "/" else "")
        else none) := by
  unfold Filesystem.Ls
  dsimp only
  rw [hn]
  dsimp only
  rw [if_neg hd]
  exact ⟨_, rfl, sortStrings_sorted _, fun x => sortStrings_mem _ x⟩

/-! ## Lemmas: the `Mkdir` contract -/

/-- The full `Mkdir` contract: success makes the path an existing directory,
`Mkdir` is idempotent on success, it errors exactly when an intermediate
node exists as a non-directory, and a success creates every missing
ancestor (each non-empty prefix resolves to a directory-typed node). -/
theorem Mkdir_contract (fs : Filesystem) (p : String)
    (hc : CleanAbs fs.cwdPath) (hh : CleanAbs fs.home)
    (hroot : isDirType fs.root.type = true) :
    ((fs.Mkdir p).2 = none →
      (fs.Mkdir p).1.Exists p = true ∧ (fs.Mkdir p).1.IsDir p = true) ∧
    ((fs.Mkdir p).2 = none →
      (fs.Mkdir p).1.Mkdir p = ((fs.Mkdir p).1, none)) ∧
    ((fs.Mkdir p).2.isSome = mkdirConflict fs.root (splitPath (fs.resolvePath p))) ∧
    ((fs.Mkdir p).2 = none → ∀ A B, splitPath (fs.resolvePath p) = A ++ B → A ≠ [] →
      ∃ n, getNodeAt (fs.Mkdir p).1.root A = some n ∧ isDirType n.type = true) := by
  obtain ⟨hgood, hrender⟩ := (resolvePath_cleanAbs fs p hc hh).segs
  have hne : "" ∉ splitPath (fs.resolvePath p) := mem_of_goodSegs_notEmpty hgood
  have hres1 : (fs.Mkdir p).1.resolvePath p = fs.resolvePath p := by
    rw [Mkdir_def]
    exact resolvePath_congr (Filesystem.withRoot_cwdPath fs _)
      (Filesystem.withRoot_home fs _) p
  refine ⟨?_, ?_, ?_, ?_⟩
  · intro hok
    rw [Mkdir_def] at hok
    dsimp only at hok
    obtain ⟨n, hn, hdir⟩ := mkdirAt_ok_getNode (splitPath (fs.resolvePath p)) fs.root hne hok
    unfold Filesystem.Exists Filesystem.IsDir
    rw [hres1]
    unfold Filesystem.getNode
    by_cases hr : fs.resolvePath p = "/"
    · rw [if_pos hr]
      refine ⟨rfl, ?_⟩
      rw [Mkdir_def]
      simp only [Filesystem.withRoot_root]
      rw [mkdirAt_type]
      exact hroot
    · rw [if_neg hr]
      rw [Mkdir_def]
      simp only [Filesystem.withRoot_root]
      rw [hn]
      refine ⟨rfl, ?_⟩
      rcases hdir with hdir | hdir
      · exact hdir
      · exfalso
        apply hr
        rw [hrender, hdir, renderAbs_nil]
  · intro hok
    rw [Mkdir_def] at hok ⊢
    dsimp only at hok
    rw [Mkdir_def]
    have hres2 : (fs.withRoot (mkdirAt fs.root (splitPath (fs.resolvePath p))).1).resolvePath p =
        fs.resolvePath p :=
      resolvePath_congr (Filesystem.withRoot_cwdPath fs _) (Filesystem.withRoot_home fs _) p
    rw [hres2]
    simp only [Filesystem.withRoot_root]
    have hidem := mkdirAt_idem (splitPath (fs.resolvePath p)) fs.root hne hok
    rw [hidem]
    rfl
  · rw [Mkdir_def]
    dsimp only
    exact mkdirAt_error_iff (splitPath (fs.resolvePath p)) fs.root
  · intro hok A B hAB hA
    rw [Mkdir_def] at hok ⊢
    dsimp only at hok
    simp only [Filesystem.withRoot_root]
    exact mkdirAt_ok_prefix (splitPath (fs.resolvePath p)) fs.root hne hok A B hAB hA

/-! ## Lemmas: `Mv` support -/

theorem splitPath_root : splitPath "/" = ([] : List String) := by
  rw [← renderAbs_nil, splitPath_renderAbs (by intro s hs; simp at hs)]

theorem getNodeAt_of_getNode {fs : Filesystem} {q : String} {node : File}
    (hn : fs.getNode q = .ok node) : getNodeAt fs.root (splitPath q) = some node := by
  unfold Filesystem.getNode at hn
  by_cases hr : q = "/"
  · rw [if_pos hr] at hn
    simp only [Except.ok.injEq] at hn
    rw [hr, splitPath_root, ← hn]
    rfl
  · rw [if_neg hr] at hn
    cases hw : getNodeAt fs.root (splitPath q) with
    | none => rw [hw] at hn; simp at hn
    | some w =>
      rw [hw] at hn
      simp only [Except.ok.injEq] at hn
      rw [hn]

theorem getNodeAt_prefix_some {t v : File} {A B : List String}
    (hAB : A <+: B) (h : getNodeAt t B = some v) : ∃ w, getNodeAt t A = some w := by
  obtain ⟨C, rfl⟩ := hAB
  rw [getNodeAt_append] at h
  cases hw : getNodeAt t A with
  | none => rw [hw] at h; simp at h
  | some w => exact ⟨w, rfl⟩

theorem removeFirst_sublist (l : List File) (n : String) :
    List.Sublist (removeFirst l n) l := by
  induction l with
  | nil => exact List.Sublist.refl []
  | cons f fs ih =>
    simp only [removeFirst]
    by_cases hf : f.name = n
    · rw [if_pos hf]
      exact List.sublist_cons_self f fs
    · rw [if_neg hf]
      exact List.Sublist.cons₂ f ih

theorem mem_removeFirst {l : List File} {n : String} {x : File}
    (h : x ∈ removeFirst l n) : x ∈ l :=
  (removeFirst_sublist l n).mem h

/-- Removing a child keeps a node well-formed. -/
theorem WFTree_removeChild {x : File} (n : String) (hx : WFTree x = true) :
    WFTree (x.setChildren (removeFirst x.children n)) = true := by
  apply WFTree_setChildren
  · exact (WFTree.nodup hx).sublist ((removeFirst_sublist x.children n).map File.name)
  · intro hreg
    rw [WFTree.regular_no_children hx hreg]
    rfl
  · intro c hc
    exact WFTree.child hx c (mem_removeFirst hc)

/-- Walking into a node with one appended child is the original walk when
the first segment is not the new child's name. -/
theorem getNodeAt_append_child {d mv : File} {q : String} {R : List String}
    (hq : q ≠ "") (hname : ¬ mv.name = q) :
    getNodeAt (d.setChildren (d.children ++ [mv])) (q :: R) = getNodeAt d (q :: R) := by
  simp only [getNodeAt, if_neg hq, File.children_setChildren]
  cases hfc : findChild d.children q with
  | some c => rw [findChild_append_of_some _ hfc]
  | none =>
    rw [findChild_append_of_none _ hfc]
    simp only [findChild, if_neg hname]

/-- `Mv` of an existing regular file into an existing directory with no
name collision: the move succeeds, the file appears (with its content)
under the directory at the source's base name, and the source path no
longer resolves. -/
theorem Mv_moves_file {fs : Filesystem} {src dst : String} {srcNode dstNode : File}
    (hc : CleanAbs fs.cwdPath) (hh : CleanAbs fs.home)
    (hwf : WFTree fs.root = true)
    (hsrc : fs.getNode (fs.resolvePath src) = .ok srcNode)
    (hsreg : srcNode.type = FileType.regular)
    (hsroot : fs.resolvePath src ≠ "/")
    (hdst : fs.getNode (fs.resolvePath dst) = .ok dstNode)
    (hddir : dstNode.type = FileType.directory)
    (hfree : findChild dstNode.children srcNode.name = none) :
    (fs.Mv src dst).2 = none ∧
    (fs.Mv src dst).1.Exists (joinPath (fs.resolvePath dst) srcNode.name) = true ∧
    (fs.Mv src dst).1.ReadFile (joinPath (fs.resolvePath dst) srcNode.name) =
      .ok srcNode.content ∧
    (fs.Mv src dst).1.Exists src = false := by
  obtain ⟨hSgood, hSrender⟩ := (resolvePath_cleanAbs fs src hc hh).segs
  obtain ⟨hDgood, hDrender⟩ := (resolvePath_cleanAbs fs dst hc hh).segs
  set S := splitPath (fs.resolvePath src) with hS
  set D := splitPath (fs.resolvePath dst) with hD
  have hSne : S ≠ [] := by
    intro h0
    apply hsroot
    rw [hSrender, h0, renderAbs_nil]
  have hlastGood : GoodSeg (S.getLastD "") := goodSeg_getLastD hSgood hSne
  have hsplitS : S.dropLast ++ [S.getLastD ""] = S := dropLast_append_getLastD hSne ""
  have hPgood : GoodSegs S.dropLast := goodSegs_dropLast hSgood
  have hgaS : getNodeAt fs.root S = some srcNode := getNodeAt_of_getNode hsrc
  have hgaD : getNodeAt fs.root D = some dstNode := getNodeAt_of_getNode hdst
  have hname : srcNode.name = S.getLastD "" := by
    apply getNodeAt_last_name hlastGood.1
    rw [hsplitS]
    exact hgaS
  have hsrcWF : WFTree srcNode = true := getNodeAt_WF S fs.root srcNode hwf hgaS
  have hschild : srcNode.children = [] := WFTree.regular_no_children hsrcWF hsreg
  obtain ⟨srcParent, hparS, hpcS⟩ :
      ∃ parent, getNodeAt fs.root S.dropLast = some parent ∧
        findChild parent.children (S.getLastD "") = some srcNode := by
    have h2 := hgaS
    rw [← hsplitS, getNodeAt_append] at h2
    cases hw : getNodeAt fs.root S.dropLast with
    | none => rw [hw] at h2; simp at h2
    | some w =>
      rw [hw] at h2
      simp only [Option.some_bind] at h2
      rw [getNodeAt_singleton w (S.getLastD "") hlastGood.1] at h2
      exact ⟨w, rfl, h2⟩
  have hparWF : WFTree srcParent = true :=
    getNodeAt_WF S.dropLast fs.root srcParent hwf hparS
  have hfreeL : findChild dstNode.children (S.getLastD "") = none := by
    rw [← hname]
    exact hfree
  have hfilterS : S.filter (fun s => decide ¬ (s = "")) = S := by
    apply List.filter_eq_self.2
    intro a ha
    simp only [decide_eq_true_eq]
    exact (hSgood a ha).1
  have hlastS : S.getLast? = some (S.getLastD "") := by
    cases hq : S.getLast? with
    | none => exact absurd (List.getLast?_eq_none_iff.1 hq) hSne
    | some x =>
      rw [List.getLastD_eq_getLast?, hq]
      rfl
  have hPD_ne : ¬ S.dropLast = D := by
    intro heq
    rw [heq, hgaD] at hparS
    have : dstNode = srcParent := by
      have := hparS
      simp only [Option.some.injEq] at this
      exact this
    rw [← this] at hpcS
    rw [hfreeL] at hpcS
    simp at hpcS
  have hnSD : ¬ S <+: D := by
    intro hpre
    obtain ⟨R3, hR3⟩ := hpre
    cases R3 with
    | nil =>
      rw [List.append_nil] at hR3
      rw [hR3, hgaD] at hgaS
      simp only [Option.some.injEq] at hgaS
      rw [hgaS] at hddir
      rw [hddir] at hsreg
      simp at hsreg
    | cons r R3p =>
      have hrD : r ∈ D := by
        rw [← hR3]
        exact List.mem_append.2 (Or.inr (List.mem_cons_self r R3p))
      have hrne : r ≠ "" := (hDgood r hrD).1
      have h4 := hgaD
      rw [← hR3, getNodeAt_append, hgaS] at h4
      simp only [Option.some_bind] at h4
      simp only [getNodeAt, if_neg hrne, hschild, findChild] at h4
      simp at h4
  -- the node reached by the destination walk after the source is detached
  obtain ⟨d1, hd1, hd1type, hd1free⟩ :
      ∃ d1, getNodeAt (modifyAt fs.root S.dropLast
          (fun parent => parent.setChildren
            (removeFirst parent.children (S.getLastD "")))) D = some d1 ∧
        d1.type = dstNode.type ∧
        findChild d1.children (S.getLastD "") = none := by
    by_cases hPpreD : S.dropLast <+: D
    · obtain ⟨RD, hRD⟩ := hPpreD
      cases RD with
      | nil =>
        rw [List.append_nil] at hRD
        exact absurd hRD hPD_ne
      | cons q RDp =>
        have hqD : q ∈ D := by
          rw [← hRD]
          exact List.mem_append.2 (Or.inr (List.mem_cons_self q RDp))
        have hqne : q ≠ "" := (hDgood q hqD).1
        have hql : ¬ q = S.getLastD "" := by
          intro hq
          apply hnSD
          refine ⟨RDp, ?_⟩
          rw [← hRD, ← hsplitS, hq]
          simp
        have horig : getNodeAt srcParent (q :: RDp) = some dstNode := by
          have h5 := hgaD
          rw [← hRD, getNodeAt_append, hparS] at h5
          simpa using h5
        refine ⟨dstNode, ?_, rfl, hfreeL⟩
        have e2 : getNodeAt (modifyAt fs.root S.dropLast
            (fun parent => parent.setChildren
              (removeFirst parent.children (S.getLastD "")))) D =
            getNodeAt (modifyAt fs.root S.dropLast
              (fun parent => parent.setChildren
                (removeFirst parent.children (S.getLastD ""))))
              (S.dropLast ++ (q :: RDp)) := by rw [hRD]
        rw [e2, getNodeAt_append,
          getNodeAt_modifyAt_same fs.root S.dropLast _ (fun x => by simp), hparS]
        simp only [Option.map_some', Option.some_bind]
        rw [← horig]
        simp only [getNodeAt, if_neg hqne, File.children_setChildren]
        rw [findChild_removeFirst_diff hql]
    · by_cases hDpreP : D <+: S.dropLast
      · obtain ⟨RP, hRP⟩ := hDpreP
        cases RP with
        | nil =>
          rw [List.append_nil] at hRP
          exact absurd hRP.symm hPD_ne
        | cons pp RPp =>
          have hppP : pp ∈ S.dropLast := by
            rw [← hRP]
            exact List.mem_append.2 (Or.inr (List.mem_cons_self pp RPp))
          have hppne : pp ≠ "" := (hPgood pp hppP).1
          have e3 : modifyAt fs.root S.dropLast
              (fun parent => parent.setChildren
                (removeFirst parent.children (S.getLastD ""))) =
              modifyAt fs.root D (fun n => modifyAt n (pp :: RPp)
                (fun parent => parent.setChildren
                  (removeFirst parent.children (S.getLastD "")))) := by
            rw [← hRP]
            exact modifyAt_append fs.root D (pp :: RPp) _
          rw [e3, getNodeAt_modifyAt_same fs.root D _
            (fun x => modifyAt_name x (pp :: RPp) _ (fun y => by simp)), hgaD]
          simp only [Option.map_some']
          refine ⟨_, rfl, ?_, ?_⟩
          · exact modifyAt_type dstNode (pp :: RPp) _ (fun y => by simp)
          · simp only [modifyAt, if_neg hppne]
            cases hfc : findChild dstNode.children pp with
            | none => exact hfreeL
            | some c =>
              have hppl : ¬ (S.getLastD "") = pp := by
                intro hq
                rw [← hq] at hfc
                rw [hfreeL] at hfc
                simp at hfc
              simp only [File.children_setChildren]
              rw [findChild_replaceFirst_diff _ ?_ hppl]
              · exact hfreeL
              · rw [modifyAt_name _ _ _ (fun y => by simp)]
                exact findChild_name hfc
      · rw [getNodeAt_modifyAt_diverge fs.root S.dropLast D _
          (fun x => by simp) (mem_of_goodSegs_notEmpty hPgood)
          (mem_of_goodSegs_notEmpty hDgood) hPpreD hDpreP, hgaD]
        exact ⟨dstNode, rfl, rfl, hfreeL⟩
  have hwf1 : WFTree (modifyAt fs.root S.dropLast
      (fun parent => parent.setChildren (removeFirst parent.children (S.getLastD "")))) = true :=
    WFTree_modifyAt S.dropLast _ (fun x => by simp)
      (fun x hx => WFTree_removeChild (S.getLastD "") hx) fs.root hwf
  have hdirs : dirsAlong (modifyAt fs.root S.dropLast
      (fun parent => parent.setChildren (removeFirst parent.children (S.getLastD "")))) D = true := by
    apply dirsAlong_of_walk D _ d1 hwf1 (mem_of_goodSegs_notEmpty hDgood) hd1
    rw [hd1type, hddir]
    rfl
  have hnone1 : getNodeAt (modifyAt fs.root S.dropLast
      (fun parent => parent.setChildren (removeFirst parent.children (S.getLastD "")))) S = none := by
    have e4 : getNodeAt (modifyAt fs.root S.dropLast
      (fun parent => parent.setChildren (removeFirst parent.children (S.getLastD "")))) S =
        getNodeAt (modifyAt fs.root S.dropLast
      (fun parent => parent.setChildren (removeFirst parent.children (S.getLastD "")))) (S.dropLast ++ [S.getLastD ""]) := by
      rw [hsplitS]
    rw [e4, getNodeAt_append,
      getNodeAt_modifyAt_same fs.root S.dropLast _ (fun x => by simp), hparS]
    simp only [Option.map_some', Option.some_bind]
    rw [getNodeAt_singleton _ (S.getLastD "") hlastGood.1]
    simp only [File.children_setChildren]
    exact findChild_removeFirst_unique
      (countName_le_one_of_nodup (WFTree.nodup hparWF) (S.getLastD ""))
  have hnone2 : getNodeAt (modifyAt (modifyAt fs.root S.dropLast
      (fun parent => parent.setChildren (removeFirst parent.children (S.getLastD "")))) D (fun p => p.setChildren (p.children ++ [(File.mk (S.getLastD "") srcNode.type srcNode.content srcNode.children srcNode.size)]))) S = none := by
    by_cases hDS : D <+: S
    · obtain ⟨R2, hR2⟩ := hDS
      cases R2 with
      | nil =>
        rw [List.append_nil] at hR2
        exfalso
        apply hnSD
        rw [hR2]
      | cons r0 R2p =>
        have hr0S : r0 ∈ S := by
          rw [← hR2]
          exact List.mem_append.2 (Or.inr (List.mem_cons_self r0 R2p))
        have hr0ne : r0 ≠ "" := (hSgood r0 hr0S).1
        have e5 : getNodeAt (modifyAt (modifyAt fs.root S.dropLast
      (fun parent => parent.setChildren (removeFirst parent.children (S.getLastD "")))) D (fun p => p.setChildren (p.children ++ [(File.mk (S.getLastD "") srcNode.type srcNode.content srcNode.children srcNode.size)]))) S = getNodeAt (modifyAt (modifyAt fs.root S.dropLast
      (fun parent => parent.setChildren (removeFirst parent.children (S.getLastD "")))) D (fun p => p.setChildren (p.children ++ [(File.mk (S.getLastD "") srcNode.type srcNode.content srcNode.children srcNode.size)]))) (D ++ (r0 :: R2p)) := by
          rw [hR2]
        rw [e5, getNodeAt_append,
          getNodeAt_modifyAt_same _ D _ (fun x => by simp), hd1]
        simp only [Option.map_some', Option.some_bind]
        by_cases hr0l : (S.getLastD "") = r0
        · simp only [getNodeAt, if_neg hr0ne, File.children_setChildren]
          rw [← hr0l]
          rw [findChild_append_of_none _ hd1free]
          have hfcm : findChild [(File.mk (S.getLastD "") srcNode.type srcNode.content srcNode.children srcNode.size)] (S.getLastD "") =
              some (File.mk (S.getLastD "") srcNode.type srcNode.content srcNode.children srcNode.size) := by
            simp [findChild, File.name]
          rw [hfcm]
          dsimp only
          cases R2p with
          | nil =>
            exfalso
            apply hPD_ne
            rw [← hR2, ← hr0l]
            exact List.dropLast_concat
          | cons r1 R2pp =>
            have hr1S : r1 ∈ S := by
              rw [← hR2]
              simp
            have hr1ne : r1 ≠ "" := (hSgood r1 hr1S).1
            simp only [getNodeAt, if_neg hr1ne]
            have hmc : ((File.mk (S.getLastD "") srcNode.type srcNode.content srcNode.children srcNode.size) : File).children = srcNode.children := rfl
            rw [hmc, hschild]
            rfl
        · rw [getNodeAt_append_child hr0ne (by simp only [File.name]; exact hr0l)]
          have e6 := getNodeAt_append (modifyAt fs.root S.dropLast
      (fun parent => parent.setChildren (removeFirst parent.children (S.getLastD "")))) D (r0 :: R2p)
          rw [hd1] at e6
          simp only [Option.some_bind] at e6
          rw [← e6, hR2]
          exact hnone1
    · rw [getNodeAt_modifyAt_diverge _ D S _ (fun x => by simp)
        (mem_of_goodSegs_notEmpty hDgood) (mem_of_goodSegs_notEmpty hSgood) hDS hnSD]
      exact hnone1
  have hgoodD1 : GoodSegs (D ++ [S.getLastD ""]) :=
    goodSegs_append hDgood (by
      intro s hs
      simp only [List.mem_singleton] at hs
      rw [hs]
      exact hlastGood)
  have hjoin : joinPath (fs.resolvePath dst) srcNode.name =
      renderAbs (D ++ [S.getLastD ""]) := by
    rw [hDrender, hname]
    exact joinPath_renderAbs hDgood hlastGood
  have hdirGo2 : dirGo (renderAbs (D ++ [S.getLastD ""])) = renderAbs D := by
    rw [dirGo_renderAbs hgoodD1, List.dropLast_concat]
  have hbaseGo2 : baseGo (renderAbs (D ++ [S.getLastD ""])) = S.getLastD "" := by
    rw [baseGo_renderAbs hgoodD1 (by simp), List.getLastD_concat]
  have hMv : fs.Mv src dst = (fs.withRoot (modifyAt (modifyAt fs.root S.dropLast
      (fun parent => parent.setChildren (removeFirst parent.children (S.getLastD "")))) D (fun p => p.setChildren (p.children ++ [(File.mk (S.getLastD "") srcNode.type srcNode.content srcNode.children srcNode.size)]))), none) := by
    unfold Filesystem.Mv
    dsimp only
    rw [hsrc]
    dsimp only
    rw [hdst]
    dsimp only
    rw [if_pos hddir]
    rw [hjoin, hdirGo2, hbaseGo2]
    rw [hfilterS, hlastS]
    dsimp only
    rw [Mkdir_def]
    rw [resolvePath_renderAbs _ hDgood]
    rw [splitPath_renderAbs hDgood]
    simp only [Filesystem.withRoot_root]
    rw [mkdirAt_dirsAlong D _ hdirs]
    dsimp only
    rw [getNode_renderAbs _ hDgood]
    simp only [Filesystem.withRoot_root]
    rw [hd1]
    dsimp only
    rfl
  have hfcmG : findChild [(File.mk (S.getLastD "") srcNode.type srcNode.content srcNode.children srcNode.size)] (S.getLastD "") =
      some (File.mk (S.getLastD "") srcNode.type srcNode.content srcNode.children srcNode.size) := by
    simp [findChild, File.name]
  rw [hMv]
  refine ⟨rfl, ?_, ?_, ?_⟩
  · unfold Filesystem.Exists
    rw [resolvePath_congr (Filesystem.withRoot_cwdPath _ _) (Filesystem.withRoot_home _ _)]
    rw [hjoin, resolvePath_renderAbs _ hgoodD1, getNode_renderAbs _ hgoodD1]
    simp only [Filesystem.withRoot_root]
    rw [getNodeAt_append, getNodeAt_modifyAt_same _ D _ (fun x => by simp), hd1]
    simp only [Option.map_some', Option.some_bind]
    rw [getNodeAt_singleton _ _ hlastGood.1]
    simp only [File.children_setChildren]
    rw [findChild_append_of_none _ hd1free]
    rw [hfcmG]
  · unfold Filesystem.ReadFile
    rw [resolvePath_congr (Filesystem.withRoot_cwdPath _ _) (Filesystem.withRoot_home _ _)]
    rw [hjoin, resolvePath_renderAbs _ hgoodD1, getNode_renderAbs _ hgoodD1]
    simp only [Filesystem.withRoot_root]
    rw [getNodeAt_append, getNodeAt_modifyAt_same _ D _ (fun x => by simp), hd1]
    simp only [Option.map_some', Option.some_bind]
    rw [getNodeAt_singleton _ _ hlastGood.1]
    simp only [File.children_setChildren]
    rw [findChild_append_of_none _ hd1free]
    rw [hfcmG]
    dsimp only
    rw [hsreg]
    simp only [File.type]
    rw [if_neg (show ¬ FileType.regular = FileType.directory by simp)]
    simp only [File.content]
  · unfold Filesystem.Exists
    rw [resolvePath_congr (Filesystem.withRoot_cwdPath _ _) (Filesystem.withRoot_home _ _)]
    unfold Filesystem.getNode
    rw [if_neg hsroot]
    simp only [Filesystem.withRoot_root]
    rw [hnone2]


/-! ## Lemmas: error atomicity of the command handlers -/

theorem executeTmux_FS (r : MissionRunner) (args : List String) :
    (r.executeTmux args).2.FS = r.FS := by
  unfold MissionRunner.executeTmux
  cases args with
  | nil =>
    dsimp only
    by_cases h : r.Tmux.inSession = true
    · rw [if_pos h]
    · rw [if_neg h]
  | cons subCmd subArgs =>
    dsimp only
    by_cases h1 : subCmd = "new" ∨ subCmd = "new-session"
    · rw [if_pos h1]
      by_cases g : r.Tmux.inSession = true ∧ ¬ r.Tmux.detached = true
      · rw [if_pos g]
      · rw [if_neg g]
    · rw [if_neg h1]
      by_cases h2 : subCmd = "attach" ∨ subCmd = "attach-session" ∨ subCmd = "a"
      · rw [if_pos h2]
        by_cases g : r.Tmux.inSession = true ∧ ¬ r.Tmux.detached = true
        · rw [if_pos g]
        · rw [if_neg g]
          by_cases g2 : ¬ r.Tmux.detached = true ∧ r.Tmux.sessionName = ""
          · rw [if_pos g2]
          · rw [if_neg g2]
      · rw [if_neg h2]
        by_cases h3 : subCmd = "detach" ∨ subCmd = "detach-client" ∨ subCmd = "d"
        · rw [if_pos h3]
          by_cases g : ¬ r.Tmux.inSession = true ∨ r.Tmux.detached = true
          · rw [if_pos g]
          · rw [if_neg g]
        · rw [if_neg h3]
          by_cases h4 : subCmd = "ls" ∨ subCmd = "list-sessions"
          · rw [if_pos h4]
            by_cases g : r.Tmux.sessionName = ""
            · rw [if_pos g]
            · rw [if_neg g]
          · rw [if_neg h4]
            by_cases h5 : subCmd = "split-window" ∨ subCmd = "split"
            · rw [if_pos h5]
              by_cases g : ¬ r.Tmux.inSession = true ∨ r.Tmux.detached = true
              · rw [if_pos g]
              · rw [if_neg g]
            · rw [if_neg h5]
              by_cases h6 : subCmd = "select-pane"
              · rw [if_pos h6]
                by_cases g : ¬ r.Tmux.inSession = true ∨ r.Tmux.detached = true
                · rw [if_pos g]
                · rw [if_neg g]
              · rw [if_neg h6]
                by_cases h7 : subCmd = "new-window"
                · rw [if_pos h7]
                  by_cases g : ¬ r.Tmux.inSession = true ∨ r.Tmux.detached = true
                  · rw [if_pos g]
                  · rw [if_neg g]
                · rw [if_neg h7]
                  by_cases h8 : subCmd = "select-window"
                  · rw [if_pos h8]
                    by_cases g : ¬ r.Tmux.inSession = true ∨ r.Tmux.detached = true
                    · rw [if_pos g]
                    · rw [if_neg g]
                  · rw [if_neg h8]
                    by_cases h9 : subCmd = "kill-session"
                    · rw [if_pos h9]
                      by_cases g : r.Tmux.sessionName = ""
                      · rw [if_pos g]
                      · rw [if_neg g]
                    · rw [if_neg h9]

/-- An erroring command leaves the filesystem untouched, except for `mv`
and the multi-operand loops (excluded by `safeLine`). -/
theorem executeCommand_error_atomic (r : MissionRunner) (cmd : String) (args : List String)
    (hc : CleanAbs r.FS.cwdPath) (hh : CleanAbs r.FS.home)
    (hsafe : safeLine (cmd :: args) = true) :
    (r.executeCommand cmd args).1.error ≠ "" → (r.executeCommand cmd args).2.FS = r.FS := by
  intro herr
  unfold MissionRunner.executeCommand at herr ⊢
  by_cases h1 : cmd = "pwd"
  · rw [if_pos h1]
  · rw [if_neg h1] at herr ⊢
    by_cases h2 : cmd = "ls"
    · rw [if_pos h2]
      try dsimp only
      cases lsScan args ("", false) with
      | mk path showHidden =>
        try dsimp only
        cases r.FS.Ls path showHidden <;> rfl
    · rw [if_neg h2] at herr ⊢
      by_cases h3 : cmd = "cd"
      · rw [if_pos h3] at herr ⊢
        try dsimp only at herr ⊢
        cases args with
        | nil =>
          try dsimp only at herr ⊢
          cases hcd : r.FS.Cd "" with
          | mk fs1 e =>
            rw [hcd] at herr
            cases e with
            | some e0 => rfl
            | none => simp at herr
        | cons a rest =>
          try dsimp only at herr ⊢
          cases hcd : r.FS.Cd a with
          | mk fs1 e =>
            rw [hcd] at herr
            cases e with
            | some e0 => rfl
            | none => simp at herr
      · rw [if_neg h3] at herr ⊢
        by_cases h4 : cmd = "mkdir"
        · rw [if_pos h4] at herr ⊢
          by_cases he : args.isEmpty = true
          · rw [if_pos he]
          · rw [if_neg he] at herr ⊢
            try dsimp only at herr ⊢
            have hcount : nonFlagCount args ≤ 1 := by
              simp only [safeLine, h4] at hsafe
              simp at hsafe
              exact hsafe
            cases hop : opLoopSkipFlags Filesystem.Mkdir r.FS args with
            | mk fs1 e =>
              rw [hop] at herr
              cases e with
              | some e0 =>
                try dsimp only
                have h5 : (opLoopSkipFlags Filesystem.Mkdir r.FS args).2.isSome = true := by
                  rw [hop]
                  rfl
                have h6 := opLoopSkipFlags_single_error Filesystem.Mkdir
                  (fun fs p hp => Mkdir_error_eq hp) args r.FS hcount h5
                rw [hop] at h6
                exact h6
              | none => simp at herr
        · rw [if_neg h4] at herr ⊢
          by_cases h5 : cmd = "touch"
          · rw [if_pos h5] at herr ⊢
            by_cases he : args.isEmpty = true
            · rw [if_pos he]
            · rw [if_neg he] at herr ⊢
              try dsimp only at herr ⊢
              have hlen : args.length ≤ 1 := by
                simp only [safeLine, h5] at hsafe
                simp at hsafe
                exact hsafe
              cases hop : touchLoop r.FS args with
              | mk fs1 e =>
                rw [hop] at herr
                cases e with
                | some e0 =>
                  try dsimp only
                  have h6 : (touchLoop r.FS args).2.isSome = true := by
                    rw [hop]
                    rfl
                  have h7 := touchLoop_single_error hc hh hlen h6
                  rw [hop] at h7
                  exact h7
                | none => simp at herr
          · rw [if_neg h5] at herr ⊢
            by_cases h6 : cmd = "cat"
            · rw [if_pos h6]
              by_cases he : args.isEmpty = true
              · rw [if_pos he]
              · rw [if_neg he]
                try dsimp only
                cases catLoop r.FS args <;> rfl
            · rw [if_neg h6] at herr ⊢
              by_cases h7 : cmd = "cp"
              · rw [if_pos h7] at herr ⊢
                by_cases he : args.length < 2
                · rw [if_pos he]
                · rw [if_neg he] at herr ⊢
                  try dsimp only at herr ⊢
                  cases hcp : r.FS.Cp (args.getD (args.length - 2) "")
                      (args.getD (args.length - 1) "") with
                  | mk fs1 e =>
                    rw [hcp] at herr
                    cases e with
                    | some e0 => rfl
                    | none => simp at herr
              · rw [if_neg h7] at herr ⊢
                by_cases h8 : cmd = "mv"
                · exfalso
                  simp only [safeLine, h8] at hsafe
                  simp at hsafe
                · rw [if_neg h8] at herr ⊢
                  by_cases h9 : cmd = "rm"
                  · rw [if_pos h9] at herr ⊢
                    by_cases he : args.isEmpty = true
                    · rw [if_pos he]
                    · rw [if_neg he] at herr ⊢
                      try dsimp only at herr ⊢
                      have hcount : nonFlagCount args ≤ 1 := by
                        simp only [safeLine, h9] at hsafe
                        simp at hsafe
                        exact hsafe
                      cases hop : opLoopSkipFlags Filesystem.Rm r.FS args with
                      | mk fs1 e =>
                        rw [hop] at herr
                        cases e with
                        | some e0 =>
                          try dsimp only
                          have h10 : (opLoopSkipFlags Filesystem.Rm r.FS args).2.isSome =
                              true := by
                            rw [hop]
                            rfl
                          have h11 := opLoopSkipFlags_single_error Filesystem.Rm
                            (fun fs p hp => Rm_error_eq hp) args r.FS hcount h10
                          rw [hop] at h11
                          exact h11
                        | none => simp at herr
                  · rw [if_neg h9] at herr ⊢
                    by_cases h10 : cmd = "grep"
                    · rw [if_pos h10]
                      by_cases he : args.length < 2
                      · rw [if_pos he]
                      · rw [if_neg he]
                        try dsimp only
                        cases r.FS.Grep (args.getD 0 "") (args.getD 1 "") <;> rfl
                    · rw [if_neg h10] at herr ⊢
                      by_cases h11 : cmd = "find"
                      · rw [if_pos h11]
                        by_cases he : args.length < 3
                        · rw [if_pos he]
                        · rw [if_neg he]
                          try dsimp only
                          by_cases hp : findNameScan args "" = ""
                          · rw [if_pos hp]
                          · rw [if_neg hp]
                            cases r.FS.Find (args.getD 0 "") (findNameScan args "") <;> rfl
                      · rw [if_neg h11] at herr ⊢
                        by_cases h12 : cmd = "echo"
                        · rw [if_pos h12] at herr ⊢
                          try dsimp only at herr ⊢
                          cases hscan : echoScan args [] "" false with
                          | mk echoArgs rest =>
                            rw [hscan] at herr
                            cases rest with
                            | mk outputFile appendMode =>
                              try dsimp only at herr ⊢
                              by_cases hf : outputFile ≠ ""
                              · rw [if_pos hf] at herr ⊢
                                try dsimp only at herr ⊢
                                cases hw : r.FS.WriteFile outputFile
                                    (if appendMode = true then
                                      (match r.FS.ReadFile outputFile with
                                       | .ok existing => existing
                                       | .error _ => "") ++
                                        String.intercalate " " echoArgs ++ "\n"
                                     else String.intercalate " " echoArgs ++ "\n") with
                                | mk fs1 e =>
                                  rw [hw] at herr
                                  cases e with
                                  | some e0 => rfl
                                  | none => simp at herr
                              · rw [if_neg hf]
                        · rw [if_neg h12] at herr ⊢
                          by_cases h13 : cmd = "clear"
                          · rw [if_pos h13]
                          · rw [if_neg h13] at herr ⊢
                            by_cases h14 : cmd = "help"
                            · rw [if_pos h14]
                            · rw [if_neg h14] at herr ⊢
                              by_cases h15 : cmd = "tmux"
                              · rw [if_pos h15]
                                exact executeTmux_FS r args
                              · rw [if_neg h15]

/-- `Execute` on a safe command line: an error leaves `FS` untouched. -/
theorem Execute_error_atomic (r : MissionRunner) (input : String)
    (hc : CleanAbs r.FS.cwdPath) (hh : CleanAbs r.FS.home)
    (hsafe : safeLine (fields (trimGo input)) = true) :
    (r.Execute input).1.error ≠ "" → (r.Execute input).2.FS = r.FS := by
  intro herr
  unfold MissionRunner.Execute at herr ⊢
  dsimp only at herr ⊢
  split at herr
  · simp at herr
  · rename_i hne0
    rw [if_neg hne0]
    split at herr
    · simp at herr
    · rename_i ws cmd args heq
      rw [heq] at hsafe
      set r1 : MissionRunner :=
        { r with Attempts := r.Attempts + 1, History := r.History ++ [input] } with hr1
      have hatom := executeCommand_error_atomic r1 cmd args hc hh hsafe
      cases hec : r1.executeCommand cmd args with
      | mk result r2 =>
        rw [hec] at hatom
        dsimp only at hatom
        rw [hec] at herr
        dsimp only at herr ⊢
        cases hg : r2.Mission.goal with
        | some gfun =>
          rw [hg] at herr
          dsimp only at herr ⊢
          by_cases hgv : gfun r2.FS (trimGo input) = true
          · rw [if_pos hgv] at herr ⊢
            dsimp only at herr ⊢
            exact hatom herr
          · rw [if_neg hgv] at herr ⊢
            exact hatom herr
        | none =>
          rw [hg] at herr
          exact hatom herr
/-! ## Lemmas: `Exists` and the tmux contract -/

theorem Exists_of_getNode {fs : Filesystem} {p : String} {node : File}
    (hn : fs.getNode (fs.resolvePath p) = .ok node) : fs.Exists p = true := by
  unfold Filesystem.Exists
  rw [hn]

/-- The session-creation contract of the tmux emulator: `new`/`new-session`
fail exactly when attached (in-session and not detached); bare `tmux` fails
whenever a session exists, detached or not; every success creates a fresh
attached session with one pane and one window, named by `-s` or `"0"`. -/
theorem executeTmux_new_contract (r : MissionRunner) (sub : String)
    (subArgs : List String) (hsub : sub = "new" ∨ sub = "new-session") :
    (r.Tmux.inSession = true ∧ ¬ r.Tmux.detached = true →
      (r.executeTmux (sub :: subArgs)).1.error =
        "sessions should be nested with care, unset $TMUX to force" ∧
      (r.executeTmux (sub :: subArgs)).2 = r) ∧
    (¬ (r.Tmux.inSession = true ∧ ¬ r.Tmux.detached = true) →
      (r.executeTmux (sub :: subArgs)).1.success = true ∧
      (r.executeTmux (sub :: subArgs)).1.error = "" ∧
      (r.executeTmux (sub :: subArgs)).2.Tmux =
        { inSession := true, sessionName := tmuxSessionName subArgs "0", panes := 1,
          windows := 1, currentPane := 0, currentWindow := 0, detached := false }) ∧
    (r.Tmux.inSession = true →
      (r.executeTmux []).1.error =
        "sessions should be nested with care, unset $TMUX to force" ∧
      (r.executeTmux []).2 = r) ∧
    (r.Tmux.inSession = false →
      (r.executeTmux []).1.success = true ∧
      (r.executeTmux []).1.error = "" ∧
      (r.executeTmux []).2.Tmux =
        { inSession := true, sessionName := "0", panes := 1, windows := 1,
          currentPane := 0, currentWindow := 0, detached := false }) := by
  refine ⟨?_, ?_, ?_, ?_⟩
  · intro h
    unfold MissionRunner.executeTmux
    dsimp only
    rw [if_pos hsub, if_pos h]
    exact ⟨rfl, rfl⟩
  · intro h
    unfold MissionRunner.executeTmux
    dsimp only
    rw [if_pos hsub, if_neg h]
    exact ⟨rfl, rfl, rfl⟩
  · intro h
    unfold MissionRunner.executeTmux
    dsimp only
    rw [if_pos h]
    exact ⟨rfl, rfl⟩
  · intro h
    unfold MissionRunner.executeTmux
    dsimp only
    rw [if_neg (by rw [h]; simp)]
    exact ⟨rfl, rfl, rfl⟩


/-- Manual equation for `parseGoalKey` (the automatic unfolding theorem of
the mutual definition is not available; a case split on the value makes the
two sides definitionally equal). -/
theorem parseGoalKey_eqn (key : String) (value : Yaml) :
    parseGoalKey key value =
      (if key = "always" then .ok .always
      else if key = "pwd_equals" then parseStringGoal key value .pwdEquals
      else if key = "path_exists" then parseStringGoal key value .pathExists
      else if key = "path_not_exists" then parseStringGoal key value .pathNotExists
      else if key = "is_dir" then parseStringGoal key value .isDir
      else if key = "is_file" then parseStringGoal key value .isFile
      else if key = "file_contains" then parseFileContains value
      else if key = "and" then
        match value with
        | .list items =>
          match parseGoalList items with
          | .ok conditions => .ok (.and conditions)
          | .error e => .error e
        | _ => .error "and expects array"
      else if key = "or" then
        match value with
        | .list items =>
          match parseGoalList items with
          | .ok conditions => .ok (.or conditions)
          | .error e => .error e
        | _ => .error "or expects array"
      else if key = "not" then
        match value with
        | .map m =>
          match ParseGoal m with
          | .ok node => .ok (.not node)
          | .error e => .error e
        | _ => .error "not expects map"
      else .error ("unknown goal operation: " ++ key)) := by
  cases value <;> rfl

/-! ## The claims -/

/-- Claim C1 (amended): an erroring dispatched handler leaves the Filesystem
exactly as it was — for every command line except `mv` and the multi-operand
forms of `mkdir`/`touch`/`rm`, whose Go loops keep the effects of earlier
operands when a later one fails. -/
theorem C1_amended_no_partial_mutation :
    ∀ (r : MissionRunner) (input : String),
      CleanAbs r.FS.cwdPath → CleanAbs r.FS.home →
      safeLine (fields (trimGo input)) = true →
      (r.Execute input).1.error ≠ "" → (r.Execute input).2.FS = r.FS :=
  fun r input hc hh hs he => Execute_error_atomic r input hc hh hs he

/-- Claim C1, counterexample to the frozen text: `mkdir d /f/x` (with `/f` an
existing file) reports an error yet leaves the newly created `/d` behind —
the Filesystem is partially mutated. -/
theorem C1_cex_partial_mutation :
    (({freshRunner with FS := (NewFilesystem.Touch "/f").1}).Execute
        "mkdir d /f/x").1.error ≠ "" ∧
    (({freshRunner with FS := (NewFilesystem.Touch "/f").1}).Execute
        "mkdir d /f/x").2.FS.Exists "/d" = true ∧
    ({freshRunner with FS := (NewFilesystem.Touch "/f").1}).FS.Exists "/d" = false :=
  ⟨by decide, by decide, by decide⟩

/-- Claim C1, witness: a failing single-operand `rm` leaves the filesystem
untouched. -/
theorem C1_amended_witness :
    (freshRunner.Execute "rm /nope").2.FS = freshRunner.FS :=
  C1_amended_no_partial_mutation freshRunner "rm /nope"
    ⟨[], by decide, by decide⟩
    ⟨["home", "learner"], by decide, by decide⟩
    (by decide) (by decide)

/-- Claim C2 (amended): when the recorded current directory still resolves to
a directory-typed node, `Clone` returns a state equal to the original — in
this value model that makes the clone's `Pwd` agree at clone time and every
later query on either copy independent of operations on the other. -/
theorem C2_amended_clone_identity :
    ∀ (fs : Filesystem) (node : File), CleanAbs fs.cwdPath →
      fs.getNode fs.cwdPath = .ok node →
      ¬ (node.type ≠ FileType.directory ∧ node.type ≠ FileType.hidden) →
      fs.Clone = fs ∧ fs.Clone.Pwd = fs.Pwd := by
  intro fs node hc hn hd
  have h := Clone_eq fs hc hn hd
  exact ⟨h, by rw [h]⟩

/-- Claim C2, counterexample to the frozen text: after `mv`-ing away the
directory that is the current working directory, the clone's `Pwd` differs
from the original's at clone time (the ignored `Cd` in `Clone` falls back to
the root). -/
theorem C2_cex_clone_pwd :
    ((((NewFilesystem.Mkdir "/tmp").1.Cd "/tmp").1.Mv "/tmp" "/x").1).Clone.Pwd ≠
    ((((NewFilesystem.Mkdir "/tmp").1.Cd "/tmp").1.Mv "/tmp" "/x").1).Pwd := by
  unfold Filesystem.Clone
  dsimp only
  rw [cloneFile_id]
  decide

/-- Claim C2, witness: the fresh filesystem clones to itself. -/
theorem C2_amended_witness :
    NewFilesystem.Clone = NewFilesystem ∧ NewFilesystem.Clone.Pwd = NewFilesystem.Pwd :=
  C2_amended_clone_identity NewFilesystem NewFilesystem.root
    ⟨[], by decide, by decide⟩ (by rfl) (by decide)

/-- Claim C3: `Mkdir` success makes the path an existing directory, repeated
`Mkdir` succeeds and leaves the tree unchanged, `Mkdir` fails exactly when an
intermediate segment resolves to an existing non-directory, and on success
every ancestor prefix of the path resolves to a directory. -/
theorem C3_mkdir_contract (fs : Filesystem) (p : String)
    (hc : CleanAbs fs.cwdPath) (hh : CleanAbs fs.home)
    (hroot : isDirType fs.root.type = true) :
    ((fs.Mkdir p).2 = none →
      (fs.Mkdir p).1.Exists p = true ∧ (fs.Mkdir p).1.IsDir p = true) ∧
    ((fs.Mkdir p).2 = none →
      (fs.Mkdir p).1.Mkdir p = ((fs.Mkdir p).1, none)) ∧
    ((fs.Mkdir p).2.isSome = mkdirConflict fs.root (splitPath (fs.resolvePath p))) ∧
    ((fs.Mkdir p).2 = none → ∀ A B, splitPath (fs.resolvePath p) = A ++ B → A ≠ [] →
      ∃ n, getNodeAt (fs.Mkdir p).1.root A = some n ∧ isDirType n.type = true) :=
  Mkdir_contract fs p hc hh hroot

/-- Claim C3, witness: `mkdir /a/b` on the fresh filesystem creates the
directory, observably via `Exists` and `IsDir`. -/
theorem C3_mkdir_contract_witness :
    (NewFilesystem.Mkdir "/a/b").1.Exists "/a/b" = true ∧
    (NewFilesystem.Mkdir "/a/b").1.IsDir "/a/b" = true :=
  (C3_mkdir_contract NewFilesystem "/a/b"
    ⟨[], by decide, by decide⟩
    ⟨["home", "learner"], by decide, by decide⟩
    (by decide)).1 (by decide)

/-- Claim C4 (amended): `Rm` fails on nodes of type `FileTypeDirectory` and
leaves them intact, fails on the root, and removes any non-directory-typed
node (in a well-formed tree, making the path unresolvable) — hidden
directories count as non-directories here, which is where the frozen text
was wrong. -/
theorem C4_amended_rm_contract (fs : Filesystem) (p : String)
    (hc : CleanAbs fs.cwdPath) (hh : CleanAbs fs.home)
    (hwf : WFTree fs.root = true) :
    (∀ node, fs.getNode (fs.resolvePath p) = .ok node →
      node.type = FileType.directory →
      (fs.Rm p).2.isSome = true ∧ (fs.Rm p).1 = fs ∧ (fs.Rm p).1.Exists p = true) ∧
    (fs.resolvePath p = "/" →
      (fs.Rm p).2.isSome = true ∧ (fs.Rm p).1 = fs) ∧
    (∀ node, fs.getNode (fs.resolvePath p) = .ok node →
      ¬ node.type = FileType.directory → fs.resolvePath p ≠ "/" →
      (fs.Rm p).2 = none ∧ (fs.Rm p).1.Exists p = false) := by
  refine ⟨?_, ?_, ?_⟩
  · intro node hn hd
    obtain ⟨h1, h2⟩ := Rm_dir_error hn hd
    refine ⟨h1, h2, ?_⟩
    rw [h2]
    exact Exists_of_getNode hn
  · exact fun h => Rm_root_error h
  · intro node hn hd hr
    exact Rm_file_removes hc hh hwf hn hd hr

/-- Claim C4, counterexample to the frozen text: `/.d` is a directory in the
code's own `IsDir` sense, yet `Rm` removes it without error, because the
check tests only `FileTypeDirectory` and hidden directories are typed
`FileTypeHidden`. -/
theorem C4_cex_rm_hidden_dir :
    (NewFilesystem.Mkdir "/.d").1.IsDir "/.d" = true ∧
    ((NewFilesystem.Mkdir "/.d").1.Rm "/.d").2 = none ∧
    ((NewFilesystem.Mkdir "/.d").1.Rm "/.d").1.Exists "/.d" = false :=
  ⟨by decide, by decide, by decide⟩

/-- Claim C4, witness: removing a regular file succeeds and the file is gone. -/
theorem C4_amended_witness :
    ((NewFilesystem.Touch "/f.txt").1.Rm "/f.txt").2 = none ∧
    ((NewFilesystem.Touch "/f.txt").1.Rm "/f.txt").1.Exists "/f.txt" = false :=
  (C4_amended_rm_contract (NewFilesystem.Touch "/f.txt").1 "/f.txt"
    ⟨[], by decide, by decide⟩
    ⟨["home", "learner"], by decide, by decide⟩
    (by decide)).2.2
    (File.mk "f.txt" FileType.regular "" [] 0) (by rfl) (by decide) (by decide)

/-- Claim C5 (amended, `Mv` only): moving an existing regular file into an
existing directory (no name collision) appends the source's base name to the
destination: the move succeeds, the file exists there with the source's
content, and the source path no longer resolves.  `Cp` does not have this
property — see the counterexample. -/
theorem C5_amended_mv_moves_file :
    ∀ (fs : Filesystem) (src dst : String) (srcNode dstNode : File),
      CleanAbs fs.cwdPath → CleanAbs fs.home → WFTree fs.root = true →
      fs.getNode (fs.resolvePath src) = .ok srcNode →
      srcNode.type = FileType.regular →
      fs.resolvePath src ≠ "/" →
      fs.getNode (fs.resolvePath dst) = .ok dstNode →
      dstNode.type = FileType.directory →
      findChild dstNode.children srcNode.name = none →
      (fs.Mv src dst).2 = none ∧
      (fs.Mv src dst).1.Exists (joinPath (fs.resolvePath dst) srcNode.name) = true ∧
      (fs.Mv src dst).1.ReadFile (joinPath (fs.resolvePath dst) srcNode.name) =
        .ok srcNode.content ∧
      (fs.Mv src dst).1.Exists src = false :=
  fun fs src dst srcNode dstNode hc hh hwf hsrc hsreg hsroot hdst hddir hfree =>
    Mv_moves_file hc hh hwf hsrc hsreg hsroot hdst hddir hfree

/-- Claim C5, counterexample to the frozen text: `Cp` of a file onto an
existing directory does not create `dst/basename(src)` — it writes the
content onto the directory node itself. -/
theorem C5_cex_cp_onto_dir :
    ((((NewFilesystem.WriteFile "/a.txt" "hi").1.Mkdir "/d").1).Cp "/a.txt" "/d").2 =
      none ∧
    ((((NewFilesystem.WriteFile "/a.txt" "hi").1.Mkdir "/d").1).Cp "/a.txt"
        "/d").1.Exists "/d/a.txt" = false :=
  ⟨by decide, by decide⟩

/-- Claim C5, witness: `mv /a.txt /d` relocates the file into the directory. -/
theorem C5_amended_witness :
    ((((NewFilesystem.WriteFile "/a.txt" "hi").1.Mkdir "/d").1).Mv "/a.txt" "/d").2 =
      none ∧
    ((((NewFilesystem.WriteFile "/a.txt" "hi").1.Mkdir "/d").1).Mv "/a.txt"
        "/d").1.Exists
      (joinPath ((((NewFilesystem.WriteFile "/a.txt" "hi").1.Mkdir
        "/d").1).resolvePath "/d") "a.txt") = true ∧
    ((((NewFilesystem.WriteFile "/a.txt" "hi").1.Mkdir "/d").1).Mv "/a.txt"
        "/d").1.ReadFile
      (joinPath ((((NewFilesystem.WriteFile "/a.txt" "hi").1.Mkdir
        "/d").1).resolvePath "/d") "a.txt") = .ok "hi" ∧
    ((((NewFilesystem.WriteFile "/a.txt" "hi").1.Mkdir "/d").1).Mv "/a.txt"
        "/d").1.Exists "/a.txt" = false :=
  C5_amended_mv_moves_file (((NewFilesystem.WriteFile "/a.txt" "hi").1.Mkdir "/d").1)
    "/a.txt" "/d" (File.mk "a.txt" FileType.regular "hi" [] 2)
    (File.mk "d" FileType.directory "" [] 0)
    ⟨[], by decide, by decide⟩
    ⟨["home", "learner"], by decide, by decide⟩
    (by decide) (by rfl) (by rfl) (by decide) (by rfl) (by rfl) (by rfl)

/-- Claim C6: the goal-DSL laws — an empty structure and an `always` key both
parse to a goal that is true everywhere; `and []` is true and `or []` is
false on every filesystem; `not` parses and evaluates to the negation;
`and [A, B]` holds exactly when both conjuncts do; the combinators
short-circuit left-to-right; and an unknown key or a wrong-typed value
yields a parse error. -/
theorem C6_goal_dsl_laws :
    (ParseGoal [] = .ok .always ∧ ∀ fs, GoalNode.always.Evaluate fs = true) ∧
    (∀ v, ParseGoal [("always", v)] = .ok .always) ∧
    (∀ fs : Filesystem, (GoalNode.and []).Evaluate fs = true ∧
      (GoalNode.or []).Evaluate fs = false) ∧
    (∀ m g, ParseGoal m = .ok g → ParseGoal [("not", Yaml.map m)] = .ok (.not g)) ∧
    (∀ g fs, (GoalNode.not g).Evaluate fs = !(g.Evaluate fs)) ∧
    (∀ A B fs, (GoalNode.and [A, B]).Evaluate fs = true ↔
      A.Evaluate fs = true ∧ B.Evaluate fs = true) ∧
    (∀ g rest fs, g.Evaluate fs = false →
      (GoalNode.and (g :: rest)).Evaluate fs = false) ∧
    (∀ g rest fs, g.Evaluate fs = true →
      (GoalNode.or (g :: rest)).Evaluate fs = true) ∧
    (∀ key v, key ∉ (["always", "pwd_equals", "path_exists", "path_not_exists",
        "is_dir", "is_file", "file_contains", "and", "or", "not"] : List String) →
      ∃ e, ParseGoal [(key, v)] = .error e) ∧
    (∀ v, (∀ str, v ≠ Yaml.str str) → ∃ e, ParseGoal [("path_exists", v)] = .error e) ∧
    (∀ v, (∀ items, v ≠ Yaml.list items) → ∃ e, ParseGoal [("and", v)] = .error e) ∧
    (∀ v, (∀ m, v ≠ Yaml.map m) → ∃ e, ParseGoal [("not", v)] = .error e) := by
  refine ⟨⟨rfl, fun fs => rfl⟩, ?_, fun fs => ⟨rfl, rfl⟩, ?_, fun g fs => rfl,
    ?_, ?_, ?_, ?_, ?_, ?_, ?_⟩
  · intro v
    rw [ParseGoal.eq_def]
    dsimp only
    rw [parseGoalKey_eqn, if_pos rfl]
  · intro m g h
    have e : ParseGoal [("not", Yaml.map m)] =
        (match ParseGoal m with
         | .ok node => .ok (.not node)
         | .error e => .error e) := rfl
    rw [e, h]
  · intro A B fs
    have e : (GoalNode.and [A, B]).Evaluate fs =
        (A.Evaluate fs && (B.Evaluate fs && true)) := rfl
    rw [e]
    simp only [Bool.and_true, Bool.and_eq_true]
  · intro g rest fs h
    have e : (GoalNode.and (g :: rest)).Evaluate fs =
        (g.Evaluate fs && evalAll rest fs) := rfl
    rw [e, h]
    rfl
  · intro g rest fs h
    have e : (GoalNode.or (g :: rest)).Evaluate fs =
        (g.Evaluate fs || evalAny rest fs) := rfl
    rw [e, h]
    rfl
  · intro key v hk
    simp only [List.mem_cons, List.mem_singleton, not_or] at hk
    obtain ⟨k1, k2, k3, k4, k5, k6, k7, k8, k9, k10, _⟩ := hk
    rw [ParseGoal.eq_def]
    dsimp only
    rw [parseGoalKey_eqn]
    rw [if_neg k1, if_neg k2, if_neg k3, if_neg k4, if_neg k5, if_neg k6, if_neg k7,
      if_neg k8, if_neg k9, if_neg k10]
    exact ⟨_, rfl⟩
  · intro v hv
    cases v with
    | str s => exact absurd rfl (hv s)
    | list items => exact ⟨_, rfl⟩
    | map m => exact ⟨_, rfl⟩
    | other => exact ⟨_, rfl⟩
  · intro v hv
    cases v with
    | str s => exact ⟨_, rfl⟩
    | list items => exact absurd rfl (hv items)
    | map m => exact ⟨_, rfl⟩
    | other => exact ⟨_, rfl⟩
  · intro v hv
    cases v with
    | str s => exact ⟨_, rfl⟩
    | list items => exact ⟨_, rfl⟩
    | map m => exact absurd rfl (hv m)
    | other => exact ⟨_, rfl⟩

/-- Claim C6, witness: `{not: {}}` parses to the negation of `always`, and the
empty `and` evaluates true on the default filesystem. -/
theorem C6_goal_dsl_witness :
    ParseGoal [("not", Yaml.map [])] = .ok (.not .always) ∧
    (GoalNode.and []).Evaluate NewFilesystem = true :=
  ⟨C6_goal_dsl_laws.2.2.2.1 [] .always rfl,
   (C6_goal_dsl_laws.2.2.1 NewFilesystem).1⟩

/-- Claim C7 (amended): `tmux new`/`new-session` fail with the nesting-guard
error exactly when attached (in a session and not detached), and otherwise
create an attached session (named by `-s`, default `"0"`) with one pane and
one window; bare `tmux`, however, fails whenever a session exists — even
detached, where the frozen text promised success.  The concrete first-tmux /
second-tmux / detach-then-new sequence behaves as described. -/
theorem C7_amended_tmux_creation :
    (∀ (r : MissionRunner) (sub : String) (subArgs : List String),
      (sub = "new" ∨ sub = "new-session") →
      (r.Tmux.inSession = true ∧ ¬ r.Tmux.detached = true →
        (r.executeTmux (sub :: subArgs)).1.error =
          "sessions should be nested with care, unset $TMUX to force" ∧
        (r.executeTmux (sub :: subArgs)).2 = r) ∧
      (¬ (r.Tmux.inSession = true ∧ ¬ r.Tmux.detached = true) →
        (r.executeTmux (sub :: subArgs)).1.success = true ∧
        (r.executeTmux (sub :: subArgs)).1.error = "" ∧
        (r.executeTmux (sub :: subArgs)).2.Tmux =
          { inSession := true, sessionName := tmuxSessionName subArgs "0",
            panes := 1, windows := 1, currentPane := 0, currentWindow := 0,
            detached := false }) ∧
      (r.Tmux.inSession = true →
        (r.executeTmux []).1.error =
          "sessions should be nested with care, unset $TMUX to force" ∧
        (r.executeTmux []).2 = r) ∧
      (r.Tmux.inSession = false →
        (r.executeTmux []).1.success = true ∧
        (r.executeTmux []).1.error = "" ∧
        (r.executeTmux []).2.Tmux =
          { inSession := true, sessionName := "0", panes := 1, windows := 1,
            currentPane := 0, currentWindow := 0, detached := false })) ∧
    ((freshRunner.executeTmux []).1.success = true ∧
      (freshRunner.executeTmux []).2.Tmux.sessionName = "0" ∧
      (freshRunner.executeTmux []).2.Tmux.panes = 1 ∧
      (freshRunner.executeTmux []).2.Tmux.windows = 1) ∧
    (((freshRunner.executeTmux []).2.executeTmux []).1.error ≠ "") ∧
    (((freshRunner.executeTmux []).2.executeTmux ["new"]).1.error ≠ "") ∧
    (((((freshRunner.executeTmux []).2.executeTmux ["detach"]).2).executeTmux
        ["new"]).1.success = true) := by
  refine ⟨fun r sub subArgs hsub => executeTmux_new_contract r sub subArgs hsub,
    ⟨by decide, by decide, by decide, by decide⟩, by decide, by decide, by decide⟩

/-- Claim C7, counterexample to the frozen text: with a session created and
then detached, the client is no longer attached, yet bare `tmux` still fails
with the nesting-guard error (the guard tests only the in-session flag). -/
theorem C7_cex_bare_tmux_detached :
    ((((freshRunner.executeTmux []).2).executeTmux ["detach"]).2).Tmux.inSession =
      true ∧
    ((((freshRunner.executeTmux []).2).executeTmux ["detach"]).2).Tmux.detached =
      true ∧
    (((((freshRunner.executeTmux []).2).executeTmux ["detach"]).2).executeTmux
        []).1.error ≠ "" ∧
    (((((freshRunner.executeTmux []).2).executeTmux ["detach"]).2).executeTmux
        []).1.success = false :=
  ⟨by decide, by decide, by decide, by decide⟩

/-- Claim C7, witness: a second `tmux new` while attached fails and leaves the
runner unchanged. -/
theorem C7_amended_witness :
    (((freshRunner.executeTmux []).2).executeTmux ["new"]).2 =
      (freshRunner.executeTmux []).2 :=
  ((C7_amended_tmux_creation.1 (freshRunner.executeTmux []).2 "new" []
    (Or.inl rfl)).1 ⟨by decide, by decide⟩).2

/-- Claim C8 (amended): `Ls` of a path resolving to a directory-typed (or
hidden) node returns the visible children, sorted, where each child of type
`FileTypeDirectory` is suffixed with a slash — children that are hidden
directories (type `FileTypeHidden`) get no suffix, which is where the frozen
text was wrong. -/
theorem C8_amended_ls_contract :
    ∀ (fs : Filesystem) (p : String) (showHidden : Bool) (node : File),
      fs.getNode (fs.resolvePath (if p = "" then fs.cwdPath else p)) = .ok node →
      ¬ (node.type ≠ FileType.directory ∧ node.type ≠ FileType.hidden) →
      ∃ L, fs.Ls p showHidden = .ok L ∧
        List.Pairwise (fun a b => a ≤ b) L ∧
        ∀ x, x ∈ L ↔ x ∈ node.children.filterMap (fun child =>
          if ¬ hasPrefixGo child.name "." = true ∨ showHidden = true then
            some (child.name ++ if child.type = FileType.directory then "/" else "")
          else none) :=
  fun fs p showHidden node hn hd => Ls_ok hn hd

/-- Claim C8, counterexample to the frozen text: `/d/.s` is a directory (its
`IsDir` is true), but `ls -a /d` lists it as `.s`, with no `/` suffix. -/
theorem C8_cex_hidden_dir_suffix :
    (((NewFilesystem.Mkdir "/d").1.Mkdir "/d/.s").1).IsDir "/d/.s" = true ∧
    ∃ L, (((NewFilesystem.Mkdir "/d").1.Mkdir "/d/.s").1).Ls "/d" true = .ok L ∧
      ".s" ∈ L ∧ ".s/" ∉ L := by
  refine ⟨by decide, ?_⟩
  obtain ⟨L, hL, hsort, hmem⟩ :=
    @Ls_ok ((NewFilesystem.Mkdir "/d").1.Mkdir "/d/.s").1 "/d" true
      (File.mk "d" FileType.directory "" [File.mk ".s" FileType.hidden "" [] 0] 0)
      (by rfl) (by decide)
  refine ⟨L, hL, ?_, ?_⟩
  · rw [hmem]
    decide
  · rw [hmem]
    decide

/-- Claim C8, witness: listing a directory with one regular file yields its
name without a suffix. -/
theorem C8_amended_witness :
    ∃ L, (((NewFilesystem.Mkdir "/d").1.WriteFile "/d/b.txt" "x").1).Ls "/d" false =
        .ok L ∧
      List.Pairwise (fun a b => a ≤ b) L ∧
      ∀ x, x ∈ L ↔ x ∈ [("b.txt" : String)] := by
  obtain ⟨L, hL, hsort, hmem⟩ :=
    C8_amended_ls_contract (((NewFilesystem.Mkdir "/d").1.WriteFile "/d/b.txt"
      "x").1) "/d" false
      (File.mk "d" FileType.directory "" [File.mk "b.txt" FileType.regular "x" [] 1] 0)
      (by rfl) (by decide)
  refine ⟨L, hL, hsort, fun x => ?_⟩
  rw [hmem]
  exact Iff.rfl

/-- Claim C9: the completed flag is sticky — once a runner's `Completed` is
true, it stays true across any further sequence of `Execute` calls. -/
theorem C9_completed_sticky :
    ∀ (r : MissionRunner) (inputs : List String), r.Completed = true →
      (execSeq r inputs).Completed = true := by
  intro r inputs
  induction inputs generalizing r with
  | nil => exact fun h => h
  | cons i rest ih => exact fun h => ih _ (Execute_sticky r i h)

/-- Claim C9, witness: a completed fresh runner stays completed after another
command. -/
theorem C9_completed_sticky_witness :
    (execSeq {freshRunner with Completed := true} ["pwd"]).Completed = true :=
  C9_completed_sticky {freshRunner with Completed := true} ["pwd"] rfl

/-- Claim C10: `Reset` replaces `FS` with a fresh clone of `InitialFS`, zeroes
`Attempts`, empties `History`, and changes nothing else — `Mission`,
`InitialFS`, `Completed` and the whole `TmuxState` are untouched. -/
theorem C10_reset_frame :
    ∀ r : MissionRunner,
      (r.Reset).FS = r.InitialFS.Clone ∧
      (r.Reset).Attempts = 0 ∧
      (r.Reset).History = [] ∧
      (r.Reset).Mission = r.Mission ∧
      (r.Reset).InitialFS = r.InitialFS ∧
      (r.Reset).Completed = r.Completed ∧
      (r.Reset).Tmux = r.Tmux :=
  fun r => ⟨rfl, rfl, rfl, rfl, rfl, rfl, rfl⟩

end Turtle
